import Mathlib

/-!
# cp-tracker: leaderboard weighting, leaderboard ranking, streak calculation, reordering

Shallow embedding of `backend/routes/leaderboard.js`, of the status, notes and streak
handlers of `backend/routes/progress.js`, of the add and reorder handlers of
`backend/routes/problems.js`, of the profile handler of `backend/routes/profile.js` and of
`getRelativeTime` of `frontend/src/App.tsx`, with the mongoose documents of
`backend/models/`.

Modelling conventions.
* A JavaScript `Number` that holds an integer is an `Int`; arithmetic on it is exact
  (this is the behaviour of IEEE doubles for magnitudes below `2 ^ 53`).  `NaN`, the only
  non-integer value the modelled code can meet, is `none` in `Option Int`.  A rating is a
  free string, so the weight and the score are also given as IEEE doubles (`Number`,
  `weight`, `weightedScore`), with rounding and Infinity; `weight_eq_computeWeight` and
  `weightedScore_eq_memberEntry` relate the two readings.
* A JavaScript `Date` is its time value: milliseconds since the epoch, an `Int`.  The
  streak handler is given for a host with one fixed UTC offset (`streak`) and for a host
  whose offset changes (`streakIn`); `streakIn_fixedZone` relates the two.
* The collections of the store are lists of documents; a query is a filter of the list.
* The reorder handler is given on identifiers (`reorder`) and on the string of the request
  (`reorderRequest`); `reorderRequest_canonical` relates the two.
-/

namespace CpTracker

set_option exponentiation.threshold 2048

/-! ## JavaScript primitives used by the routes -/

/-- White space and line terminators skipped by `parseInt` before the number
(`StrWhiteSpaceChar` of ECMA-262). -/
def isStrWhiteSpaceChar (c : Char) : Bool :=
  let n := c.toNat
  n = 0x9 || n = 0xA || n = 0xB || n = 0xC || n = 0xD || n = 0x20 || n = 0xA0 ||
  n = 0x1680 || (0x2000 ≤ n && n ≤ 0x200A) || n = 0x2028 || n = 0x2029 || n = 0x202F ||
  n = 0x205F || n = 0x3000 || n = 0xFEFF

/-- Value of a character read as a digit in some radix up to 36: `0-9`, then letters of
either case for 10 to 35. -/
def digitValue (c : Char) : Option Nat :=
  let n := c.toNat
  if 48 ≤ n ∧ n ≤ 57 then some (n - 48)
  else if 97 ≤ n ∧ n ≤ 122 then some (n - 87)
  else if 65 ≤ n ∧ n ≤ 90 then some (n - 55)
  else none

/-- Value of `c` as a digit of radix `R`, or `none` when `c` is not a radix-`R` digit. -/
def radixDigit (R : Nat) (c : Char) : Option Nat :=
  match digitValue c with
  | some d => if d < R then some d else none
  | none => none

/-- Longest prefix of `s` made of radix-`R` digits, as the list of digit values. -/
def leadingDigits (R : Nat) : List Char → List Nat
  | [] => []
  | c :: cs =>
    match radixDigit R c with
    | some d => d :: leadingDigits R cs
    | none => []

/-- Mathematical value of a digit sequence in radix `R`, most significant digit first. -/
def digitsValue (R : Nat) (ds : List Nat) : Nat :=
  ds.foldl (fun acc d => acc * R + d) 0

/-- Steps 2 to 4 of `parseInt`: strip leading white space, read and remove one sign. -/
def stripSign (s : List Char) : Int × List Char :=
  match s.dropWhile isStrWhiteSpaceChar with
  | [] => (1, [])
  | c :: cs =>
    if c = '-' then (-1, cs)
    else if c = '+' then (1, cs)
    else (1, c :: cs)

/-- Step 6 of `parseInt` with no radix argument: radix 16 after a `0x` or `0X` prefix,
radix 10 otherwise. -/
def stripHexMarker (s : List Char) : Nat × List Char :=
  match s with
  | c₀ :: c₁ :: cs =>
    if c₀ = '0' ∧ (c₁ = 'x' ∨ c₁ = 'X') then (16, cs) else (10, s)
  | _ => (10, s)

/-- The call `parseInt(string)` (one argument).  `none` is `NaN`. -/
def parseInt (string : String) : Option Int :=
  let (sign, s₁) := stripSign string.toList
  let (R, s₂) := stripHexMarker s₁
  match leadingDigits R s₂ with
  | [] => none
  | d :: ds => some (sign * (digitsValue R (d :: ds) : Int))

/-! ## Documents (`backend/models`) -/

/-- A document of `models/Problem.js`. -/
structure Problem where
  _id : Nat
  teamId : String
  name : String
  link : String
  rating : String
  platform : String
  sheet : String
  order : Int
  createdBy : String
  deriving DecidableEq

/-- A document of `models/UserProgress.js`.  `solvedAt` is a time value when set.  The path
`updatedAt`, which none of the handlers below reads, is left out. -/
structure UserProgress where
  teamId : String
  username : String
  problemId : Nat
  status : String
  solvedAt : Option Int
  notes : String
  deriving DecidableEq

/-- An element of `members` in `models/Team.js`. -/
structure Member where
  username : String
  password : String
  deriving DecidableEq

/-- A document of `models/Team.js`. -/
structure Team where
  teamId : String
  teamName : String
  members : List Member
  deriving DecidableEq

/-- The persisted store read by the routes. -/
structure Store where
  teams : List Team
  problems : List Problem
  progress : List UserProgress
  deriving DecidableEq

/-! ## Weighting (`routes/leaderboard.js`, lines 43 to 65) -/

/-- Weight of one solved problem, computed with exact integers: the body of the inner
loop, from `let weight = 1` to the end of the conditional chain.  It is the code's value
while the integer read from the rating is below `2 ^ 53` in magnitude; `weight` below
follows the code on every rating. -/
def computeWeight (platform rating : String) : Int :=
  if platform = "TLE" then
    match parseInt rating with
    | some numRating => max 1 (Int.fdiv numRating 100)
    | none => 1
  else if platform = "USACO" then
    if rating = "Bronze" then 5
    else if rating = "Silver" then 10
    else if rating = "Gold" then 15
    else if rating = "Platinum" then 20
    else 1
  else if platform = "CSES" then
    if rating = "Intro" then 3
    else if rating = "Sorting" then 6
    else if rating = "DP" then 10
    else if rating = "Graph" then 12
    else 1
  else 1

/-- The weight table as the specification words it, for the platforms with named tiers. -/
def tierTable (platform rating : String) : Int :=
  match platform, rating with
  | "USACO", "Bronze" => 5
  | "USACO", "Silver" => 10
  | "USACO", "Gold" => 15
  | "USACO", "Platinum" => 20
  | "CSES", "Intro" => 3
  | "CSES", "Sorting" => 6
  | "CSES", "DP" => 10
  | "CSES", "Graph" => 12
  | _, _ => 1

/-! ## Leaderboard (`routes/leaderboard.js`) -/

/-- Outcome of a route handler: the JSON body of a successful response, or an error
response with its HTTP status. -/
inductive Response (α : Type) where
  | json (body : α)
  | error (status : Nat) (message : String)
  deriving DecidableEq

/-- An element of the `leaderboard` array. -/
structure Entry where
  username : String
  solvedCount : Int
  weightedScore : Int
  deriving DecidableEq

/-- The query `UserProgress.find({ teamId, username, status: 'solved' })`. -/
def findSolved (db : Store) (teamId username : String) : List UserProgress :=
  db.progress.filter
    (fun p => p.teamId = teamId ∧ p.username = username ∧ p.status = "solved")

/-- The call `.populate('problemId')` on one record: the referenced problem document, or
`none` (JavaScript `null`) when no problem with that id is stored. -/
def populate (db : Store) (p : UserProgress) : Option Problem :=
  db.problems.find? (fun q => q._id = p.problemId)

/-- One pass of the loop `for (const progress of solvedProgress)`, on the populated
`progress.problemId` and the running `weightedScore`. -/
def scoreStep (weightedScore : Int) (problem : Option Problem) : Int :=
  match problem with
  | none => weightedScore
  | some problem => weightedScore + computeWeight problem.platform problem.rating

/-- The loop over `solvedProgress` that accumulates `weightedScore` from 0. -/
def weightedScoreOf (solvedProgress : List (Option Problem)) : Int :=
  solvedProgress.foldl scoreStep 0

/-- The body of the loop `for (const member of team.members)`: the entry pushed for one
member. -/
def memberEntry (db : Store) (teamId : String) (member : Member) : Entry :=
  let username := member.username
  let solvedProgress := (findSolved db teamId username).map (populate db)
  let solvedCount : Int := solvedProgress.length
  let weightedScore := weightedScoreOf solvedProgress
  { username := username, solvedCount := solvedCount, weightedScore := weightedScore }

/-- The comparator passed to `leaderboard.sort`. -/
def compareEntries (a b : Entry) : Int :=
  if b.weightedScore ≠ a.weightedScore then b.weightedScore - a.weightedScore
  else b.solvedCount - a.solvedCount

/-- The method `Array.prototype.sort(comparefn)`: a stable sort that puts `a` before `b`
when `comparefn(a, b) ≤ 0` (ECMA-262 fixes the result for a consistent comparator, not the
algorithm; insertion from the right is one stable realisation). -/
def arraySort {α : Type} (comparefn : α → α → Int) (l : List α) : List α :=
  l.insertionSort (fun a b => comparefn a b ≤ 0)

/-- The array `leaderboard` before sorting: one entry per member, in member-list order. -/
def unsortedLeaderboard (db : Store) (teamId : String) (team : Team) : List Entry :=
  team.members.map (memberEntry db teamId)

/-- The handler `router.get('/')` of the leaderboard route for a caller of team `teamId`. -/
def getLeaderboard (db : Store) (teamId : String) : Response (List Entry) :=
  match db.teams.find? (fun t => t.teamId = teamId) with
  | none => Response.error 404 "Team not found"
  | some team => Response.json (arraySort compareEntries (unsortedLeaderboard db teamId team))

/-! ## The weight and the score as IEEE doubles

`computeWeight` and `weightedScoreOf` above compute with exact integers, which is what the
code does while every Number involved stays below `2 ^ 53` in magnitude.  A rating is a
free string, so `parseInt` can read an integer of any size; the definitions below follow
the code on every input: `parseInt` rounds the integer it reads to the nearest double
(ties to even, Infinity beyond the largest double), `/` and `+` round their exact result
the same way. -/

/-- The Number values the weight computation can meet: a finite double whose value is an
integer (`-0` is identified with `0`), the two infinities and `NaN`. -/
inductive Number where
  | finite (value : Int)
  | posInfinity
  | negInfinity
  | nan
  deriving DecidableEq

/-- Position of the leading binary digit of `n`, found by at most `fuel` halvings. -/
def log2Fuel : Nat → Nat → Nat
  | 0, _ => 0
  | fuel + 1, n => if n < 2 then 0 else log2Fuel fuel (n / 2) + 1

/-- The exponent `k` with `2 ^ k ≤ n < 2 ^ (k + 1)`, for `0 < n < 2 ^ 1024`. -/
def floorLog2 (n : Nat) : Nat :=
  log2Fuel 1024 n

/-- A natural number below `2 ^ 1024` rounded to 53 significant binary digits, to nearest
and ties to even. -/
def roundToPrecision (n : Nat) : Nat :=
  if n < 2 ^ 53 then n
  else
    let shift := floorLog2 n - 52
    let q := n / 2 ^ shift
    let r := n % 2 ^ shift
    let half := 2 ^ (shift - 1)
    if r > half ∨ (r = half ∧ q % 2 = 1) then (q + 1) * 2 ^ shift else q * 2 ^ shift

/-- The Number for a mathematical integer: its nearest double, an infinity when that is
`2 ^ 1024` or more in magnitude. -/
def toNumber (z : Int) : Number :=
  if 2 ^ 1024 ≤ z.natAbs then (if z < 0 then Number.negInfinity else Number.posInfinity)
  else
    let m := roundToPrecision z.natAbs
    if 2 ^ 1024 ≤ m then (if z < 0 then Number.negInfinity else Number.posInfinity)
    else Number.finite (if z < 0 then -(m : Int) else m)

/-- The call `parseInt(string)` as the Number it returns: the double nearest to the integer
read, as V8 computes it.  (ECMA-262 also lets an implementation read the decimal digits
after the 20th as 0; none of the values evaluated below depends on that choice.) -/
def parseIntNumber (string : String) : Number :=
  match parseInt string with
  | none => Number.nan
  | some z => toNumber z

/-- The double `a / 100` for a finite double `a ≥ 0` with an integer value, as a pair
`(m, s)` that stands for `m / 2 ^ s`.  With `2 ^ k ≤ a / 100 < 2 ^ (k + 1)` the doubles
near the quotient are the multiples of `2 ^ (k - 52)`; `k` is `floorLog2 a - 7` or
`floorLog2 a - 6`. -/
def divideBy100 (a : Nat) : Nat × Nat :=
  let la := floorLog2 a
  let b := if 100 * 2 ^ la ≤ a * 64 then 1 else 0
  if la + b ≤ 59 then
    let s := 59 - (la + b)
    let q := a * 2 ^ s / 100
    let r := a * 2 ^ s % 100
    (if r > 50 ∨ (r = 50 ∧ q % 2 = 1) then q + 1 else q, s)
  else
    let e := la + b - 59
    let q := a / (100 * 2 ^ e)
    let r := a % (100 * 2 ^ e)
    ((if 2 * r > 100 * 2 ^ e ∨ (2 * r = 100 * 2 ^ e ∧ q % 2 = 1) then q + 1 else q) * 2 ^ e,
      0)

/-- The expression `Math.floor(numRating / 100)` for a finite `numRating`. -/
def floorDiv100 (numRating : Int) : Int :=
  let (m, s) := divideBy100 numRating.natAbs
  if 0 ≤ numRating then ((m / 2 ^ s : Nat) : Int)
  else -(((m + 2 ^ s - 1) / 2 ^ s : Nat) : Int)

/-- Weight of one solved problem as the Number the code computes: the body of the inner
loop, from `let weight = 1` to the end of the conditional chain. -/
def weight (platform rating : String) : Number :=
  if platform = "TLE" then
    match parseIntNumber rating with
    | Number.nan => Number.finite 1
    | Number.finite numRating => Number.finite (max 1 (floorDiv100 numRating))
    | Number.posInfinity => Number.posInfinity
    | Number.negInfinity => Number.finite 1
  else if platform = "USACO" then
    if rating = "Bronze" then Number.finite 5
    else if rating = "Silver" then Number.finite 10
    else if rating = "Gold" then Number.finite 15
    else if rating = "Platinum" then Number.finite 20
    else Number.finite 1
  else if platform = "CSES" then
    if rating = "Intro" then Number.finite 3
    else if rating = "Sorting" then Number.finite 6
    else if rating = "DP" then Number.finite 10
    else if rating = "Graph" then Number.finite 12
    else Number.finite 1
  else Number.finite 1

/-- The operator `+` on Numbers. -/
def Number.add : Number → Number → Number
  | Number.finite a, Number.finite b => toNumber (a + b)
  | Number.nan, _ => Number.nan
  | _, Number.nan => Number.nan
  | Number.posInfinity, Number.negInfinity => Number.nan
  | Number.negInfinity, Number.posInfinity => Number.nan
  | Number.posInfinity, _ => Number.posInfinity
  | _, Number.posInfinity => Number.posInfinity
  | Number.negInfinity, _ => Number.negInfinity
  | _, Number.negInfinity => Number.negInfinity

/-- One pass of the loop `for (const progress of solvedProgress)` on Numbers:
`if (!problem) continue; ... weightedScore += weight`. -/
def addWeight (weightedScore : Number) (problem : Option Problem) : Number :=
  match problem with
  | none => weightedScore
  | some problem => weightedScore.add (weight problem.platform problem.rating)

/-- The `weightedScore` pushed for `member`, as the Number the code computes. -/
def weightedScore (db : Store) (teamId : String) (member : Member) : Number :=
  ((findSolved db teamId member.username).map (populate db)).foldl addWeight
    (Number.finite 0)

/-- A member who solved a TLE problem whose rating is `100 * 2 ^ 53` and a problem of
another platform. -/
def storeLargeRating : Store :=
  { teams := [{ teamId := "t1", teamName := "Team t1", members := [⟨"A", "pw"⟩] }],
    problems :=
      [⟨1, "t1", "P1", "l1", "900719925474099200", "TLE", "TLE", 1, "system"⟩,
       ⟨2, "t1", "P2", "l2", "N/A", "Custom", "Custom", 1, "system"⟩],
    progress :=
      [⟨"t1", "A", 1, "solved", some 1000, ""⟩,
       ⟨"t1", "A", 2, "solved", some 2000, ""⟩] }

/-! ## Streak (`routes/progress.js`, `router.get('/streak/:username')`)

The host's local time is UTC plus a fixed `offset` in milliseconds (`streakIn` below is
the handler on a host whose offset changes).  The string
`d.toISOString().split('T')[0]` is the UTC calendar day of `d` written `YYYY-MM-DD`; for
years 0000 to 9999 these strings compare (as strings) exactly as the day numbers they
denote, and the handler only tests them for equality and sorts them, so the string is
modelled by the UTC day number. -/

/-- Milliseconds per day. -/
def msPerDay : Int := 86400000

/-- The call `d.setHours(0, 0, 0, 0)`: the time value of local midnight of the local day
of `t`. -/
def setHoursZero (offset t : Int) : Int :=
  (t + offset) / msPerDay * msPerDay - offset

/-- The expression `d.toISOString().split('T')[0]`: the UTC calendar day of `t`. -/
def isoDate (t : Int) : Int :=
  t / msPerDay

/-- The call `d.setDate(d.getDate() - 1)`: the same local time of day on the previous
local calendar day. -/
def setDatePrev (offset t : Int) : Int :=
  ((t + offset) / msPerDay - 1) * msPerDay + (t + offset) % msPerDay - offset

/-- The key under which one `solvedAt` is entered in `dateMap`. -/
def dateStr (offset solvedAt : Int) : Int :=
  isoDate (setHoursZero offset solvedAt)

/-- The `forEach` that fills `dateMap`; the result is the list of keys of the map in
insertion order. -/
def groupByDate (offset : Int) (solvedProblems : List Int) : List Int :=
  solvedProblems.foldl
    (fun dateMap solvedAt =>
      if dateStr offset solvedAt ∈ dateMap then dateMap
      else dateMap ++ [dateStr offset solvedAt])
    []

/-- The expression `Array.from(dateMap.keys()).sort().reverse()`. -/
def sortedDatesOf (offset : Int) (solvedProblems : List Int) : List Int :=
  ((groupByDate offset solvedProblems).insertionSort (fun a b => a ≤ b)).reverse

/-- The loop `for (let i = 1; i < sortedDates.length; i++)`, run on the elements
`sortedDates[i]` still to visit, with the current `currentDate` and `streak`. -/
def countConsecutive (offset : Int) : List Int → Int → Nat → Nat
  | [], _, streak => streak
  | d :: rest, currentDate, streak =>
    let prevDate := setDatePrev offset currentDate
    if d = isoDate prevDate then countConsecutive offset rest prevDate (streak + 1)
    else streak

/-- The handler of the streak route from line 115 on: `solvedProblems` are the `solvedAt`
time values of the records found, `now` is the time value of `new Date()`. -/
def streak (offset now : Int) (solvedProblems : List Int) : Nat :=
  if solvedProblems.length = 0 then 0
  else
    let today := setHoursZero offset now
    let sortedDates := sortedDatesOf offset solvedProblems
    let todayStr := isoDate today
    let yesterday := setDatePrev offset today
    let yesterdayStr := isoDate yesterday
    if sortedDates.head? = some todayStr then
      countConsecutive offset sortedDates.tail today 1
    else if sortedDates.head? = some yesterdayStr then
      countConsecutive offset sortedDates.tail yesterday 1
    else 0

/-- The local calendar day of `t`, as a day number. -/
def localDay (offset t : Int) : Int :=
  (t + offset) / msPerDay

/-- Some solved record falls on the local calendar day `d`. -/
def solvedOn (offset : Int) (solvedProblems : List Int) (d : Int) : Prop :=
  ∃ t ∈ solvedProblems, localDay offset t = d

/-- The day `d` is the most recent local calendar day that has a solved record. -/
def IsLatestDay (offset : Int) (solvedProblems : List Int) (d : Int) : Prop :=
  solvedOn offset solvedProblems d ∧ ∀ u ∈ solvedProblems, localDay offset u ≤ d

instance (offset : Int) (solvedProblems : List Int) (d : Int) :
    Decidable (solvedOn offset solvedProblems d) :=
  inferInstanceAs (Decidable (∃ t ∈ solvedProblems, localDay offset t = d))

instance (offset : Int) (solvedProblems : List Int) (d : Int) :
    Decidable (IsLatestDay offset solvedProblems d) :=
  inferInstanceAs (Decidable
    (solvedOn offset solvedProblems d ∧ ∀ u ∈ solvedProblems, localDay offset u ≤ d))

/-- The time value `ms` milliseconds after UTC midnight of day number `d`. -/
def atDay (d ms : Int) : Int :=
  d * msPerDay + ms

/-- Weights of the problems that the solved records of `username` refer to and that are
still stored. -/
def existingWeights (db : Store) (teamId username : String) : List Int :=
  ((findSolved db teamId username).filterMap (populate db)).map
    (fun problem => computeWeight problem.platform problem.rating)

/-! ## Example stores -/

/-- A team of two: A solved the TLE problems rated 800 and 900, B solved one USACO
Platinum problem. -/
def storeAB : Store :=
  { teams := [{ teamId := "t1", teamName := "Team t1",
                members := [⟨"A", "pw"⟩, ⟨"B", "pw"⟩] }],
    problems :=
      [⟨1, "t1", "P1", "l1", "800", "TLE", "TLE", 1, "system"⟩,
       ⟨2, "t1", "P2", "l2", "900", "TLE", "TLE", 1, "system"⟩,
       ⟨3, "t1", "P3", "l3", "Platinum", "USACO", "USACO", 1, "system"⟩],
    progress :=
      [⟨"t1", "A", 1, "solved", some 1000, ""⟩,
       ⟨"t1", "A", 2, "solved", some 2000, ""⟩,
       ⟨"t1", "B", 3, "solved", some 3000, ""⟩] }

/-- A team of one whose member has two solved records: one for the stored CSES problem 1,
one for problem 7, which is not in the store. -/
def storeDangling : Store :=
  { teams := [{ teamId := "t1", teamName := "Team t1", members := [⟨"A", "pw"⟩] }],
    problems := [⟨1, "t1", "P1", "l1", "DP", "CSES", "CSES", 1, "system"⟩],
    progress :=
      [⟨"t1", "A", 1, "solved", some 1000, ""⟩,
       ⟨"t1", "A", 7, "solved", some 2000, ""⟩] }

/-- A team whose members B and A, in this order, have solved nothing. -/
def storeTie : Store :=
  { teams := [{ teamId := "t1", teamName := "Team t1",
                members := [⟨"B", "pw"⟩, ⟨"A", "pw"⟩] }],
    problems := [],
    progress := [] }

/-! ## Streak over calendar days, as the specification words it (section 4.3) -/

/-- Step 4 of the specification: from `anchor`, while the day just before the anchor is a
solved day, count it and move the anchor back one day; `fuel` bounds the number of
steps. -/
def calendarWalk (days : List Int) : Nat → Int → Nat → Nat
  | 0, _, streak => streak
  | fuel + 1, anchor, streak =>
    if anchor - 1 ∈ days then calendarWalk days fuel (anchor - 1) (streak + 1) else streak

/-- Steps 1 to 5 of the specification, on the calendar days of the solved records and the
calendar day `today`: 0 without records; anchored at today or at yesterday when that is
the most recent solved day; 0 otherwise. -/
def calendarStreak (today : Int) (days : List Int) : Nat :=
  if days = [] then 0
  else if today ∈ days ∧ ∀ d ∈ days, d ≤ today then
    calendarWalk days days.length today 1
  else if today - 1 ∈ days ∧ ∀ d ∈ days, d ≤ today - 1 then
    calendarWalk days days.length (today - 1) 1
  else 0

/-! ## Streak under a time zone whose offset changes

The definitions of the streak section above read the host's zone as one fixed offset.
On a host with daylight saving time the offset depends on the instant.  ECMA-262 gives the
two conversions a `Date` method uses: `LocalTime(t) = t + LocalTZA(t, true)` and
`UTC(t) = t - LocalTZA(t, false)`.  The definitions below are the same handler with the
zone as a parameter; with `fixedZone offset` they are the definitions above. -/

/-- The host's time zone: `utcOffset t` is `LocalTZA(t, true)`, the offset of local time
from UTC at the instant `t`; `localOffset t` is `LocalTZA(t, false)`, the offset that
applies to the local time value `t`. -/
structure TimeZone where
  utcOffset : Int → Int
  localOffset : Int → Int

/-- A zone that keeps one offset all year. -/
def fixedZone (offset : Int) : TimeZone :=
  { utcOffset := fun _ => offset, localOffset := fun _ => offset }

/-- Europe/London around the start of summer time in 2024: UTC until 31 March 2024
01:00 UTC (day 19813 of the epoch), UTC+1 from that instant on.  The local times from
01:00 to 02:00 of that day do not exist; ECMA-262 reads them with the offset before the
transition. -/
def europeLondon : TimeZone :=
  { utcOffset := fun t => if t < atDay 19813 3600000 then 0 else 3600000,
    localOffset := fun t => if t < atDay 19813 7200000 then 0 else 3600000 }

/-- The abstract operation `LocalTime(t)`. -/
def localTime (zone : TimeZone) (t : Int) : Int :=
  t + zone.utcOffset t

/-- The abstract operation `UTC(t)`. -/
def utcTime (zone : TimeZone) (t : Int) : Int :=
  t - zone.localOffset t

/-- The call `d.setHours(0, 0, 0, 0)` in `zone`: the local day of `t` with time of day 0,
converted back to a time value. -/
def setHoursZeroIn (zone : TimeZone) (t : Int) : Int :=
  utcTime zone (localTime zone t / msPerDay * msPerDay)

/-- The call `d.setDate(d.getDate() - 1)` in `zone`: the local time of day of `t` on the
previous local calendar day, converted back to a time value. -/
def setDatePrevIn (zone : TimeZone) (t : Int) : Int :=
  utcTime zone ((localTime zone t / msPerDay - 1) * msPerDay + localTime zone t % msPerDay)

/-- The key under which one `solvedAt` is entered in `dateMap`, in `zone`. -/
def dateStrIn (zone : TimeZone) (solvedAt : Int) : Int :=
  isoDate (setHoursZeroIn zone solvedAt)

/-- The `forEach` that fills `dateMap`, in `zone`: the keys of the map in insertion
order. -/
def groupByDateIn (zone : TimeZone) (solvedProblems : List Int) : List Int :=
  solvedProblems.foldl
    (fun dateMap solvedAt =>
      if dateStrIn zone solvedAt ∈ dateMap then dateMap
      else dateMap ++ [dateStrIn zone solvedAt])
    []

/-- The expression `Array.from(dateMap.keys()).sort().reverse()`, in `zone`. -/
def sortedDatesIn (zone : TimeZone) (solvedProblems : List Int) : List Int :=
  ((groupByDateIn zone solvedProblems).insertionSort (fun a b => a ≤ b)).reverse

/-- The loop `for (let i = 1; i < sortedDates.length; i++)`, in `zone`. -/
def countConsecutiveIn (zone : TimeZone) : List Int → Int → Nat → Nat
  | [], _, streak => streak
  | d :: rest, currentDate, streak =>
    let prevDate := setDatePrevIn zone currentDate
    if d = isoDate prevDate then countConsecutiveIn zone rest prevDate (streak + 1)
    else streak

/-- The handler of the streak route from line 115 on, on a host in `zone`. -/
def streakIn (zone : TimeZone) (now : Int) (solvedProblems : List Int) : Nat :=
  if solvedProblems.length = 0 then 0
  else
    let today := setHoursZeroIn zone now
    let sortedDates := sortedDatesIn zone solvedProblems
    let todayStr := isoDate today
    let yesterday := setDatePrevIn zone today
    let yesterdayStr := isoDate yesterday
    if sortedDates.head? = some todayStr then
      countConsecutiveIn zone sortedDates.tail today 1
    else if sortedDates.head? = some yesterdayStr then
      countConsecutiveIn zone sortedDates.tail yesterday 1
    else 0

/-- The local calendar day of `t` in `zone`, as a day number. -/
def localDayIn (zone : TimeZone) (t : Int) : Int :=
  localTime zone t / msPerDay

/-! ## Reorder (`routes/problems.js`, `router.put('/:id/reorder')`)

An `_id` is an abstract identifier; the `id` of a request is the canonical string of such
an identifier, so that `findOne({ _id: id, .. })` matches on it and
`p._id.toString() === id` is equality of identifiers (`reorderRequest` below is the
handler on an arbitrary request string).  The query
`find(..).sort({ order: 1 })` is modelled by a stable sort of the stored documents. -/

/-- The query `Problem.findOne({ _id: id, teamId })`. -/
def findOneProblem (db : Store) (id : Nat) (teamId : String) : Option Problem :=
  db.problems.find? (fun p => p._id = id ∧ p.teamId = teamId)

/-- The stored problems of the group `(teamId, sheet, rating)`, in stored order. -/
def groupOf (db : Store) (teamId sheet rating : String) : List Problem :=
  db.problems.filter (fun p => p.teamId = teamId ∧ p.sheet = sheet ∧ p.rating = rating)

/-- The query `Problem.find({ teamId, sheet, rating }).sort({ order: 1 })`. -/
def findSameRating (db : Store) (teamId sheet rating : String) : List Problem :=
  (groupOf db teamId sheet rating).insertionSort (fun a b => a.order ≤ b.order)

/-- The method `Array.prototype.findIndex`: index of the first element that satisfies
`pred`, or `-1`. -/
def findIndex {α : Type} (pred : α → Bool) : List α → Int
  | [] => -1
  | x :: xs =>
    if pred x then 0
    else if findIndex pred xs < 0 then -1
    else findIndex pred xs + 1

/-- The element access `array[i]`; `none` is `undefined`. -/
def arrayAt {α : Type} (array : List α) (i : Int) : Option α :=
  if 0 ≤ i then array[i.toNat]? else none

/-- The call `doc.save()` for a loaded problem whose only modified path is `order`. -/
def saveOrder (db : Store) (doc : Problem) : Store :=
  { db with
    problems :=
      db.problems.map (fun p => if p._id = doc._id then { p with order := doc.order } else p) }

/-- The body of either branch of the handler: exchange the `order` of
`sameRatingProblems[i]` and `sameRatingProblems[j]`, save the first, then the second.
Reading `.order` of `undefined` throws, which the handler answers with status 500 before
anything is saved. -/
def swapAndSave (db : Store) (sameRatingProblems : List Problem) (i j : Int) :
    Response Bool × Store :=
  match arrayAt sameRatingProblems i, arrayAt sameRatingProblems j with
  | some current, some other =>
    let temp := current.order
    let current' := { current with order := other.order }
    let other' := { other with order := temp }
    (Response.json true, saveOrder (saveOrder db current') other')
  | _, _ => (Response.error 500 "Failed to reorder problem", db)

/-- The handler `router.put('/:id/reorder')` for a caller of team `teamId`: the response
and the store after the request.  `direction` is `req.body.direction`, `none` when the
body has none. -/
def reorder (db : Store) (teamId : String) (id : Nat) (direction : Option String) :
    Response Bool × Store :=
  match findOneProblem db id teamId with
  | none => (Response.error 404 "Problem not found", db)
  | some problem =>
    let sameRatingProblems := findSameRating db teamId problem.sheet problem.rating
    let currentIndex := findIndex (fun p => p._id = id) sameRatingProblems
    if direction = some "up" ∧ currentIndex > 0 then
      swapAndSave db sameRatingProblems currentIndex (currentIndex - 1)
    else if direction = some "down" ∧
        currentIndex < (sameRatingProblems.length : Int) - 1 then
      swapAndSave db sameRatingProblems currentIndex (currentIndex + 1)
    else (Response.json true, db)

/-- One reorder request. -/
structure Move where
  teamId : String
  id : Nat
  direction : Option String
  deriving DecidableEq

/-- The store after a sequence of reorder requests executed one after the other. -/
def applyMoves (db : Store) (moves : List Move) : Store :=
  moves.foldl (fun s m => (reorder s m.teamId m.id m.direction).2) db

/-- The stored `order` of the problem with identifier `id`. -/
def orderOf (db : Store) (id : Nat) : Option Int :=
  (db.problems.find? (fun p => p._id = id)).map (fun p => p.order)

/-- The `order` values of the group `(teamId, sheet, rating)`, in stored order. -/
def groupOrders (db : Store) (teamId sheet rating : String) : List Int :=
  (groupOf db teamId sheet rating).map (fun p => p.order)

/-- The stored documents carry pairwise distinct identifiers. -/
def UniqueIds (db : Store) : Prop :=
  (db.problems.map (fun p => p._id)).Nodup

instance (db : Store) : Decidable (UniqueIds db) :=
  inferInstanceAs (Decidable (db.problems.map (fun p : Problem => p._id)).Nodup)

/-- The document `x` after the `order` values of `a` and `b` are exchanged in the store. -/
def exchange (a b x : Problem) : Problem :=
  if x._id = a._id then { x with order := b.order }
  else if x._id = b._id then { x with order := a.order }
  else x

/-- The stored problems that differ between `db` and `db'`, compared position by
position, as they were in `db`. -/
def changedRecords (db db' : Store) : List Problem :=
  ((db.problems.zip db'.problems).filter (fun xy => decide (xy.1 ≠ xy.2))).map Prod.fst

/-- A problem of team t1, sheet TLE, rating 800. -/
def tleProblem (id : Nat) (name : String) (order : Int) : Problem :=
  ⟨id, "t1", name, "link", "800", "TLE", "TLE", order, "system"⟩

/-- The group P1..P4 with `order` 1, 2, 3, 4, and one problem of another team. -/
def storeP4 : Store :=
  { teams := [],
    problems :=
      [tleProblem 1 "P1" 1, tleProblem 2 "P2" 2, tleProblem 3 "P3" 3, tleProblem 4 "P4" 4,
       ⟨9, "t2", "Q", "link", "800", "TLE", "TLE", 1, "system"⟩],
    progress := [] }

/-- A group of two problems that both carry the schema default `order` 0. -/
def storeTiedOrder : Store :=
  { teams := [],
    problems := [tleProblem 1 "P1" 0, tleProblem 2 "P2" 0],
    progress := [] }

/-- A group whose `order` values 1, 5, 9 are not consecutive. -/
def storeGaps : Store :=
  { teams := [],
    problems := [tleProblem 1 "P1" 1, tleProblem 2 "P2" 5, tleProblem 3 "P3" 9],
    progress := [] }

/-! ## Reorder with the request's `id` as a string

`req.params.id` is an arbitrary string.  Mongoose casts it to an `ObjectId` when it builds
the filter of `findOne`; a string that is no `ObjectId` makes the query throw `CastError`,
which the handler's `catch` answers with status 500.  The test `p._id.toString() === id`
compares strings.  The cast and `toString` belong to mongoose and the driver, not to this
repository, so they are parameters. -/

/-- Conversions between the strings of a request and stored identifiers: `cast` is the cast
of a filter value for the path `_id` (`none` when it throws `CastError`), `toString` is
`ObjectId.prototype.toString`. -/
structure ObjectIdCodec where
  cast : String → Option Nat
  toString : Nat → String

/-- The handler `router.put('/:id/reorder')` with `id` as the string of the request. -/
def reorderRequest (codec : ObjectIdCodec) (db : Store) (teamId : String) (id : String)
    (direction : Option String) : Response Bool × Store :=
  match codec.cast id with
  | none => (Response.error 500 "Failed to reorder problem", db)
  | some _id =>
    match findOneProblem db _id teamId with
    | none => (Response.error 404 "Problem not found", db)
    | some problem =>
      let sameRatingProblems := findSameRating db teamId problem.sheet problem.rating
      let currentIndex := findIndex (fun p => codec.toString p._id = id) sameRatingProblems
      if direction = some "up" ∧ currentIndex > 0 then
        swapAndSave db sameRatingProblems currentIndex (currentIndex - 1)
      else if direction = some "down" ∧
          currentIndex < (sameRatingProblems.length : Int) - 1 then
        swapAndSave db sameRatingProblems currentIndex (currentIndex + 1)
      else (Response.json true, db)

/-- The string of an identifier: 24 lower-case hexadecimal digits (an `ObjectId` has 12
bytes, so identifiers are below `16 ^ 24`). -/
def hexString (id : Nat) : String :=
  let digits := Nat.toDigits 16 id
  String.mk (List.replicate (24 - digits.length) '0' ++ digits)

/-- A cast that accepts exactly the strings of 24 hexadecimal digits, of either case. -/
def castHex (s : String) : Option Nat :=
  let cs := s.toList
  if cs.length = 24 ∧ cs.all (fun c => (radixDigit 16 c).isSome) then
    some (digitsValue 16 (leadingDigits 16 cs))
  else none

/-- Identifiers written as 24 hexadecimal digits. -/
def hexObjectIds : ObjectIdCodec :=
  { cast := castHex, toString := hexString }

/-! ## Progress updates (`routes/progress.js`, `router.put('/:problemId')` and
`router.put('/:problemId/notes')`) -/

/-- The query `UserProgress.findOne({ teamId, username, problemId })`. -/
def findProgress (db : Store) (teamId username : String) (problemId : Nat) :
    Option UserProgress :=
  db.progress.find?
    (fun p => p.teamId = teamId ∧ p.username = username ∧ p.problemId = problemId)

/-- Write back the document that a `findOne` with selector `sel` returned: the first
element that satisfies `sel` becomes `f` of it. -/
def updateFirst {α : Type} (sel : α → Bool) (f : α → α) : List α → List α
  | [] => []
  | x :: xs => if sel x then f x :: xs else x :: updateFirst sel f xs

/-- The test `['solved', 'todo', 'revision', 'skipped', 'none'].includes(status)`. -/
def validStatus (status : String) : Bool :=
  status ∈ ["solved", "todo", "revision", "skipped", "none"]

/-- The hook `userProgressSchema.pre('save')` that sets `solvedAt`
(`models/UserProgress.js`, lines 42 to 47). -/
def preSave (now : Int) (doc : UserProgress) : UserProgress :=
  if doc.status = "solved" ∧ doc.solvedAt = none then { doc with solvedAt := some now }
  else doc

/-- The handler `router.put('/:problemId')` for the caller `username` of team `teamId` at
time `now`: the response and the store after the request. -/
def putStatus (db : Store) (teamId username : String) (problemId : Nat) (status : String)
    (now : Int) : Response UserProgress × Store :=
  if ¬ validStatus status then (Response.error 400 "Invalid status", db)
  else
    match findOneProblem db problemId teamId with
    | none => (Response.error 404 "Problem not found", db)
    | some _ =>
      match findProgress db teamId username problemId with
      | some progress =>
        let progress₁ := { progress with status := status }
        let progress₂ :=
          if status = "solved" ∧ progress₁.solvedAt = none then
            { progress₁ with solvedAt := some now }
          else progress₁
        let saved := preSave now progress₂
        (Response.json saved,
          { db with
            progress :=
              updateFirst
                (fun p => p.teamId = teamId ∧ p.username = username ∧ p.problemId = problemId)
                (fun _ => saved) db.progress })
      | none =>
        let progress : UserProgress :=
          { teamId := teamId, username := username, problemId := problemId, status := status,
            solvedAt := if status = "solved" then some now else none, notes := "" }
        let saved := preSave now progress
        (Response.json saved, { db with progress := db.progress ++ [saved] })

/-- The handler `router.put('/:problemId/notes')`: `findOneAndUpdate` with `upsert`, which
sets `notes` on the record of the triple or inserts a record with the schema defaults. -/
def putNotes (db : Store) (teamId username : String) (problemId : Nat) (notes : String) :
    Response UserProgress × Store :=
  match findProgress db teamId username problemId with
  | some progress =>
    let updated := { progress with notes := notes }
    (Response.json updated,
      { db with
        progress :=
          updateFirst
            (fun p => p.teamId = teamId ∧ p.username = username ∧ p.problemId = problemId)
            (fun _ => updated) db.progress })
  | none =>
    let inserted : UserProgress :=
      { teamId := teamId, username := username, problemId := problemId, status := "none",
        solvedAt := none, notes := notes }
    (Response.json inserted, { db with progress := db.progress ++ [inserted] })

/-- One request to the progress routes. -/
inductive ProgressRequest where
  | status (teamId username : String) (problemId : Nat) (status : String) (now : Int)
  | notes (teamId username : String) (problemId : Nat) (notes : String)
  deriving DecidableEq

/-- The store after one request to the progress routes. -/
def applyRequest (db : Store) : ProgressRequest → Store
  | ProgressRequest.status teamId username problemId status now =>
    (putStatus db teamId username problemId status now).2
  | ProgressRequest.notes teamId username problemId notes =>
    (putNotes db teamId username problemId notes).2

/-- The store after a sequence of requests executed one after the other. -/
def applyRequests (db : Store) (requests : List ProgressRequest) : Store :=
  requests.foldl applyRequest db

/-- At most one progress record per (team, user, problem). -/
def OneRecordPerTriple (db : Store) : Prop :=
  (db.progress.map (fun p : UserProgress => (p.teamId, p.username, p.problemId))).Nodup

instance (db : Store) : Decidable (OneRecordPerTriple db) :=
  inferInstanceAs (Decidable
    (db.progress.map (fun p : UserProgress => (p.teamId, p.username, p.problemId))).Nodup)

/-- The `solvedAt` of the record of a triple; `none` when there is no record or the record
has none. -/
def solvedAtOf (db : Store) (teamId username : String) (problemId : Nat) : Option Int :=
  (findProgress db teamId username problemId).bind (fun p => p.solvedAt)

/-- The request is a status update of the given triple to `solved`. -/
def solvesTriple (teamId username : String) (problemId : Nat) : ProgressRequest → Bool
  | ProgressRequest.status t u i status _ =>
    t = teamId ∧ u = username ∧ i = problemId ∧ status = "solved"
  | ProgressRequest.notes _ _ _ _ => false

/-- The (team, user, problem) triple a request addresses. -/
def requestTriple : ProgressRequest → String × String × Nat
  | ProgressRequest.status teamId username problemId _ _ => (teamId, username, problemId)
  | ProgressRequest.notes teamId username problemId _ => (teamId, username, problemId)

/-- The (team, user, problem) triple of a progress record. -/
def recordTriple (p : UserProgress) : String × String × Nat :=
  (p.teamId, p.username, p.problemId)

/-! ## Adding a problem (`routes/problems.js`, `router.post('/')`) -/

/-- The value `s || fallback` for an optional string of the request body. -/
def orElse (s : Option String) (fallback : String) : String :=
  match s with
  | some v => if v = "" then fallback else v
  | none => fallback

/-- The test `!s` for an optional string of the request body. -/
def isFalsy (s : Option String) : Bool :=
  match s with
  | some v => v = ""
  | none => true

/-- The query `Problem.findOne({ teamId, sheet, rating }).sort({ order: -1 })`. -/
def findLastProblem (db : Store) (teamId sheet rating : String) : Option Problem :=
  ((groupOf db teamId sheet rating).insertionSort (fun a b => a.order ≥ b.order)).head?

/-- The `enum` of the path `platform` in `models/Problem.js`. -/
def platformEnum : List String := ["TLE", "USACO", "CSES", "Custom"]

/-- The handler `router.post('/')` for the caller `username` of team `teamId`; `newId` is
the identifier the store gives the new document.  A document whose `platform` is outside
the schema's `enum` fails validation in `save`, which the handler answers with status
500. -/
def addProblem (db : Store) (teamId username : String)
    (name link rating sheet platform : Option String) (newId : Nat) :
    Response Problem × Store :=
  if isFalsy name ∨ isFalsy link ∨ isFalsy sheet then
    (Response.error 400 "Name, link, and sheet are required", db)
  else
    let lastProblem := findLastProblem db teamId (orElse sheet "") (orElse rating "Custom")
    let order : Int :=
      match lastProblem with
      | some last => last.order + 1
      | none => 1
    let problem : Problem :=
      { _id := newId, teamId := teamId, name := orElse name "", link := orElse link "",
        rating := orElse rating "Custom", platform := orElse platform "Custom",
        sheet := orElse sheet "", order := order, createdBy := username }
    if problem.platform ∈ platformEnum then
      (Response.json problem, { db with problems := db.problems ++ [problem] })
    else (Response.error 500 "Failed to add problem", db)

/-! ## Profile update (`routes/profile.js`, `router.put('/')`)

The handler is modelled up to `await team.save()`; signing the token and sending the
response, which follow, do not touch the store.  `hash` stands for `bcrypt.hash(·, 10)`. -/

/-- What the profile handler did: it answered with an error before saving, or it saved the
team. -/
inductive ProfileOutcome where
  | rejected (status : Nat) (message : String)
  | saved
  deriving DecidableEq

/-- The list with `f` applied to the element at index `i`. -/
def modifyNth {α : Type} (f : α → α) : List α → Nat → List α
  | [], _ => []
  | x :: xs, 0 => f x :: xs
  | x :: xs, n + 1 => x :: modifyNth f xs n

/-- The handler `router.put('/')` of the profile route for the caller `currentUsername` of
team `teamId`. -/
def updateProfile (hash : String → String) (db : Store) (teamId currentUsername : String)
    (newUsername newPassword : Option String) : ProfileOutcome × Store :=
  match db.teams.find? (fun t => t.teamId = teamId) with
  | none => (ProfileOutcome.rejected 404 "Team not found", db)
  | some team =>
    let memberIndex := findIndex (fun m : Member => m.username = currentUsername) team.members
    if memberIndex = -1 then (ProfileOutcome.rejected 404 "User not found in team", db)
    else
      let changesName : Bool := !isFalsy newUsername && newUsername != some currentUsername
      if changesName ∧ team.members.any (fun m => some m.username = newUsername) then
        (ProfileOutcome.rejected 400 "Username already taken in this team", db)
      else
        let members₁ :=
          if changesName then
            modifyNth (fun m => { m with username := orElse newUsername currentUsername })
              team.members memberIndex.toNat
          else team.members
        let members₂ :=
          if !isFalsy newPassword then
            modifyNth (fun m => { m with password := hash (orElse newPassword "") })
              members₁ memberIndex.toNat
          else members₁
        (ProfileOutcome.saved,
          { db with
            teams :=
              updateFirst (fun t => t.teamId = teamId)
                (fun t => { t with members := members₂ }) db.teams })

/-! ## Relative time (`frontend/src/App.tsx`, `getRelativeTime`) -/

/-- The function `getRelativeTime`; `now` is the time value of `new Date()`, `dateString`
the time value that the argument denotes, `none` when the argument is missing or empty. -/
def getRelativeTime (now : Int) (dateString : Option Int) : String :=
  match dateString with
  | none => "Never"
  | some date =>
    let seconds := Int.fdiv (now - date) 1000
    if seconds < 60 then "Just now"
    else
      let minutes := Int.fdiv seconds 60
      if minutes < 60 then toString minutes ++ "m ago"
      else
        let hours := Int.fdiv minutes 60
        if hours < 24 then toString hours ++ "h ago"
        else
          let days := Int.fdiv hours 24
          if days < 7 then toString days ++ "d ago"
          else
            let weeks := Int.fdiv days 7
            if weeks < 4 then toString weeks ++ "w ago"
            else
              let months := Int.fdiv days 30
              toString months ++ "mo ago"

/-- A store with one team of two members, U and W, two problems, and three progress
records of U, two of them solved. -/
def storeRename : Store :=
  { teams := [{ teamId := "t1", teamName := "Team t1",
                members := [⟨"U", "h1"⟩, ⟨"W", "h2"⟩] }],
    problems :=
      [⟨1, "t1", "P1", "l1", "Gold", "USACO", "USACO", 1, "system"⟩,
       ⟨2, "t1", "P2", "l2", "1200", "TLE", "TLE", 1, "system"⟩],
    progress :=
      [⟨"t1", "U", 1, "solved", some 1000, ""⟩,
       ⟨"t1", "U", 2, "solved", some 2000, "hard"⟩,
       ⟨"t1", "W", 2, "todo", none, ""⟩] }

/-! ## Theorems: weighting -/

/-- In the exact-integer reading the weight of a solved problem is at least 1 for every
platform and every rating string. -/
theorem computeWeight_ge_one (platform rating : String) :
    1 ≤ computeWeight platform rating := by
  unfold computeWeight
  split_ifs <;> first | decide | skip
  split
  · exact le_max_left _ _
  · exact le_refl _

/-- In the exact-integer reading, on platform TLE a rating that `parseInt` reads as the
integer `n` weighs `max 1 ⌊n / 100⌋` and a rating that `parseInt` does not read weighs 1;
rating "850" weighs 8 and rating "N/A" weighs 1. -/
theorem computeWeight_TLE (rating : String) :
    (∀ n : Int, parseInt rating = some n →
        computeWeight "TLE" rating = max 1 ⌊(n : ℚ) / 100⌋) ∧
    (parseInt rating = none → computeWeight "TLE" rating = 1) ∧
    parseInt "850" = some 850 ∧ computeWeight "TLE" "850" = 8 ∧
    parseInt "N/A" = none ∧ computeWeight "TLE" "N/A" = 1 := by
  refine ⟨?_, ?_, by decide, by decide, by decide, by decide⟩
  · intro n hn
    have h : ⌊(n : ℚ) / 100⌋ = n / 100 := by
      have := Rat.floor_intCast_div_natCast n 100
      simpa using this
    simp only [computeWeight, if_true, hn, h]
    rw [Int.fdiv_eq_ediv n (by decide)]
  · intro hn
    simp only [computeWeight, if_true, hn]

/-- Example: rating "1900" is read as 1900 and weighs 19. -/
theorem computeWeight_TLE_witness :
    parseInt "1900" = some 1900 ∧ computeWeight "TLE" "1900" = max 1 ⌊((1900 : Int) : ℚ) / 100⌋ :=
  ⟨by decide, (computeWeight_TLE "1900").1 1900 (by decide)⟩

/-- C3: off platform TLE the weight is the fixed table: USACO Bronze, Silver, Gold,
Platinum weigh 5, 10, 15, 20; CSES Intro, Sorting, DP, Graph weigh 3, 6, 10, 12; every
other pair of platform and rating weighs 1. -/
theorem computeWeight_tiers (platform rating : String) :
    (platform ≠ "TLE" → computeWeight platform rating = tierTable platform rating) ∧
    (platform ≠ "TLE" → platform ≠ "USACO" → platform ≠ "CSES" →
        computeWeight platform rating = 1) ∧
    (rating ≠ "Bronze" → rating ≠ "Silver" → rating ≠ "Gold" → rating ≠ "Platinum" →
        computeWeight "USACO" rating = 1) ∧
    (rating ≠ "Intro" → rating ≠ "Sorting" → rating ≠ "DP" → rating ≠ "Graph" →
        computeWeight "CSES" rating = 1) ∧
    computeWeight "USACO" "Bronze" = 5 ∧ computeWeight "USACO" "Silver" = 10 ∧
    computeWeight "USACO" "Gold" = 15 ∧ computeWeight "USACO" "Platinum" = 20 ∧
    computeWeight "CSES" "Intro" = 3 ∧ computeWeight "CSES" "Sorting" = 6 ∧
    computeWeight "CSES" "DP" = 10 ∧ computeWeight "CSES" "Graph" = 12 ∧
    computeWeight "USACO" "Diamond" = 1 := by
  refine ⟨?_, ?_, ?_, ?_, by decide, by decide, by decide, by decide, by decide,
    by decide, by decide, by decide, by decide⟩
  · intro h
    unfold computeWeight tierTable
    rw [if_neg h]
    split_ifs <;> simp_all
  · intro h₁ h₂ h₃
    simp [computeWeight, h₁, h₂, h₃]
  · intro h₁ h₂ h₃ h₄
    simp [computeWeight, h₁, h₂, h₃, h₄]
  · intro h₁ h₂ h₃ h₄
    simp [computeWeight, h₁, h₂, h₃, h₄]

/-- Witness for C3: platform "Custom" with rating "Hard" is not TLE and weighs 1, the
default of the table. -/
theorem computeWeight_tiers_witness :
    computeWeight "Custom" "Hard" = tierTable "Custom" "Hard" ∧
    computeWeight "Custom" "Hard" = 1 :=
  ⟨(computeWeight_tiers "Custom" "Hard").1 (by decide),
   (computeWeight_tiers "Custom" "Hard").2.1 (by decide) (by decide) (by decide)⟩

/-! ## Theorems: leaderboard -/

theorem foldl_scoreStep (l : List (Option Problem)) (acc : Int) :
    l.foldl scoreStep acc =
      acc + ((l.filterMap id).map (fun p => computeWeight p.platform p.rating)).sum := by
  induction l generalizing acc with
  | nil => simp
  | cons x xs ih =>
    cases x with
    | none => simpa [scoreStep] using ih acc
    | some p =>
      rw [List.foldl_cons, ih]
      simp [scoreStep, add_assoc]

theorem memberEntry_weightedScore (db : Store) (teamId : String) (m : Member) :
    (memberEntry db teamId m).weightedScore = (existingWeights db teamId m.username).sum := by
  simp [memberEntry, weightedScoreOf, foldl_scoreStep, existingWeights, List.filterMap_map]

theorem getLeaderboard_of_team (db : Store) (teamId : String) (team : Team)
    (hteam : db.teams.find? (fun t => t.teamId = teamId) = some team) :
    getLeaderboard db teamId =
      Response.json (arraySort compareEntries (unsortedLeaderboard db teamId team)) := by
  simp only [getLeaderboard, hteam]

theorem mem_arraySort {α : Type} (comparefn : α → α → Int) (l : List α) (a : α) :
    a ∈ arraySort comparefn l ↔ a ∈ l :=
  (List.perm_insertionSort _ l).mem_iff

theorem memberEntry_mem_body (db : Store) (teamId : String) (team : Team) (m : Member)
    (hm : m ∈ team.members) :
    memberEntry db teamId m ∈ arraySort compareEntries (unsortedLeaderboard db teamId team) :=
  (mem_arraySort _ _ _).2 (List.mem_map_of_mem _ hm)

theorem compareEntries_le_iff (a b : Entry) :
    compareEntries a b ≤ 0 ↔
      b.weightedScore < a.weightedScore ∨
        (b.weightedScore = a.weightedScore ∧ b.solvedCount ≤ a.solvedCount) := by
  unfold compareEntries
  split_ifs <;> omega

theorem compareEntries_total (a b : Entry) :
    compareEntries a b ≤ 0 ∨ compareEntries b a ≤ 0 := by
  rw [compareEntries_le_iff, compareEntries_le_iff]
  omega

theorem compareEntries_trans (a b c : Entry) (hab : compareEntries a b ≤ 0)
    (hbc : compareEntries b c ≤ 0) : compareEntries a c ≤ 0 := by
  rw [compareEntries_le_iff] at *
  omega

theorem arraySort_compareEntries_sorted (l : List Entry) :
    (arraySort compareEntries l).Sorted (fun a b => compareEntries a b ≤ 0) := by
  haveI : IsTotal Entry (fun a b => compareEntries a b ≤ 0) := ⟨compareEntries_total⟩
  haveI : IsTrans Entry (fun a b => compareEntries a b ≤ 0) := ⟨compareEntries_trans⟩
  exact List.sorted_insertionSort _ l

/-- In the exact-integer reading: when the team resolves, the handler answers with a
leaderboard in which every member has an entry whose weightedScore is the sum of the
weights of the problems that the member's solved records refer to and that still exist; a
record whose problem is gone contributes nothing to the loop's total. -/
theorem weightedScore_sums_existing (db : Store) (teamId : String) (team : Team)
    (hteam : db.teams.find? (fun t => t.teamId = teamId) = some team) :
    (∃ body, getLeaderboard db teamId = Response.json body ∧
      ∀ m ∈ team.members, ∃ e ∈ body, e.username = m.username ∧
        e.weightedScore = (existingWeights db teamId m.username).sum) ∧
    (∀ m : Member,
      (memberEntry db teamId m).weightedScore = (existingWeights db teamId m.username).sum) ∧
    (∀ before after : List (Option Problem),
      weightedScoreOf (before ++ none :: after) = weightedScoreOf (before ++ after)) := by
  refine ⟨⟨_, getLeaderboard_of_team db teamId team hteam, ?_⟩, ?_, ?_⟩
  · intro m hm
    exact ⟨_, memberEntry_mem_body db teamId team m hm, rfl,
      memberEntry_weightedScore db teamId m⟩
  · exact memberEntry_weightedScore db teamId
  · intro before after
    simp [weightedScoreOf, foldl_scoreStep, scoreStep]

/-- Example: in `storeDangling` the member has one solved record for a stored CSES DP
problem and one for a missing problem. -/
theorem weightedScore_sums_existing_witness :
    getLeaderboard storeDangling "t1" = Response.json [⟨"A", 2, 10⟩] ∧
    existingWeights storeDangling "t1" "A" = [10] ∧
    ∃ body, getLeaderboard storeDangling "t1" = Response.json body ∧
      ∀ m ∈ [(⟨"A", "pw"⟩ : Member)], ∃ e ∈ body, e.username = m.username ∧
        e.weightedScore = (existingWeights storeDangling "t1" m.username).sum :=
  ⟨by decide, by decide,
    (weightedScore_sums_existing storeDangling "t1"
      { teamId := "t1", teamName := "Team t1", members := [⟨"A", "pw"⟩] } (by decide)).1⟩

/-- C5, as stated, fails: in `storeDangling` member A has two solved records, one of them
for a problem that is not stored; the handler reports solvedCount 2, while one solved
record has an existing problem. -/
theorem solvedCount_counts_dangling :
    getLeaderboard storeDangling "t1" = Response.json [⟨"A", 2, 10⟩] ∧
    (memberEntry storeDangling "t1" ⟨"A", "pw"⟩).solvedCount = 2 ∧
    ((findSolved storeDangling "t1" "A").filterMap (populate storeDangling)).length = 1 ∧
    (memberEntry storeDangling "t1" ⟨"A", "pw"⟩).solvedCount ≠
      (((findSolved storeDangling "t1" "A").filterMap (populate storeDangling)).length : Int) := by
  decide

/-- C5, amended: when the team resolves, every member has an entry whose solvedCount is
the number of all of that member's solved progress records, whether or not the referenced
problem still exists. -/
theorem solvedCount_counts_solved_records (db : Store) (teamId : String) (team : Team)
    (hteam : db.teams.find? (fun t => t.teamId = teamId) = some team) :
    (∃ body, getLeaderboard db teamId = Response.json body ∧
      ∀ m ∈ team.members, ∃ e ∈ body, e.username = m.username ∧
        e.solvedCount = ((findSolved db teamId m.username).length : Int)) ∧
    (∀ m : Member,
      (memberEntry db teamId m).solvedCount =
        ((findSolved db teamId m.username).length : Int)) := by
  refine ⟨⟨_, getLeaderboard_of_team db teamId team hteam, ?_⟩, ?_⟩
  · intro m hm
    refine ⟨_, memberEntry_mem_body db teamId team m hm, rfl, ?_⟩
    simp [memberEntry]
  · intro m
    simp [memberEntry]

/-- Witness for the amended C5: in `storeAB` member A has two solved records and member B
one. -/
theorem solvedCount_counts_solved_records_witness :
    (findSolved storeAB "t1" "A").length = 2 ∧ (findSolved storeAB "t1" "B").length = 1 ∧
    ∃ body, getLeaderboard storeAB "t1" = Response.json body ∧
      ∀ m ∈ [(⟨"A", "pw"⟩ : Member), ⟨"B", "pw"⟩], ∃ e ∈ body, e.username = m.username ∧
        e.solvedCount = ((findSolved storeAB "t1" m.username).length : Int) :=
  ⟨by decide, by decide,
    (solvedCount_counts_solved_records storeAB "t1"
      { teamId := "t1", teamName := "Team t1", members := [⟨"A", "pw"⟩, ⟨"B", "pw"⟩] }
      (by decide)).1⟩

/-- C6: the leaderboard returned is ordered by weightedScore descending and, among equal
scores, by solvedCount descending: of two consecutive entries the first has the larger
score, or the same score and at least the solvedCount of the second.  When A solves TLE
800 and 900 (score 17) and B solves USACO Platinum (score 20), B is listed before A. -/
theorem leaderboard_sorted (db : Store) (teamId : String) :
    (∀ body : List Entry, getLeaderboard db teamId = Response.json body →
      ∀ (i : Nat) (e₁ e₂ : Entry), body[i]? = some e₁ → body[i + 1]? = some e₂ →
        e₁.weightedScore > e₂.weightedScore ∨
          (e₁.weightedScore = e₂.weightedScore ∧ e₁.solvedCount ≥ e₂.solvedCount)) ∧
    getLeaderboard storeAB "t1" = Response.json [⟨"B", 1, 20⟩, ⟨"A", 2, 17⟩] := by
  refine ⟨?_, by decide⟩
  intro body h i e₁ e₂ h₁ h₂
  unfold getLeaderboard at h
  split at h
  · exact absurd h (by simp)
  · rename_i team _
    injection h with h
    have hs := arraySort_compareEntries_sorted (unsortedLeaderboard db teamId team)
    rw [h] at hs
    obtain ⟨hi₁, rfl⟩ := List.getElem?_eq_some.1 h₁
    obtain ⟨hi₂, rfl⟩ := List.getElem?_eq_some.1 h₂
    have := (List.pairwise_iff_getElem.1 hs) i (i + 1) hi₁ hi₂ (Nat.lt_succ_self i)
    rw [compareEntries_le_iff] at this
    omega

/-- Witness for C6: for `storeAB` the response is [B, A], and it satisfies the order on
its consecutive entries. -/
theorem leaderboard_sorted_witness :
    getLeaderboard storeAB "t1" = Response.json [⟨"B", 1, 20⟩, ⟨"A", 2, 17⟩] ∧
    ∀ (i : Nat) (e₁ e₂ : Entry),
      [(⟨"B", 1, 20⟩ : Entry), ⟨"A", 2, 17⟩][i]? = some e₁ →
      [(⟨"B", 1, 20⟩ : Entry), ⟨"A", 2, 17⟩][i + 1]? = some e₂ →
      e₁.weightedScore > e₂.weightedScore ∨
        (e₁.weightedScore = e₂.weightedScore ∧ e₁.solvedCount ≥ e₂.solvedCount) :=
  ⟨by decide,
    (leaderboard_sorted storeAB "t1").1 [⟨"B", 1, 20⟩, ⟨"A", 2, 17⟩] (by decide)⟩

/-- C7: the sort is stable: when the team resolves, two members whose entries have equal
weightedScore and equal solvedCount appear in the leaderboard in the relative order they
have in the team's member list; members B, A that tie are listed B, A, not by username. -/
theorem leaderboard_stable (db : Store) (teamId : String) (team : Team) :
    (db.teams.find? (fun t => t.teamId = teamId) = some team →
      ∃ body, getLeaderboard db teamId = Response.json body ∧
        ∀ m₁ m₂ : Member, [m₁, m₂].Sublist team.members →
          (memberEntry db teamId m₁).weightedScore =
            (memberEntry db teamId m₂).weightedScore →
          (memberEntry db teamId m₁).solvedCount = (memberEntry db teamId m₂).solvedCount →
          [memberEntry db teamId m₁, memberEntry db teamId m₂].Sublist body) ∧
    getLeaderboard storeTie "t1" = Response.json [⟨"B", 0, 0⟩, ⟨"A", 0, 0⟩] := by
  refine ⟨?_, by decide⟩
  intro hteam
  refine ⟨_, getLeaderboard_of_team db teamId team hteam, ?_⟩
  intro m₁ m₂ hsub hw hc
  have hmap : [memberEntry db teamId m₁, memberEntry db teamId m₂].Sublist
      (unsortedLeaderboard db teamId team) := by
    simpa [unsortedLeaderboard] using hsub.map (memberEntry db teamId)
  have hr : compareEntries (memberEntry db teamId m₁) (memberEntry db teamId m₂) ≤ 0 := by
    rw [compareEntries_le_iff]
    omega
  exact List.pair_sublist_insertionSort hr hmap

/-- Witness for C7: in `storeTie` the members B and A (in this order) tie on both keys, and
the leaderboard lists B before A, the member-list order and not the username order. -/
theorem leaderboard_stable_witness :
    getLeaderboard storeTie "t1" = Response.json [⟨"B", 0, 0⟩, ⟨"A", 0, 0⟩] ∧
    ∃ body, getLeaderboard storeTie "t1" = Response.json body ∧
      ∀ m₁ m₂ : Member, [m₁, m₂].Sublist [(⟨"B", "pw"⟩ : Member), ⟨"A", "pw"⟩] →
        (memberEntry storeTie "t1" m₁).weightedScore =
          (memberEntry storeTie "t1" m₂).weightedScore →
        (memberEntry storeTie "t1" m₁).solvedCount =
          (memberEntry storeTie "t1" m₂).solvedCount →
        [memberEntry storeTie "t1" m₁, memberEntry storeTie "t1" m₂].Sublist body :=
  ⟨by decide,
    (leaderboard_stable storeTie "t1"
      { teamId := "t1", teamName := "Team t1", members := [⟨"B", "pw"⟩, ⟨"A", "pw"⟩] }).1
      (by decide)⟩

/-! ## Theorems: streak -/

theorem dateStr_eq (offset t : Int) :
    dateStr offset t = localDay offset t + (-offset) / msPerDay := by
  simp only [dateStr, isoDate, setHoursZero, localDay, msPerDay]
  omega

theorem isoDate_setHoursZero (offset t : Int) :
    isoDate (setHoursZero offset t) = localDay offset t + (-offset) / msPerDay :=
  dateStr_eq offset t

theorem isoDate_setDatePrev (offset t : Int) :
    isoDate (setDatePrev offset t) = isoDate t - 1 := by
  simp only [isoDate, setDatePrev, msPerDay]
  omega

theorem mem_foldl_group (offset : Int) (ts acc : List Int) (d : Int) :
    d ∈ ts.foldl
        (fun dateMap solvedAt =>
          if dateStr offset solvedAt ∈ dateMap then dateMap
          else dateMap ++ [dateStr offset solvedAt]) acc ↔
      d ∈ acc ∨ ∃ t ∈ ts, dateStr offset t = d := by
  induction ts generalizing acc with
  | nil => simp
  | cons x xs ih =>
    rw [List.foldl_cons, ih]
    by_cases h : dateStr offset x ∈ acc
    · rw [if_pos h]
      constructor
      · rintro (h₁ | ⟨t, ht, rfl⟩)
        · exact Or.inl h₁
        · exact Or.inr ⟨t, List.mem_cons_of_mem _ ht, rfl⟩
      · rintro (h₁ | ⟨t, ht, rfl⟩)
        · exact Or.inl h₁
        · rcases List.mem_cons.1 ht with rfl | ht
          · exact Or.inl h
          · exact Or.inr ⟨t, ht, rfl⟩
    · rw [if_neg h]
      constructor
      · rintro (h₁ | ⟨t, ht, rfl⟩)
        · rcases List.mem_append.1 h₁ with h₂ | h₂
          · exact Or.inl h₂
          · exact Or.inr ⟨x, List.mem_cons_self _ _, (List.mem_singleton.1 h₂).symm⟩
        · exact Or.inr ⟨t, List.mem_cons_of_mem _ ht, rfl⟩
      · rintro (h₁ | ⟨t, ht, rfl⟩)
        · exact Or.inl (List.mem_append_left _ h₁)
        · rcases List.mem_cons.1 ht with rfl | ht
          · exact Or.inl (List.mem_append_right _ (List.mem_singleton_self _))
          · exact Or.inr ⟨t, ht, rfl⟩

theorem nodup_foldl_group (offset : Int) (ts acc : List Int) (hacc : acc.Nodup) :
    (ts.foldl
        (fun dateMap solvedAt =>
          if dateStr offset solvedAt ∈ dateMap then dateMap
          else dateMap ++ [dateStr offset solvedAt]) acc).Nodup := by
  induction ts generalizing acc with
  | nil => simpa using hacc
  | cons x xs ih =>
    rw [List.foldl_cons]
    apply ih
    by_cases h : dateStr offset x ∈ acc
    · rw [if_pos h]
      exact hacc
    · rw [if_neg h]
      refine List.Nodup.append hacc (List.nodup_singleton _) ?_
      intro a ha₁ ha₂
      rw [List.mem_singleton] at ha₂
      exact h (ha₂ ▸ ha₁)

theorem mem_groupByDate (offset : Int) (ts : List Int) (d : Int) :
    d ∈ groupByDate offset ts ↔ ∃ t ∈ ts, dateStr offset t = d := by
  unfold groupByDate
  rw [mem_foldl_group]
  simp

theorem nodup_groupByDate (offset : Int) (ts : List Int) : (groupByDate offset ts).Nodup :=
  nodup_foldl_group offset ts [] List.nodup_nil

theorem mem_sortedDatesOf (offset : Int) (ts : List Int) (d : Int) :
    d ∈ sortedDatesOf offset ts ↔ ∃ t ∈ ts, dateStr offset t = d := by
  unfold sortedDatesOf
  rw [List.mem_reverse, (List.perm_insertionSort _ _).mem_iff, mem_groupByDate]

theorem sortedDatesOf_sorted (offset : Int) (ts : List Int) :
    (sortedDatesOf offset ts).Sorted (fun a b => a > b) := by
  unfold sortedDatesOf
  have h₁ : ((groupByDate offset ts).insertionSort (fun a b => a ≤ b)).Sorted
      (fun a b => a ≤ b) := List.sorted_insertionSort _ _
  have h₂ : ((groupByDate offset ts).insertionSort (fun a b => a ≤ b)).Nodup :=
    (List.perm_insertionSort _ _).nodup_iff.2 (nodup_groupByDate offset ts)
  have h₃ := h₁.lt_of_le h₂
  exact List.pairwise_reverse.2 h₃

theorem countConsecutive_run (offset : Int) (L : List Int) (cur : Int) (s : Nat)
    (hs : L.Sorted (fun a b => a > b)) (hlt : ∀ d ∈ L, d < isoDate cur) :
    ∃ r : Nat, countConsecutive offset L cur s = s + r ∧
      (∀ j : Nat, j < r → isoDate cur - 1 - (j : Int) ∈ L) ∧
      isoDate cur - 1 - (r : Int) ∉ L := by
  induction L generalizing cur s with
  | nil => exact ⟨0, rfl, by intro j hj; omega, by simp⟩
  | cons d rest ih =>
    have hrest : ∀ e ∈ rest, e < d := fun e he => List.rel_of_sorted_cons hs e he
    have hd : d < isoDate cur := hlt d (List.mem_cons_self _ _)
    by_cases h : d = isoDate (setDatePrev offset cur)
    · have hprev := isoDate_setDatePrev offset cur
      obtain ⟨r, hr, hrun, hstop⟩ :=
        ih (setDatePrev offset cur) (s + 1) hs.of_cons (fun e he => h ▸ hrest e he)
      refine ⟨r + 1, ?_, ?_, ?_⟩
      · rw [countConsecutive, if_pos h, hr]
        omega
      · intro j hj
        rcases Nat.eq_zero_or_pos j with rfl | hpos
        · have : isoDate cur - 1 - ((0 : Nat) : Int) = d := by rw [h, hprev]; simp
          rw [this]
          exact List.mem_cons_self _ _
        · have hj' := hrun (j - 1) (by omega)
          have : isoDate cur - 1 - (j : Int) =
              isoDate (setDatePrev offset cur) - 1 - ((j - 1 : Nat) : Int) := by
            rw [hprev]; omega
          rw [this]
          exact List.mem_cons_of_mem _ hj'
      · intro hmem
        have heq : isoDate cur - 1 - ((r + 1 : Nat) : Int) =
            isoDate (setDatePrev offset cur) - 1 - (r : Int) := by
          rw [hprev]; omega
        rw [heq] at hmem
        rcases List.mem_cons.1 hmem with h₁ | h₁
        · rw [hprev] at h₁ h
          omega
        · exact hstop h₁
    · refine ⟨0, ?_, by intro j hj; omega, ?_⟩
      · rw [countConsecutive, if_neg h]
        rfl
      · intro hmem
        rw [isoDate_setDatePrev] at h
        rcases List.mem_cons.1 hmem with h₁ | h₁
        · simp at h₁
          omega
        · have := hrest _ h₁
          simp at this
          omega

theorem solvedOn_iff_mem (offset : Int) (ts : List Int) (d : Int) :
    solvedOn offset ts d ↔ d + (-offset) / msPerDay ∈ sortedDatesOf offset ts := by
  rw [mem_sortedDatesOf]
  unfold solvedOn
  constructor
  · rintro ⟨t, ht, rfl⟩
    exact ⟨t, ht, dateStr_eq offset t⟩
  · rintro ⟨t, ht, h⟩
    rw [dateStr_eq] at h
    exact ⟨t, ht, add_right_cancel h⟩

theorem sortedDatesOf_of_latest (offset : Int) (ts : List Int) (a : Int)
    (ha : IsLatestDay offset ts a) :
    ∃ L, sortedDatesOf offset ts = (a + (-offset) / msPerDay) :: L ∧
      L.Sorted (fun x y => x > y) ∧ ∀ d ∈ L, d < a + (-offset) / msPerDay := by
  have hmem := (solvedOn_iff_mem offset ts a).1 ha.1
  have hsorted := sortedDatesOf_sorted offset ts
  have hall : ∀ d ∈ sortedDatesOf offset ts, d ≤ a + (-offset) / msPerDay := by
    intro d hd
    obtain ⟨t, ht, rfl⟩ := (mem_sortedDatesOf offset ts d).1 hd
    rw [dateStr_eq]
    exact add_le_add_right (ha.2 t ht) _
  cases hK : sortedDatesOf offset ts with
  | nil => rw [hK] at hmem; exact absurd hmem (List.not_mem_nil _)
  | cons k L =>
    rw [hK] at hmem hsorted hall
    have hL : ∀ d ∈ L, d < k := fun d hd => List.rel_of_sorted_cons hsorted d hd
    have hk : k = a + (-offset) / msPerDay := by
      rcases List.mem_cons.1 hmem with h | h
      · exact h.symm
      · have h₁ := hL _ h
        have h₂ := hall k (List.mem_cons_self _ _)
        omega
    subst hk
    exact ⟨L, rfl, hsorted.of_cons, hL⟩

theorem streak_nil (offset now : Int) : streak offset now [] = 0 := by
  simp [streak]

theorem streak_of_latest (offset now : Int) (ts : List Int) (a : Int) (L : List Int)
    (ha : IsLatestDay offset ts a)
    (hK : sortedDatesOf offset ts = (a + (-offset) / msPerDay) :: L) :
    streak offset now ts =
      if a = localDay offset now then
        countConsecutive offset L (setHoursZero offset now) 1
      else if a = localDay offset now - 1 then
        countConsecutive offset L (setDatePrev offset (setHoursZero offset now)) 1
      else 0 := by
  obtain ⟨⟨t, ht, -⟩, -⟩ := ha
  have hne : ¬ ts.length = 0 := by
    intro h
    rw [List.length_eq_zero] at h
    rw [h] at ht
    exact List.not_mem_nil _ ht
  unfold streak
  rw [if_neg hne]
  simp only [hK, List.head?_cons, List.tail_cons, Option.some.injEq, isoDate_setDatePrev,
    isoDate_setHoursZero]
  by_cases h₁ : a = localDay offset now
  · rw [if_pos h₁, if_pos (by rw [h₁])]
  · have h₁' : ¬ a + -offset / msPerDay = localDay offset now + -offset / msPerDay :=
      fun h => h₁ (add_right_cancel h)
    rw [if_neg h₁, if_neg h₁']
    by_cases h₂ : a = localDay offset now - 1
    · rw [if_pos h₂, if_pos (by rw [h₂]; omega)]
    · rw [if_neg h₂, if_neg (by omega)]

theorem streak_run (offset now : Int) (ts : List Int) (a : Int)
    (ha : IsLatestDay offset ts a)
    (hrecent : a = localDay offset now ∨ a = localDay offset now - 1) :
    ∃ r : Nat, streak offset now ts = 1 + r ∧
      (∀ j : Nat, j < 1 + r → solvedOn offset ts (a - (j : Int))) ∧
      ¬ solvedOn offset ts (a - ((1 + r : Nat) : Int)) := by
  obtain ⟨L, hK, hsorted, hlt⟩ := sortedDatesOf_of_latest offset ts a ha
  have hstreak := streak_of_latest offset now ts a L ha hK
  have key : ∀ cur : Int, isoDate cur = a + (-offset) / msPerDay →
      ∃ r : Nat, countConsecutive offset L cur 1 = 1 + r ∧
        (∀ j : Nat, j < 1 + r → solvedOn offset ts (a - (j : Int))) ∧
        ¬ solvedOn offset ts (a - ((1 + r : Nat) : Int)) := by
    intro cur hcur
    obtain ⟨r, hr, hrun, hstop⟩ :=
      countConsecutive_run offset L cur 1 hsorted (fun d hd => hcur ▸ hlt d hd)
    refine ⟨r, hr, ?_, ?_⟩
    · intro j hj
      rw [solvedOn_iff_mem, hK]
      rcases Nat.eq_zero_or_pos j with rfl | hpos
      · simp
      · have h := hrun (j - 1) (by omega)
        have e : a - (j : Int) + -offset / msPerDay = isoDate cur - 1 - ((j - 1 : Nat) : Int) := by
          rw [hcur]; omega
        rw [e]
        exact List.mem_cons_of_mem _ h
    · rw [solvedOn_iff_mem, hK]
      intro hmem
      have e : a - ((1 + r : Nat) : Int) + -offset / msPerDay = isoDate cur - 1 - (r : Int) := by
        rw [hcur]; omega
      rw [e] at hmem
      rcases List.mem_cons.1 hmem with h | h
      · rw [hcur] at h
        omega
      · exact hstop h
  by_cases h₁ : a = localDay offset now
  · rw [if_pos h₁] at hstreak
    rw [hstreak]
    exact key _ (by rw [isoDate_setHoursZero, h₁])
  · have h₂ : a = localDay offset now - 1 := hrecent.resolve_left h₁
    rw [if_neg h₁, if_pos h₂] at hstreak
    rw [hstreak]
    exact key _ (by rw [isoDate_setDatePrev, isoDate_setHoursZero, h₂]; omega)

theorem streak_stale (offset now : Int) (ts : List Int) (a : Int)
    (ha : IsLatestDay offset ts a)
    (h₁ : a ≠ localDay offset now) (h₂ : a ≠ localDay offset now - 1) :
    streak offset now ts = 0 := by
  obtain ⟨L, hK, -, -⟩ := sortedDatesOf_of_latest offset ts a ha
  rw [streak_of_latest offset now ts a L ha hK, if_neg h₁, if_neg h₂]

theorem exists_isLatestDay (offset : Int) (ts : List Int) (hne : ts ≠ []) :
    ∃ a, IsLatestDay offset ts a := by
  induction ts with
  | nil => exact absurd rfl hne
  | cons t rest ih =>
    by_cases hrest : rest = []
    · subst hrest
      refine ⟨localDay offset t, ⟨t, List.mem_cons_self _ _, rfl⟩, ?_⟩
      intro u hu
      rw [List.mem_singleton] at hu
      rw [hu]
    · obtain ⟨a, ⟨u, hu, hua⟩, hmax⟩ := ih hrest
      by_cases hcmp : a ≤ localDay offset t
      · refine ⟨localDay offset t, ⟨t, List.mem_cons_self _ _, rfl⟩, ?_⟩
        intro v hv
        rcases List.mem_cons.1 hv with rfl | hv
        · exact le_refl _
        · exact le_trans (hmax v hv) hcmp
      · refine ⟨a, ⟨u, List.mem_cons_of_mem _ hu, hua⟩, ?_⟩
        intro v hv
        rcases List.mem_cons.1 hv with rfl | hv
        · omega
        · exact hmax v hv

/-- On a host with a fixed UTC offset the streak is 0 exactly when there are no solved
records or the most recent solved local calendar day is neither today nor yesterday; when
the most recent day is today or yesterday the streak is at least 1; a most recent day two
days ago gives 0 whatever the run that ends there. -/
theorem streak_eq_zero_iff (offset now : Int) (ts : List Int) :
    (streak offset now ts = 0 ↔
      ts = [] ∨ ∃ a, IsLatestDay offset ts a ∧
        a ≠ localDay offset now ∧ a ≠ localDay offset now - 1) ∧
    (∀ a, IsLatestDay offset ts a →
      (a = localDay offset now ∨ a = localDay offset now - 1) → 1 ≤ streak offset now ts) ∧
    (∀ a, IsLatestDay offset ts a → a = localDay offset now - 2 →
      streak offset now ts = 0) := by
  have hpos : ∀ a, IsLatestDay offset ts a →
      (a = localDay offset now ∨ a = localDay offset now - 1) → 1 ≤ streak offset now ts := by
    intro a ha hrecent
    obtain ⟨r, hr, -, -⟩ := streak_run offset now ts a ha hrecent
    omega
  refine ⟨⟨?_, ?_⟩, hpos, ?_⟩
  · intro hzero
    by_cases hts : ts = []
    · exact Or.inl hts
    · obtain ⟨a, ha⟩ := exists_isLatestDay offset ts hts
      refine Or.inr ⟨a, ha, ?_, ?_⟩
      · intro h
        have := hpos a ha (Or.inl h)
        omega
      · intro h
        have := hpos a ha (Or.inr h)
        omega
  · rintro (rfl | ⟨a, ha, h₁, h₂⟩)
    · exact streak_nil offset now
    · exact streak_stale offset now ts a ha h₁ h₂
  · intro a ha h
    exact streak_stale offset now ts a ha (by omega) (by omega)

/-- Example at UTC+5:30: a run of five solved days that ends two days before today
gives streak 0. -/
theorem streak_eq_zero_iff_witness :
    localDay 19800000 (atDay 100 36000000) = 100 ∧
    IsLatestDay 19800000
      [atDay 98 36000000, atDay 97 0, atDay 96 0, atDay 95 0, atDay 94 0] 98 ∧
    streak 19800000 (atDay 100 36000000)
      [atDay 98 36000000, atDay 97 0, atDay 96 0, atDay 95 0, atDay 94 0] = 0 :=
  ⟨by decide, by decide,
    (streak_eq_zero_iff 19800000 (atDay 100 36000000)
      [atDay 98 36000000, atDay 97 0, atDay 96 0, atDay 95 0, atDay 94 0]).2.2 98
      (by decide) (by decide)⟩

theorem streak_unique (offset now : Int) (ts : List Int) (a : Int) (k : Nat)
    (ha : IsLatestDay offset ts a)
    (hrecent : a = localDay offset now ∨ a = localDay offset now - 1)
    (hrun : ∀ j : Nat, j < k → solvedOn offset ts (a - (j : Int)))
    (hstop : ¬ solvedOn offset ts (a - (k : Int))) :
    streak offset now ts = k := by
  obtain ⟨r, hr, hrun', hstop'⟩ := streak_run offset now ts a ha hrecent
  rw [hr]
  rcases Nat.lt_trichotomy (1 + r) k with h | h | h
  · exact absurd (hrun (1 + r) h) hstop'
  · exact h
  · exact absurd (hrun' k h) hstop

theorem streak_three_days (offset now t₀ t₁ t₂ : Int)
    (h₀ : localDay offset t₀ = localDay offset now)
    (h₁ : localDay offset t₁ = localDay offset now - 1)
    (h₂ : localDay offset t₂ = localDay offset now - 2) :
    streak offset now [t₀, t₁, t₂] = 3 := by
  apply streak_unique offset now _ (localDay offset now) 3
  · refine ⟨⟨t₀, by simp, h₀⟩, ?_⟩
    intro u hu
    simp only [List.mem_cons, List.mem_singleton, List.not_mem_nil, or_false] at hu
    rcases hu with rfl | rfl | rfl <;> omega
  · exact Or.inl rfl
  · intro j hj
    interval_cases j
    · exact ⟨t₀, by simp, by simpa using h₀⟩
    · exact ⟨t₁, by simp, by simpa using h₁⟩
    · exact ⟨t₂, by simp, by simpa using h₂⟩
  · rintro ⟨u, hu, h⟩
    simp only [List.mem_cons, List.mem_singleton, List.not_mem_nil, or_false] at hu
    rcases hu with rfl | rfl | rfl <;> omega

theorem streak_gap (offset now t₀ t₃ : Int)
    (h₀ : localDay offset t₀ = localDay offset now)
    (h₃ : localDay offset t₃ = localDay offset now - 3) :
    streak offset now [t₀, t₃] = 1 := by
  apply streak_unique offset now _ (localDay offset now) 1
  · refine ⟨⟨t₀, by simp, h₀⟩, ?_⟩
    intro u hu
    simp only [List.mem_cons, List.mem_singleton, List.not_mem_nil, or_false] at hu
    rcases hu with rfl | rfl <;> omega
  · exact Or.inl rfl
  · intro j hj
    interval_cases j
    exact ⟨t₀, by simp, by simpa using h₀⟩
  · rintro ⟨u, hu, h⟩
    simp only [List.mem_cons, List.mem_singleton, List.not_mem_nil, or_false] at hu
    rcases hu with rfl | rfl <;> omega

/-- On a host with a fixed UTC offset, when the most recent solved local calendar day `a`
is today or yesterday, the streak is the largest `k ≥ 1` such that each of the days `a`,
`a - 1`, ..., `a - (k - 1)` has a solved record.  Solves today, yesterday and two days ago
give 3; solves today and three days ago give 1. -/
theorem streak_eq_longest_run (offset now : Int) :
    (∀ (ts : List Int) (a : Int), IsLatestDay offset ts a →
      (a = localDay offset now ∨ a = localDay offset now - 1) →
      IsGreatest {k : Nat | 1 ≤ k ∧ ∀ j : Nat, j < k → solvedOn offset ts (a - (j : Int))}
        (streak offset now ts)) ∧
    (∀ t₀ t₁ t₂ : Int, localDay offset t₀ = localDay offset now →
      localDay offset t₁ = localDay offset now - 1 →
      localDay offset t₂ = localDay offset now - 2 →
      streak offset now [t₀, t₁, t₂] = 3) ∧
    (∀ t₀ t₃ : Int, localDay offset t₀ = localDay offset now →
      localDay offset t₃ = localDay offset now - 3 →
      streak offset now [t₀, t₃] = 1) := by
  refine ⟨?_, streak_three_days offset now, streak_gap offset now⟩
  intro ts a ha hrecent
  obtain ⟨r, hr, hrun, hstop⟩ := streak_run offset now ts a ha hrecent
  rw [hr]
  refine ⟨⟨by omega, hrun⟩, ?_⟩
  rintro k ⟨-, hk⟩
  by_contra hlt
  exact hstop (hk (1 + r) (by omega))

/-- Example at UTC-5: solves today, yesterday and two days ago give streak 3;
solves today and three days ago give streak 1. -/
theorem streak_eq_longest_run_witness :
    streak (-18000000) (atDay 100 43200000)
      [atDay 100 39600000, atDay 99 82800000, atDay 98 43200000] = 3 ∧
    streak (-18000000) (atDay 100 43200000) [atDay 100 39600000, atDay 97 43200000] = 1 ∧
    IsGreatest
      {k : Nat | 1 ≤ k ∧ ∀ j : Nat, j < k →
        solvedOn (-18000000) [atDay 100 39600000, atDay 99 82800000, atDay 98 43200000]
          (100 - (j : Int))}
      (streak (-18000000) (atDay 100 43200000)
        [atDay 100 39600000, atDay 99 82800000, atDay 98 43200000]) :=
  ⟨by decide, by decide,
    (streak_eq_longest_run (-18000000) (atDay 100 43200000)).1
      [atDay 100 39600000, atDay 99 82800000, atDay 98 43200000] 100
      (by decide) (by decide)⟩

theorem sortedDatesOf_congr (offset : Int) (ts ts' : List Int)
    (h : ∀ d, solvedOn offset ts d ↔ solvedOn offset ts' d) :
    sortedDatesOf offset ts = sortedDatesOf offset ts' := by
  have hmem : ∀ d, d ∈ groupByDate offset ts ↔ d ∈ groupByDate offset ts' := by
    intro d
    have h₁ := solvedOn_iff_mem offset ts (d - (-offset) / msPerDay)
    have h₂ := solvedOn_iff_mem offset ts' (d - (-offset) / msPerDay)
    rw [sub_add_cancel, mem_sortedDatesOf, ← mem_groupByDate] at h₁ h₂
    rw [← h₁, ← h₂]
    exact h _
  have hperm : (groupByDate offset ts).Perm (groupByDate offset ts') :=
    (List.perm_ext_iff_of_nodup (nodup_groupByDate offset ts)
      (nodup_groupByDate offset ts')).2 hmem
  have hsort : (groupByDate offset ts).insertionSort (fun a b => a ≤ b) =
      (groupByDate offset ts').insertionSort (fun a b => a ≤ b) :=
    List.eq_of_perm_of_sorted
      (((List.perm_insertionSort _ _).trans hperm).trans (List.perm_insertionSort _ _).symm)
      (List.sorted_insertionSort _ _) (List.sorted_insertionSort _ _)
  unfold sortedDatesOf
  rw [hsort]

theorem streak_congr (offset now : Int) (ts ts' : List Int)
    (h : ∀ d, solvedOn offset ts d ↔ solvedOn offset ts' d) :
    streak offset now ts = streak offset now ts' := by
  have hlen : ts.length = 0 ↔ ts'.length = 0 := by
    rw [List.length_eq_zero, List.length_eq_zero]
    constructor
    · rintro rfl
      cases ts' with
      | nil => rfl
      | cons t rest =>
        obtain ⟨u, hu, -⟩ := (h (localDay offset t)).2 ⟨t, List.mem_cons_self _ _, rfl⟩
        exact absurd hu (List.not_mem_nil _)
    · rintro rfl
      cases ts with
      | nil => rfl
      | cons t rest =>
        obtain ⟨u, hu, -⟩ := (h (localDay offset t)).1 ⟨t, List.mem_cons_self _ _, rfl⟩
        exact absurd hu (List.not_mem_nil _)
  unfold streak
  rw [sortedDatesOf_congr offset ts ts' h]
  by_cases h₀ : ts.length = 0
  · rw [if_pos h₀, if_pos (hlen.1 h₀)]
  · rw [if_neg h₀, if_neg (fun h' => h₀ (hlen.2 h'))]

/-- C10: the streak depends only on the set of local calendar days of the solved
timestamps: two record lists with the same days give the same streak, and inserting
further records, anywhere in the list and at any time of day, on days that already have
a record leaves the streak unchanged. -/
theorem streak_depends_on_days (offset now : Int) (ts ts' : List Int) :
    ((∀ d, solvedOn offset ts d ↔ solvedOn offset ts' d) →
      streak offset now ts = streak offset now ts') ∧
    (ts.Sublist ts' → (∀ e ∈ ts', solvedOn offset ts (localDay offset e)) →
      streak offset now ts' = streak offset now ts) := by
  refine ⟨streak_congr offset now ts ts', ?_⟩
  intro hsub hdays
  symm
  apply streak_congr
  intro d
  constructor
  · rintro ⟨t, ht, rfl⟩
    exact ⟨t, hsub.subset ht, rfl⟩
  · rintro ⟨t, ht, rfl⟩
    exact hdays t ht

/-- Witness for C10: at UTC+2, with solves today and yesterday (streak 2), three more
solves today and one more yesterday leave the streak at 2. -/
theorem streak_depends_on_days_witness :
    streak 7200000 (atDay 100 50000000) [atDay 100 40000000, atDay 99 40000000] = 2 ∧
    streak 7200000 (atDay 100 50000000)
      [atDay 100 45000000, atDay 100 40000000, atDay 100 1000, atDay 99 79199999,
       atDay 99 40000000, atDay 99 0] = 2 ∧
    streak 7200000 (atDay 100 50000000)
      [atDay 100 45000000, atDay 100 40000000, atDay 100 1000, atDay 99 79199999,
       atDay 99 40000000, atDay 99 0] =
    streak 7200000 (atDay 100 50000000) [atDay 100 40000000, atDay 99 40000000] :=
  ⟨by decide, by decide,
    (streak_depends_on_days 7200000 (atDay 100 50000000)
      [atDay 100 40000000, atDay 99 40000000]
      [atDay 100 45000000, atDay 100 40000000, atDay 100 1000, atDay 99 79199999,
       atDay 99 40000000, atDay 99 0]).2 (by decide) (by decide)⟩

/-! ## Theorems: calendar days and date keys -/

theorem solvedOn_iff_mem_map (offset : Int) (ts : List Int) (d : Int) :
    solvedOn offset ts d ↔ d ∈ ts.map (localDay offset) := by
  simp only [solvedOn, List.mem_map]

theorem isLatestDay_iff (offset : Int) (ts : List Int) (a : Int) :
    IsLatestDay offset ts a ↔
      a ∈ ts.map (localDay offset) ∧ ∀ d ∈ ts.map (localDay offset), d ≤ a := by
  unfold IsLatestDay
  rw [solvedOn_iff_mem_map]
  simp only [List.mem_map, forall_exists_index, and_imp, forall_apply_eq_imp_iff₂]

theorem length_ge_of_run (days : List Int) (anchor : Int) (m : Nat)
    (h : ∀ j : Nat, j < m → anchor - (j : Int) ∈ days) : m ≤ days.length := by
  have hnodup : ((List.range m).map (fun j : Nat => anchor - (j : Int))).Nodup := by
    refine (List.nodup_range m).map ?_
    intro x y hxy
    simp only at hxy
    omega
  have hsub : (List.range m).map (fun j : Nat => anchor - (j : Int)) ⊆ days := by
    intro d hd
    obtain ⟨j, hj, rfl⟩ := List.mem_map.1 hd
    exact h j (List.mem_range.1 hj)
  have := (List.subperm_of_subset hnodup hsub).length_le
  simpa using this

theorem calendarWalk_run (days : List Int) (fuel : Nat) (anchor : Int) (s : Nat) :
    ∃ r : Nat, r ≤ fuel ∧ calendarWalk days fuel anchor s = s + r ∧
      (∀ j : Nat, j < r → anchor - 1 - (j : Int) ∈ days) ∧
      (r < fuel → anchor - 1 - (r : Int) ∉ days) := by
  induction fuel generalizing anchor s with
  | zero => exact ⟨0, le_refl _, rfl, by intro j hj; omega, by intro h; omega⟩
  | succ n ih =>
    by_cases h : anchor - 1 ∈ days
    · obtain ⟨r, hr, heq, hrun, hstop⟩ := ih (anchor - 1) (s + 1)
      refine ⟨r + 1, by omega, ?_, ?_, ?_⟩
      · rw [calendarWalk, if_pos h, heq]
        omega
      · intro j hj
        rcases Nat.eq_zero_or_pos j with rfl | hpos
        · simpa using h
        · have := hrun (j - 1) (by omega)
          have e : anchor - 1 - (j : Int) = anchor - 1 - 1 - ((j - 1 : Nat) : Int) := by omega
          rw [e]
          exact this
      · intro hlt
        have := hstop (by omega)
        have e : anchor - 1 - ((r + 1 : Nat) : Int) = anchor - 1 - 1 - (r : Int) := by omega
        rw [e]
        exact this
    · refine ⟨0, by omega, ?_, by intro j hj; omega, ?_⟩
      · rw [calendarWalk, if_neg h]
        rfl
      · intro _
        simpa using h

theorem calendarWalk_spec (days : List Int) (a : Int) (ha : a ∈ days) :
    ∃ r : Nat, calendarWalk days days.length a 1 = 1 + r ∧
      (∀ j : Nat, j < 1 + r → a - (j : Int) ∈ days) ∧
      a - ((1 + r : Nat) : Int) ∉ days := by
  obtain ⟨r, hr, heq, hrun, hstop⟩ := calendarWalk_run days days.length a 1
  have hall : ∀ j : Nat, j < 1 + r → a - (j : Int) ∈ days := by
    intro j hj
    rcases Nat.eq_zero_or_pos j with rfl | hpos
    · simpa using ha
    · have := hrun (j - 1) (by omega)
      have e : a - (j : Int) = a - 1 - ((j - 1 : Nat) : Int) := by omega
      rw [e]
      exact this
  have hlen := length_ge_of_run days a (1 + r) hall
  refine ⟨r, heq, hall, ?_⟩
  have := hstop (by omega)
  have e : a - ((1 + r : Nat) : Int) = a - 1 - (r : Int) := by omega
  rw [e]
  exact this

theorem streak_eq_calendarStreak (offset now : Int) (ts : List Int) :
    streak offset now ts = calendarStreak (localDay offset now) (ts.map (localDay offset)) := by
  by_cases hts : ts = []
  · subst hts
    simp [streak_nil, calendarStreak]
  · obtain ⟨a, ha⟩ := exists_isLatestDay offset ts hts
    have ha' := (isLatestDay_iff offset ts a).1 ha
    have hne : ¬ ts.map (localDay offset) = [] := by
      intro h
      exact hts (List.map_eq_nil_iff.1 h)
    unfold calendarStreak
    rw [if_neg hne]
    by_cases h₁ : a = localDay offset now
    · rw [if_pos (h₁ ▸ ha')]
      obtain ⟨r, heq, hrun, hstop⟩ := calendarWalk_spec _ a ha'.1
      rw [← h₁, heq]
      apply streak_unique offset now ts a (1 + r) ha (Or.inl h₁)
      · intro j hj
        exact (solvedOn_iff_mem_map offset ts _).2 (hrun j hj)
      · intro h
        exact hstop ((solvedOn_iff_mem_map offset ts _).1 h)
    · have hnot : ¬ (localDay offset now ∈ ts.map (localDay offset) ∧
          ∀ d ∈ ts.map (localDay offset), d ≤ localDay offset now) := by
        rintro ⟨hm, hle⟩
        have h₂ := ha'.2 _ hm
        have h₃ := hle _ ha'.1
        omega
      rw [if_neg hnot]
      by_cases h₂ : a = localDay offset now - 1
      · rw [if_pos (h₂ ▸ ha')]
        obtain ⟨r, heq, hrun, hstop⟩ := calendarWalk_spec _ a ha'.1
        rw [← h₂, heq]
        apply streak_unique offset now ts a (1 + r) ha (Or.inr h₂)
        · intro j hj
          exact (solvedOn_iff_mem_map offset ts _).2 (hrun j hj)
        · intro h
          exact hstop ((solvedOn_iff_mem_map offset ts _).1 h)
      · have hnot' : ¬ (localDay offset now - 1 ∈ ts.map (localDay offset) ∧
            ∀ d ∈ ts.map (localDay offset), d ≤ localDay offset now - 1) := by
          rintro ⟨hm, hle⟩
          have h₃ := ha'.2 _ hm
          have h₄ := hle _ ha'.1
          omega
        rw [if_neg hnot']
        exact streak_stale offset now ts a ha h₁ h₂

/-- C11: for every fixed UTC offset of the host, two solved timestamps get the same date
key exactly when they fall on the same local calendar day; the key of today is the key of
every timestamp of the local current day; stepping the anchor back one day steps its key
and its local day back by exactly one; and the streak the handler computes is the streak
of the specification over local calendar days. -/
theorem dateKey_consistent (offset now : Int) :
    (∀ t u : Int, dateStr offset t = dateStr offset u ↔
      localDay offset t = localDay offset u) ∧
    isoDate (setHoursZero offset now) = dateStr offset now ∧
    (∀ t : Int, dateStr offset t = isoDate (setHoursZero offset now) ↔
      localDay offset t = localDay offset now) ∧
    (∀ t : Int, dateStr offset t = isoDate (setDatePrev offset (setHoursZero offset now)) ↔
      localDay offset t = localDay offset now - 1) ∧
    (∀ currentDate : Int,
      isoDate (setDatePrev offset currentDate) = isoDate currentDate - 1 ∧
      localDay offset (setDatePrev offset currentDate) = localDay offset currentDate - 1) ∧
    (∀ ts : List Int,
      streak offset now ts =
        calendarStreak (localDay offset now) (ts.map (localDay offset))) ∧
    localDay 50400000 (atDay 100 43200000) = 101 ∧
    dateStr 50400000 (atDay 100 43200000) = 100 ∧
    streak 50400000 (atDay 100 43200000) [atDay 100 40000000, atDay 99 40000000] = 2 ∧
    streak (-43200000) (atDay 100 3600000) [atDay 99 80000000, atDay 98 50000000] = 2 := by
  refine ⟨?_, rfl, ?_, ?_, ?_, streak_eq_calendarStreak offset now, by decide, by decide,
    by decide, by decide⟩
  · intro t u
    rw [dateStr_eq, dateStr_eq]
    constructor
    · exact fun h => add_right_cancel h
    · intro h
      rw [h]
  · intro t
    rw [dateStr_eq, isoDate_setHoursZero]
    constructor
    · exact fun h => add_right_cancel h
    · intro h
      rw [h]
  · intro t
    rw [dateStr_eq, isoDate_setDatePrev, isoDate_setHoursZero]
    constructor
    · intro h
      omega
    · intro h
      rw [h]
      omega
  · intro currentDate
    refine ⟨isoDate_setDatePrev offset currentDate, ?_⟩
    simp only [localDay, setDatePrev, msPerDay]
    omega

/-! ## Theorems: reorder -/

theorem findIndex_append {α : Type} (pred : α → Bool) (A : List α) (x : α) (B : List α)
    (hA : ∀ a ∈ A, pred a = false) (hx : pred x = true) :
    findIndex pred (A ++ x :: B) = (A.length : Int) := by
  induction A with
  | nil => simp [findIndex, hx]
  | cons a rest ih =>
    have ha : pred a = false := hA a (List.mem_cons_self _ _)
    have ih' := ih (fun b hb => hA b (List.mem_cons_of_mem _ hb))
    have hneg : ¬ ((rest.length : Int) < 0) := by omega
    rw [List.cons_append, findIndex, ha, ih', if_neg (by simp), if_neg hneg]
    simp

theorem arrayAt_natCast {α : Type} (l : List α) (n : Nat) : arrayAt l (n : Int) = l[n]? := by
  simp [arrayAt]

theorem exists_first_match {α : Type} (pred : α → Bool) (l : List α)
    (h : ∃ x ∈ l, pred x = true) :
    ∃ A x B, l = A ++ x :: B ∧ pred x = true ∧ ∀ a ∈ A, pred a = false := by
  induction l with
  | nil =>
    obtain ⟨x, hx, -⟩ := h
    exact absurd hx (List.not_mem_nil _)
  | cons y ys ih =>
    by_cases hy : pred y = true
    · exact ⟨[], y, ys, rfl, hy, fun a ha => absurd ha (List.not_mem_nil _)⟩
    · have hy' : pred y = false := by simpa using hy
      obtain ⟨x, hx, hpx⟩ := h
      rcases List.mem_cons.1 hx with rfl | hx'
      · exact absurd hpx hy
      · obtain ⟨A, z, B, rfl, hz, hA⟩ := ih ⟨x, hx', hpx⟩
        refine ⟨y :: A, z, B, rfl, hz, ?_⟩
        intro a ha
        rcases List.mem_cons.1 ha with rfl | ha'
        · exact hy'
        · exact hA a ha'

theorem findOneProblem_some (db : Store) (id : Nat) (teamId : String) (p : Problem)
    (hp : findOneProblem db id teamId = some p) :
    p ∈ db.problems ∧ p._id = id ∧ p.teamId = teamId := by
  unfold findOneProblem at hp
  have h₁ := List.mem_of_find?_eq_some hp
  have h₂ := List.find?_some hp
  simp only [decide_eq_true_eq] at h₂
  exact ⟨h₁, h₂.1, h₂.2⟩

theorem mem_groupOf (db : Store) (teamId sheet rating : String) (x : Problem) :
    x ∈ groupOf db teamId sheet rating ↔
      x ∈ db.problems ∧ x.teamId = teamId ∧ x.sheet = sheet ∧ x.rating = rating := by
  simp [groupOf, List.mem_filter]

theorem findSameRating_perm (db : Store) (teamId sheet rating : String) :
    (findSameRating db teamId sheet rating).Perm (groupOf db teamId sheet rating) :=
  List.perm_insertionSort _ _

theorem mem_findSameRating (db : Store) (teamId sheet rating : String) (x : Problem) :
    x ∈ findSameRating db teamId sheet rating ↔
      x ∈ db.problems ∧ x.teamId = teamId ∧ x.sheet = sheet ∧ x.rating = rating := by
  rw [(findSameRating_perm db teamId sheet rating).mem_iff, mem_groupOf]

theorem findSameRating_sorted (db : Store) (teamId sheet rating : String) :
    (findSameRating db teamId sheet rating).Sorted (fun a b => a.order ≤ b.order) := by
  haveI : IsTotal Problem (fun a b => a.order ≤ b.order) := ⟨fun a b => le_total _ _⟩
  haveI : IsTrans Problem (fun a b => a.order ≤ b.order) :=
    ⟨fun a b c hab hbc => le_trans hab hbc⟩
  exact List.sorted_insertionSort _ _

theorem groupOf_ids_nodup (db : Store) (hid : UniqueIds db) (teamId sheet rating : String) :
    ((groupOf db teamId sheet rating).map (fun p => p._id)).Nodup :=
  List.Nodup.sublist ((List.filter_sublist _).map _) hid

theorem findSameRating_ids_nodup (db : Store) (hid : UniqueIds db)
    (teamId sheet rating : String) :
    ((findSameRating db teamId sheet rating).map (fun p => p._id)).Nodup :=
  (((findSameRating_perm db teamId sheet rating).map _).nodup_iff).2
    (groupOf_ids_nodup db hid teamId sheet rating)

theorem eq_of_id_eq (db : Store) (hid : UniqueIds db) (x y : Problem)
    (hx : x ∈ db.problems) (hy : y ∈ db.problems) (h : x._id = y._id) : x = y :=
  List.inj_on_of_nodup_map hid hx hy h

theorem target_mem_findSameRating (db : Store) (id : Nat) (teamId : String) (p : Problem)
    (hp : findOneProblem db id teamId = some p) :
    p ∈ findSameRating db teamId p.sheet p.rating := by
  obtain ⟨h₁, -, h₃⟩ := findOneProblem_some db id teamId p hp
  exact (mem_findSameRating db teamId p.sheet p.rating p).2 ⟨h₁, h₃, rfl, rfl⟩

theorem split_at_pair {α : Type} (l : List α) (i : Nat) (a b : α)
    (ha : l[i]? = some a) (hb : l[i + 1]? = some b) :
    l = l.take i ++ a :: b :: l.drop (i + 2) := by
  obtain ⟨h₁, rfl⟩ := List.getElem?_eq_some.1 ha
  obtain ⟨h₂, rfl⟩ := List.getElem?_eq_some.1 hb
  conv_lhs => rw [← List.take_append_drop i l]
  rw [List.drop_eq_getElem_cons h₁, List.drop_eq_getElem_cons h₂]

theorem length_take_of_getElem? {α : Type} (l : List α) (i : Nat) (a : α)
    (ha : l[i]? = some a) : (l.take i).length = i := by
  obtain ⟨h₁, -⟩ := List.getElem?_eq_some.1 ha
  rw [List.length_take]
  omega

theorem ids_of_split (A B : List Problem) (a b : Problem)
    (h : ((A ++ a :: b :: B).map (fun p => p._id)).Nodup) :
    a._id ≠ b._id ∧ (∀ x ∈ A, x._id ≠ a._id ∧ x._id ≠ b._id) ∧
      (∀ x ∈ B, x._id ≠ a._id ∧ x._id ≠ b._id) := by
  simp only [List.map_append, List.map_cons, List.nodup_append, List.nodup_cons,
    List.mem_cons, List.mem_map, not_or, not_exists, not_and, List.Disjoint] at h
  obtain ⟨-, ⟨⟨hab, haB⟩, hbB, -⟩, hdis⟩ := h
  refine ⟨hab, ?_, ?_⟩
  · intro x hx
    have := hdis (a := x._id) ⟨x, hx, rfl⟩
    exact ⟨fun h => this (Or.inl h), fun h => this (Or.inr (Or.inl h))⟩
  · intro x hx
    exact ⟨fun h => haB x hx h, fun h => hbB x hx h⟩

theorem saveOrder_twice (db : Store) (a b : Problem) (hab : a._id ≠ b._id) :
    saveOrder (saveOrder db { a with order := b.order }) { b with order := a.order } =
      { db with problems := db.problems.map (exchange a b) } := by
  simp only [saveOrder, List.map_map]
  congr 1
  apply List.map_congr_left
  intro x _
  simp only [Function.comp, exchange]
  by_cases h₁ : x._id = a._id
  · have h₂ : ¬ x._id = b._id := fun h => hab (h₁.symm.trans h)
    simp [h₁, hab]
  · have hba : ¬ b._id = a._id := fun h => hab h.symm
    by_cases h₂ : x._id = b._id
    · simp [h₂, hba]
    · simp [h₁, h₂]

theorem exchange_comm (a b : Problem) (hab : a._id ≠ b._id) : exchange a b = exchange b a := by
  funext x
  simp only [exchange]
  have hba : ¬ b._id = a._id := fun h => hab h.symm
  by_cases h₁ : x._id = a._id
  · simp [h₁, hab]
  · by_cases h₂ : x._id = b._id
    · simp [h₂, hba]
    · simp [h₁, h₂]

theorem reorder_up_eval (db : Store) (teamId : String) (id : Nat) (p : Problem)
    (A : List Problem) (q x : Problem) (B : List Problem)
    (hp : findOneProblem db id teamId = some p)
    (hG : findSameRating db teamId p.sheet p.rating = A ++ q :: x :: B)
    (hx : x._id = id) (hq : q._id ≠ id) (hA : ∀ a ∈ A, a._id ≠ id) :
    reorder db teamId id (some "up") =
      (Response.json true,
        saveOrder (saveOrder db { x with order := q.order }) { q with order := x.order }) := by
  have hidx : findIndex (fun p : Problem => decide (p._id = id)) (A ++ q :: x :: B) =
      ((A.length + 1 : Nat) : Int) := by
    have e : A ++ q :: x :: B = (A ++ [q]) ++ x :: B := by simp
    rw [e, findIndex_append]
    · simp
    · intro a ha
      rcases List.mem_append.1 ha with h | h
      · simpa using hA a h
      · rw [List.mem_singleton] at h
        simpa [h] using hq
    · simpa using hx
  have e₁ : ((A.length + 1 : Nat) : Int) - 1 = ((A.length : Nat) : Int) := by omega
  have h₁ : (A ++ q :: x :: B)[A.length + 1]? = some x := by
    rw [List.getElem?_append_right (by omega)]
    simp
  have h₂ : (A ++ q :: x :: B)[A.length]? = some q := by
    rw [List.getElem?_append_right (by omega)]
    simp
  unfold reorder
  rw [hp]
  simp only []
  rw [hG, hidx, if_pos ⟨trivial, by omega⟩]
  unfold swapAndSave
  rw [e₁, arrayAt_natCast, arrayAt_natCast, h₁, h₂]

theorem reorder_down_eval (db : Store) (teamId : String) (id : Nat) (p : Problem)
    (A : List Problem) (x n : Problem) (B : List Problem)
    (hp : findOneProblem db id teamId = some p)
    (hG : findSameRating db teamId p.sheet p.rating = A ++ x :: n :: B)
    (hx : x._id = id) (hA : ∀ a ∈ A, a._id ≠ id) :
    reorder db teamId id (some "down") =
      (Response.json true,
        saveOrder (saveOrder db { x with order := n.order }) { n with order := x.order }) := by
  have hidx : findIndex (fun p : Problem => decide (p._id = id)) (A ++ x :: n :: B) =
      ((A.length : Nat) : Int) := by
    rw [findIndex_append]
    · intro a ha
      simpa using hA a ha
    · simpa using hx
  have e₁ : ((A.length : Nat) : Int) + 1 = ((A.length + 1 : Nat) : Int) := by omega
  have h₁ : (A ++ x :: n :: B)[A.length]? = some x := by
    rw [List.getElem?_append_right (by omega)]
    simp
  have h₂ : (A ++ x :: n :: B)[A.length + 1]? = some n := by
    rw [List.getElem?_append_right (by omega)]
    simp
  have hlen : ((A ++ x :: n :: B).length : Int) = (A.length : Int) + 2 + (B.length : Int) := by
    simp only [List.length_append, List.length_cons]
    omega
  unfold reorder
  rw [hp]
  simp only []
  rw [hG, hidx, if_neg (by simp), if_pos ⟨trivial, by rw [hlen]; omega⟩]
  unfold swapAndSave
  rw [e₁, arrayAt_natCast, arrayAt_natCast, h₁, h₂]

theorem reorder_up_first (db : Store) (teamId : String) (id : Nat) (p : Problem)
    (x : Problem) (B : List Problem)
    (hp : findOneProblem db id teamId = some p)
    (hG : findSameRating db teamId p.sheet p.rating = x :: B) (hx : x._id = id) :
    reorder db teamId id (some "up") = (Response.json true, db) := by
  have hidx : findIndex (fun p : Problem => decide (p._id = id)) (x :: B) = 0 := by
    simp [findIndex, hx]
  unfold reorder
  rw [hp]
  simp only []
  rw [hG, hidx, if_neg (by simp), if_neg (by simp)]

theorem reorder_down_last (db : Store) (teamId : String) (id : Nat) (p : Problem)
    (A : List Problem) (x : Problem)
    (hp : findOneProblem db id teamId = some p)
    (hG : findSameRating db teamId p.sheet p.rating = A ++ [x])
    (hx : x._id = id) (hA : ∀ a ∈ A, a._id ≠ id) :
    reorder db teamId id (some "down") = (Response.json true, db) := by
  have hidx : findIndex (fun p : Problem => decide (p._id = id)) (A ++ [x]) =
      ((A.length : Nat) : Int) := by
    rw [findIndex_append]
    · intro a ha
      simpa using hA a ha
    · simpa using hx
  have hlen : ((A ++ [x]).length : Int) = (A.length : Int) + 1 := by
    simp only [List.length_append, List.length_cons, List.length_nil]
    omega
  unfold reorder
  rw [hp]
  simp only []
  rw [hG, hidx, if_neg (by simp), if_neg (by rw [hlen]; omega)]

theorem reorder_other (db : Store) (teamId : String) (id : Nat) (p : Problem)
    (direction : Option String)
    (hp : findOneProblem db id teamId = some p)
    (hup : direction ≠ some "up") (hdown : direction ≠ some "down") :
    reorder db teamId id direction = (Response.json true, db) := by
  unfold reorder
  rw [hp]
  simp only []
  rw [if_neg (fun h => hup h.1), if_neg (fun h => hdown h.1)]

theorem reorder_fst_of_found (db : Store) (teamId : String) (id : Nat) (p : Problem)
    (direction : Option String) (hp : findOneProblem db id teamId = some p) :
    (reorder db teamId id direction).1 = Response.json true := by
  have hmem := target_mem_findSameRating db id teamId p hp
  have hpid := (findOneProblem_some db id teamId p hp).2.1
  obtain ⟨A, x, B, hG, hx, hA⟩ :=
    exists_first_match (fun y : Problem => decide (y._id = id))
      (findSameRating db teamId p.sheet p.rating) ⟨p, hmem, by simpa using hpid⟩
  have hx' : x._id = id := by simpa using hx
  have hA' : ∀ a ∈ A, a._id ≠ id := fun a ha => by simpa using hA a ha
  by_cases hup : direction = some "up"
  · subst hup
    rcases List.eq_nil_or_concat A with rfl | ⟨A', q, rfl⟩
    · rw [reorder_up_first db teamId id p x B hp (by simpa using hG) hx']
    · have hq : q._id ≠ id := hA' q (by simp)
      have hA'' : ∀ a ∈ A', a._id ≠ id := fun a ha => hA' a (by simp [ha])
      rw [reorder_up_eval db teamId id p A' q x B hp (by simpa using hG) hx' hq hA'']
  · by_cases hdown : direction = some "down"
    · subst hdown
      cases B with
      | nil => rw [reorder_down_last db teamId id p A x hp hG hx' hA']
      | cons n B' => rw [reorder_down_eval db teamId id p A x n B' hp hG hx' hA']
    · rw [reorder_other db teamId id p direction hp hup hdown]

theorem find_by_id (db : Store) (hid : UniqueIds db) (x : Problem) (hx : x ∈ db.problems) :
    db.problems.find? (fun y => y._id = x._id) = some x := by
  cases h : db.problems.find? (fun y => decide (y._id = x._id)) with
  | none =>
    have := List.find?_eq_none.1 h x hx
    simp at this
  | some y =>
    have h₁ := List.mem_of_find?_eq_some h
    have h₂ := List.find?_some h
    simp only [decide_eq_true_eq] at h₂
    rw [eq_of_id_eq db hid y x h₁ hx h₂]

theorem exchange_id (a b x : Problem) : (exchange a b x)._id = x._id := by
  unfold exchange
  split_ifs <;> rfl

theorem exchange_group (a b x : Problem) :
    (exchange a b x).teamId = x.teamId ∧ (exchange a b x).sheet = x.sheet ∧
      (exchange a b x).rating = x.rating := by
  unfold exchange
  split_ifs <;> exact ⟨rfl, rfl, rfl⟩

theorem exchange_fields (a b x : Problem) :
    exchange a b x = { x with order := (exchange a b x).order } := by
  unfold exchange
  split_ifs <;> rfl

theorem orderOf_exchange (db : Store) (hid : UniqueIds db) (a b x : Problem)
    (hx : x ∈ db.problems) :
    orderOf { db with problems := db.problems.map (exchange a b) } x._id =
      some (exchange a b x).order := by
  unfold orderOf
  simp only [List.find?_map]
  have : ((fun p : Problem => decide (p._id = x._id)) ∘ exchange a b) =
      (fun p : Problem => decide (p._id = x._id)) := by
    funext y
    simp [Function.comp, exchange_id]
  rw [this, find_by_id db hid x hx]
  rfl

theorem mem_of_getElem?_group (db : Store) (teamId sheet rating : String) (i : Nat)
    (x : Problem) (h : (findSameRating db teamId sheet rating)[i]? = some x) :
    x ∈ db.problems ∧ x.teamId = teamId ∧ x.sheet = sheet ∧ x.rating = rating := by
  obtain ⟨hi, rfl⟩ := List.getElem?_eq_some.1 h
  exact (mem_findSameRating db teamId sheet rating _).1 (List.getElem_mem _)

theorem reorder_of_adjacent (db : Store) (hid : UniqueIds db) (teamId : String)
    (p a b : Problem) (i : Nat)
    (hp : findOneProblem db p._id teamId = some p)
    (ha : (findSameRating db teamId p.sheet p.rating)[i]? = some a)
    (hb : (findSameRating db teamId p.sheet p.rating)[i + 1]? = some b) :
    a._id ≠ b._id ∧
    (b = p → reorder db teamId p._id (some "up") =
      (Response.json true, { db with problems := db.problems.map (exchange a b) })) ∧
    (a = p → reorder db teamId p._id (some "down") =
      (Response.json true, { db with problems := db.problems.map (exchange a b) })) := by
  have hG := split_at_pair _ i a b ha hb
  have hnodup := findSameRating_ids_nodup db hid teamId p.sheet p.rating
  rw [hG] at hnodup
  obtain ⟨hab, hA, -⟩ := ids_of_split _ _ a b hnodup
  refine ⟨hab, ?_, ?_⟩
  · intro hbp
    subst hbp
    rw [reorder_up_eval db teamId b._id b _ a b _ hp hG rfl hab (fun x hx => (hA x hx).2),
      saveOrder_twice db b a (Ne.symm hab), exchange_comm b a (Ne.symm hab)]
  · intro hap
    subst hap
    rw [reorder_down_eval db teamId a._id a _ a b _ hp hG rfl (fun x hx => (hA x hx).1),
      saveOrder_twice db a b hab]

theorem reorder_first_up (db : Store) (teamId : String) (p : Problem)
    (hp : findOneProblem db p._id teamId = some p)
    (h₀ : (findSameRating db teamId p.sheet p.rating)[0]? = some p) :
    reorder db teamId p._id (some "up") = (Response.json true, db) := by
  cases hG : findSameRating db teamId p.sheet p.rating with
  | nil => rw [hG] at h₀; simp at h₀
  | cons x B =>
    rw [hG] at h₀
    simp only [List.getElem?_cons_zero, Option.some.injEq] at h₀
    subst h₀
    exact reorder_up_first db teamId x._id x x B hp hG rfl

theorem reorder_last_down (db : Store) (hid : UniqueIds db) (teamId : String) (p : Problem)
    (hp : findOneProblem db p._id teamId = some p)
    (hlast : (findSameRating db teamId p.sheet p.rating)[
      (findSameRating db teamId p.sheet p.rating).length - 1]? = some p) :
    reorder db teamId p._id (some "down") = (Response.json true, db) := by
  have hnodup := findSameRating_ids_nodup db hid teamId p.sheet p.rating
  rcases List.eq_nil_or_concat (findSameRating db teamId p.sheet p.rating) with hG | ⟨A, x, hG⟩
  · rw [hG] at hlast
    simp at hlast
  · rw [List.concat_eq_append] at hG
    rw [hG] at hlast hnodup
    have hx : x = p := by
      simpa using hlast
    subst hx
    refine reorder_down_last db teamId x._id x A x hp hG rfl ?_
    intro a ha h
    simp only [List.map_append, List.map_cons, List.map_nil, List.nodup_append,
      List.Disjoint, List.mem_map, List.mem_singleton] at hnodup
    exact hnodup.2.2 ⟨a, ha, rfl⟩ h

theorem reorder_cases (db : Store) (hid : UniqueIds db) (teamId : String) (id : Nat)
    (direction : Option String) :
    (findOneProblem db id teamId = none ∧
      reorder db teamId id direction = (Response.error 404 "Problem not found", db)) ∨
    ∃ p, findOneProblem db id teamId = some p ∧
      (reorder db teamId id direction = (Response.json true, db) ∨
        ∃ a b i, (findSameRating db teamId p.sheet p.rating)[i]? = some a ∧
          (findSameRating db teamId p.sheet p.rating)[i + 1]? = some b ∧
          ((direction = some "up" ∧ b = p) ∨ (direction = some "down" ∧ a = p)) ∧
          reorder db teamId id direction =
            (Response.json true, { db with problems := db.problems.map (exchange a b) })) := by
  cases hp : findOneProblem db id teamId with
  | none =>
    left
    refine ⟨rfl, ?_⟩
    unfold reorder
    rw [hp]
  | some p =>
    right
    refine ⟨p, rfl, ?_⟩
    obtain ⟨-, hpid, -⟩ := findOneProblem_some db id teamId p hp
    subst hpid
    obtain ⟨i, hi⟩ := List.mem_iff_getElem?.1 (target_mem_findSameRating db p._id teamId p hp)
    by_cases hup : direction = some "up"
    · subst hup
      cases i with
      | zero => exact Or.inl (reorder_first_up db teamId p hp hi)
      | succ j =>
        have hj : j < (findSameRating db teamId p.sheet p.rating).length := by
          have := (List.getElem?_eq_some.1 hi).1
          omega
        have ha : (findSameRating db teamId p.sheet p.rating)[j]? =
            some ((findSameRating db teamId p.sheet p.rating)[j]) := List.getElem?_eq_getElem hj
        right
        refine ⟨_, p, j, ha, hi, Or.inl ⟨rfl, rfl⟩, ?_⟩
        exact (reorder_of_adjacent db hid teamId p _ p j hp ha hi).2.1 rfl
    · by_cases hdown : direction = some "down"
      · subst hdown
        by_cases hlt : i + 1 < (findSameRating db teamId p.sheet p.rating).length
        · have hb : (findSameRating db teamId p.sheet p.rating)[i + 1]? =
              some ((findSameRating db teamId p.sheet p.rating)[i + 1]) :=
            List.getElem?_eq_getElem hlt
          right
          refine ⟨p, _, i, hi, hb, Or.inr ⟨rfl, rfl⟩, ?_⟩
          exact (reorder_of_adjacent db hid teamId p p _ i hp hi hb).2.2 rfl
        · left
          have hi' := (List.getElem?_eq_some.1 hi).1
          have e : (findSameRating db teamId p.sheet p.rating).length - 1 = i := by omega
          exact reorder_last_down db hid teamId p hp (by rw [e]; exact hi)
      · exact Or.inl (reorder_other db teamId p._id p direction hp hup hdown)

theorem exchange_of_ne (a b x : Problem) (ha : x._id ≠ a._id) (hb : x._id ≠ b._id) :
    exchange a b x = x := by
  simp [exchange, ha, hb]

theorem map_exchange_split (A B : List Problem) (a b : Problem)
    (h : ((A ++ a :: b :: B).map (fun p => p._id)).Nodup) :
    (A ++ a :: b :: B).map (exchange a b) =
      A ++ { a with order := b.order } :: { b with order := a.order } :: B := by
  obtain ⟨hab, hA, hB⟩ := ids_of_split A B a b h
  have hA' : A.map (exchange a b) = A := by
    conv_rhs => rw [← List.map_id A]
    exact List.map_congr_left (fun x hx => exchange_of_ne a b x (hA x hx).1 (hA x hx).2)
  have hB' : B.map (exchange a b) = B := by
    conv_rhs => rw [← List.map_id B]
    exact List.map_congr_left (fun x hx => exchange_of_ne a b x (hB x hx).1 (hB x hx).2)
  have ha : exchange a b a = { a with order := b.order } := by simp [exchange]
  have hb : exchange a b b = { b with order := a.order } := by
    simp [exchange, Ne.symm hab]
  rw [List.map_append, List.map_cons, List.map_cons, hA', hB', ha, hb]

theorem groupOf_map_exchange (db : Store) (a b : Problem) (teamId sheet rating : String) :
    groupOf { db with problems := db.problems.map (exchange a b) } teamId sheet rating =
      (groupOf db teamId sheet rating).map (exchange a b) := by
  unfold groupOf
  rw [List.filter_map]
  congr 1
  apply List.filter_congr
  intro x _
  obtain ⟨h₁, h₂, h₃⟩ := exchange_group a b x
  simp [Function.comp, h₁, h₂, h₃]

theorem eq_of_map_eq_of_perm {α β : Type} (f : α → β) (S T : List α)
    (hmap : S.map f = T.map f) (hperm : S.Perm T) (hnodup : (T.map f).Nodup) : S = T := by
  induction S generalizing T with
  | nil =>
    cases T with
    | nil => rfl
    | cons y T' => simp at hmap
  | cons x S' ih =>
    cases T with
    | nil => simp at hmap
    | cons y T' =>
      simp only [List.map_cons, List.cons.injEq] at hmap
      have hx : x ∈ y :: T' := hperm.subset (List.mem_cons_self _ _)
      have hy : y ∈ y :: T' := List.mem_cons_self _ _
      have hxy : x = y := List.inj_on_of_nodup_map hnodup hx hy hmap.1
      subst hxy
      rw [ih T' hmap.2 hperm.cons_inv (List.nodup_cons.1 hnodup).2]

theorem insertionSort_eq_of_strict (T L : List Problem) (hperm : T.Perm L)
    (hsorted : (T.map (fun p => p.order)).Sorted (fun x y => x < y)) :
    L.insertionSort (fun a b => a.order ≤ b.order) = T := by
  haveI : IsTotal Problem (fun a b => a.order ≤ b.order) := ⟨fun a b => le_total _ _⟩
  haveI : IsTrans Problem (fun a b => a.order ≤ b.order) :=
    ⟨fun a b c hab hbc => le_trans hab hbc⟩
  have hS : (L.insertionSort (fun a b => a.order ≤ b.order)).Sorted
      (fun a b => a.order ≤ b.order) := List.sorted_insertionSort _ _
  have hSperm : (L.insertionSort (fun a b => a.order ≤ b.order)).Perm T :=
    (List.perm_insertionSort _ _).trans hperm.symm
  have h₁ : ((L.insertionSort (fun a b => a.order ≤ b.order)).map
      (fun p => p.order)).Sorted (fun x y => x ≤ y) := List.pairwise_map.2 hS
  have h₂ : (T.map (fun p => p.order)).Sorted (fun x y => x ≤ y) :=
    hsorted.imp (fun h => le_of_lt h)
  have hmap := List.eq_of_perm_of_sorted (hSperm.map (fun p => p.order)) h₁ h₂
  exact eq_of_map_eq_of_perm _ _ _ hmap hSperm hsorted.nodup

theorem findSameRating_orders_perm (db : Store) (teamId sheet rating : String) :
    ((findSameRating db teamId sheet rating).map (fun p => p.order)).Perm
      (groupOrders db teamId sheet rating) :=
  (findSameRating_perm db teamId sheet rating).map _

theorem findSameRating_after_exchange (db : Store) (hid : UniqueIds db)
    (teamId sheet rating : String) (a b : Problem) (i : Nat)
    (hdistinct : (groupOrders db teamId sheet rating).Nodup)
    (ha : (findSameRating db teamId sheet rating)[i]? = some a)
    (hb : (findSameRating db teamId sheet rating)[i + 1]? = some b) :
    findSameRating { db with problems := db.problems.map (exchange a b) } teamId sheet rating =
      (findSameRating db teamId sheet rating).take i ++
        { b with order := a.order } :: { a with order := b.order } ::
          (findSameRating db teamId sheet rating).drop (i + 2) := by
  have hG := split_at_pair _ i a b ha hb
  have hnodup := findSameRating_ids_nodup db hid teamId sheet rating
  have hsorted := findSameRating_sorted db teamId sheet rating
  have hordnodup : ((findSameRating db teamId sheet rating).map (fun p => p.order)).Nodup :=
    ((findSameRating_orders_perm db teamId sheet rating).nodup_iff).2 hdistinct
  have hlt : ((findSameRating db teamId sheet rating).map (fun p => p.order)).Sorted
      (fun x y => x < y) :=
    List.Sorted.lt_of_le (List.pairwise_map.2 hsorted) hordnodup
  generalize (findSameRating db teamId sheet rating).take i = A at hG ⊢
  generalize (findSameRating db teamId sheet rating).drop (i + 2) = B at hG ⊢
  have hperm : (A ++ { b with order := a.order } :: { a with order := b.order } :: B).Perm
      (groupOf { db with problems := db.problems.map (exchange a b) } teamId sheet rating) := by
    rw [groupOf_map_exchange]
    have h₁ : ((findSameRating db teamId sheet rating).map (exchange a b)).Perm
        ((groupOf db teamId sheet rating).map (exchange a b)) :=
      (findSameRating_perm db teamId sheet rating).map _
    rw [hG] at hnodup h₁
    rw [map_exchange_split A B a b hnodup] at h₁
    exact ((List.Perm.swap _ _ _).append_left A).trans h₁
  unfold findSameRating
  apply insertionSort_eq_of_strict _ _ hperm
  have e : (A ++ { b with order := a.order } :: { a with order := b.order } :: B).map
      (fun p => p.order) = (A ++ a :: b :: B).map (fun p => p.order) := by
    simp
  rw [e, ← hG]
  exact hlt

theorem groupOrders_exchange_perm (db : Store) (hid : UniqueIds db)
    (teamId₀ sheet₀ rating₀ : String) (a b : Problem) (i : Nat)
    (ha : (findSameRating db teamId₀ sheet₀ rating₀)[i]? = some a)
    (hb : (findSameRating db teamId₀ sheet₀ rating₀)[i + 1]? = some b)
    (teamId sheet rating : String) :
    (groupOrders { db with problems := db.problems.map (exchange a b) } teamId sheet rating).Perm
      (groupOrders db teamId sheet rating) := by
  have ha' := mem_of_getElem?_group db teamId₀ sheet₀ rating₀ i a ha
  have hb' := mem_of_getElem?_group db teamId₀ sheet₀ rating₀ (i + 1) b hb
  unfold groupOrders
  rw [groupOf_map_exchange]
  by_cases hsame : teamId = teamId₀ ∧ sheet = sheet₀ ∧ rating = rating₀
  · obtain ⟨rfl, rfl, rfl⟩ := hsame
    have hG := split_at_pair _ i a b ha hb
    have hnodup := findSameRating_ids_nodup db hid teamId sheet rating
    have h₁ : (((findSameRating db teamId sheet rating).map (exchange a b)).map
        (fun p => p.order)).Perm (((groupOf db teamId sheet rating).map (exchange a b)).map
          (fun p => p.order)) :=
      ((findSameRating_perm db teamId sheet rating).map _).map _
    have h₂ := findSameRating_orders_perm db teamId sheet rating
    unfold groupOrders at h₂
    generalize (findSameRating db teamId sheet rating).take i = A at hG
    generalize (findSameRating db teamId sheet rating).drop (i + 2) = B at hG
    rw [hG] at hnodup h₁ h₂
    rw [map_exchange_split A B a b hnodup] at h₁
    refine h₁.symm.trans (List.Perm.trans ?_ h₂)
    simp only [List.map_append, List.map_cons]
    exact (List.Perm.swap _ _ _).append_left _
  · have hfix : (groupOf db teamId sheet rating).map (exchange a b) =
        groupOf db teamId sheet rating := by
      conv_rhs => rw [← List.map_id (groupOf db teamId sheet rating)]
      apply List.map_congr_left
      intro x hx
      obtain ⟨hx₁, hx₂, hx₃, hx₄⟩ := (mem_groupOf db teamId sheet rating x).1 hx
      apply exchange_of_ne
      · intro h
        have := eq_of_id_eq db hid x a hx₁ ha'.1 h
        subst this
        exact hsame ⟨hx₂.symm.trans ha'.2.1, hx₃.symm.trans ha'.2.2.1,
          hx₄.symm.trans ha'.2.2.2⟩
      · intro h
        have := eq_of_id_eq db hid x b hx₁ hb'.1 h
        subst this
        exact hsame ⟨hx₂.symm.trans hb'.2.1, hx₃.symm.trans hb'.2.2.1,
          hx₄.symm.trans hb'.2.2.2⟩
    rw [hfix]

theorem uniqueIds_exchange (db : Store) (hid : UniqueIds db) (a b : Problem) :
    UniqueIds { db with problems := db.problems.map (exchange a b) } := by
  unfold UniqueIds at *
  rw [List.map_map]
  have : ((fun p : Problem => p._id) ∘ exchange a b) = (fun p : Problem => p._id) := by
    funext x
    exact exchange_id a b x
  rw [this]
  exact hid

theorem reorder_uniqueIds (db : Store) (hid : UniqueIds db) (teamId : String) (id : Nat)
    (direction : Option String) : UniqueIds (reorder db teamId id direction).2 := by
  rcases reorder_cases db hid teamId id direction with ⟨-, h⟩ | ⟨p, -, h | ⟨a, b, i, -, -, -, h⟩⟩
  · rw [h]; exact hid
  · rw [h]; exact hid
  · rw [h]; exact uniqueIds_exchange db hid a b

theorem reorder_groupOrders_perm (db : Store) (hid : UniqueIds db) (teamId : String) (id : Nat)
    (direction : Option String) (teamId' sheet rating : String) :
    (groupOrders (reorder db teamId id direction).2 teamId' sheet rating).Perm
      (groupOrders db teamId' sheet rating) := by
  rcases reorder_cases db hid teamId id direction with
    ⟨-, h⟩ | ⟨p, -, h | ⟨a, b, i, ha, hb, -, h⟩⟩
  · rw [h]
  · rw [h]
  · rw [h]
    exact groupOrders_exchange_perm db hid teamId p.sheet p.rating a b i ha hb _ _ _

theorem applyMoves_invariant (db : Store) (hid : UniqueIds db) (moves : List Move)
    (teamId sheet rating : String) :
    UniqueIds (applyMoves db moves) ∧
      (groupOrders (applyMoves db moves) teamId sheet rating).Perm
        (groupOrders db teamId sheet rating) := by
  induction moves generalizing db with
  | nil => exact ⟨hid, List.Perm.refl _⟩
  | cons m rest ih =>
    have h₁ := reorder_uniqueIds db hid m.teamId m.id m.direction
    have h₂ := reorder_groupOrders_perm db hid m.teamId m.id m.direction teamId sheet rating
    obtain ⟨h₃, h₄⟩ := ih (reorder db m.teamId m.id m.direction).2 h₁
    exact ⟨h₃, h₄.trans h₂⟩

theorem exchange_order_left (a b : Problem) : (exchange a b a).order = b.order := by
  simp [exchange]

theorem exchange_order_right (a b : Problem) (hab : a._id ≠ b._id) :
    (exchange a b b).order = a.order := by
  simp [exchange, Ne.symm hab]

theorem changed_zip_map {α : Type} [DecidableEq α] (f : α → α) (l : List α) :
    ((l.zip (l.map f)).filter (fun xy => decide (xy.1 ≠ xy.2))).map Prod.fst =
      l.filter (fun x => decide (x ≠ f x)) := by
  induction l with
  | nil => rfl
  | cons x xs ih =>
    by_cases h : x = f x
    · simp only [List.map_cons, List.zip_cons_cons, List.filter_cons]
      rw [if_neg (by simpa using h), if_neg (by simpa using h)]
      exact ih
    · simp only [List.map_cons, List.zip_cons_cons, List.filter_cons]
      rw [if_pos (by simpa using h), if_pos (by simpa using h), List.map_cons, ih]

theorem exchange_effect (db : Store) (hid : UniqueIds db) (a b : Problem)
    (ha : a ∈ db.problems) (hb : b ∈ db.problems) (hab : a._id ≠ b._id) :
    (a.order ≠ b.order →
      (changedRecords db { db with problems := db.problems.map (exchange a b) }).Perm [a, b] ∧
      orderOf { db with problems := db.problems.map (exchange a b) } a._id ≠ some a.order ∧
      orderOf { db with problems := db.problems.map (exchange a b) } b._id ≠ some b.order) ∧
    (a.order = b.order → { db with problems := db.problems.map (exchange a b) } = db) := by
  constructor
  · intro hord
    refine ⟨?_, ?_, ?_⟩
    · unfold changedRecords
      simp only []
      rw [changed_zip_map]
      have hne : a ≠ b := fun h => hab (congrArg (fun p => p._id) h)
      refine (List.perm_ext_iff_of_nodup
        (List.Nodup.filter _ (List.Nodup.of_map _ hid)) (by simp [hne])).2 ?_
      intro x
      simp only [List.mem_filter, decide_eq_true_eq, List.mem_cons, List.mem_singleton,
        List.not_mem_nil, or_false]
      constructor
      · rintro ⟨hx, hchg⟩
        by_contra hcon
        rw [not_or] at hcon
        apply hchg
        symm
        apply exchange_of_ne
        · exact fun h => hcon.1 (eq_of_id_eq db hid x a hx ha h)
        · exact fun h => hcon.2 (eq_of_id_eq db hid x b hx hb h)
      · rintro (rfl | rfl)
        · refine ⟨ha, fun h => hord ?_⟩
          have := congrArg (fun p => p.order) h
          simp only [exchange_order_left] at this
          exact this
        · refine ⟨hb, fun h => hord ?_⟩
          have := congrArg (fun p => p.order) h
          simp only [exchange_order_right a x hab] at this
          exact this.symm
    · rw [orderOf_exchange db hid a b a ha, exchange_order_left]
      exact fun h => hord (Option.some.inj h).symm
    · rw [orderOf_exchange db hid a b b hb, exchange_order_right a b hab]
      exact fun h => hord (Option.some.inj h)
  · intro hord
    have hfix : db.problems.map (exchange a b) = db.problems := by
      conv_rhs => rw [← List.map_id db.problems]
      apply List.map_congr_left
      intro x hx
      by_cases h₁ : x._id = a._id
      · have := eq_of_id_eq db hid x a hx ha h₁
        subst this
        simp [exchange, ← hord]
      · by_cases h₂ : x._id = b._id
        · have := eq_of_id_eq db hid x b hx hb h₂
          subst this
          simp [exchange, h₁, hord]
        · simp [exchange_of_ne a b x h₁ h₂]
    rw [hfix]

/-- C12: in the group sorted by `order`, moving the target at index `i + 1` up exchanges
its `order` with that of the element at index `i`, and moving the target at index `i` down
exchanges its `order` with that of the element at index `i + 1`; the neighbour is the
adjacent element of the sorted sequence, whatever its `order` value (with values 1, 5, 9,
moving the last up exchanges 9 and 5). -/
theorem reorder_exchanges_orders (db : Store) (hid : UniqueIds db) (teamId : String)
    (p q : Problem) (i : Nat) (hp : findOneProblem db p._id teamId = some p) :
    ((findSameRating db teamId p.sheet p.rating)[i]? = some q →
      (findSameRating db teamId p.sheet p.rating)[i + 1]? = some p →
      orderOf (reorder db teamId p._id (some "up")).2 p._id = some q.order ∧
      orderOf (reorder db teamId p._id (some "up")).2 q._id = some p.order) ∧
    ((findSameRating db teamId p.sheet p.rating)[i]? = some p →
      (findSameRating db teamId p.sheet p.rating)[i + 1]? = some q →
      orderOf (reorder db teamId p._id (some "down")).2 p._id = some q.order ∧
      orderOf (reorder db teamId p._id (some "down")).2 q._id = some p.order) ∧
    (findSameRating storeGaps "t1" "TLE" "800").map (fun x => (x._id, x.order)) =
      [(1, 1), (2, 5), (3, 9)] ∧
    (findSameRating (reorder storeGaps "t1" 3 (some "up")).2 "t1" "TLE" "800").map
      (fun x => (x._id, x.order)) = [(1, 1), (3, 5), (2, 9)] := by
  refine ⟨?_, ?_, by decide, by decide⟩
  · intro hq hpi
    obtain ⟨hab, hup, -⟩ := reorder_of_adjacent db hid teamId p q p i hp hq hpi
    have hqm := (mem_of_getElem?_group db teamId p.sheet p.rating i q hq).1
    have hpm := (findOneProblem_some db p._id teamId p hp).1
    rw [hup rfl]
    refine ⟨?_, ?_⟩
    · rw [orderOf_exchange db hid q p p hpm, exchange_order_right q p hab]
    · rw [orderOf_exchange db hid q p q hqm, exchange_order_left]
  · intro hpi hq
    obtain ⟨hab, -, hdown⟩ := reorder_of_adjacent db hid teamId p p q i hp hpi hq
    have hqm := (mem_of_getElem?_group db teamId p.sheet p.rating (i + 1) q hq).1
    have hpm := (findOneProblem_some db p._id teamId p hp).1
    rw [hdown rfl]
    refine ⟨?_, ?_⟩
    · rw [orderOf_exchange db hid p q p hpm, exchange_order_left]
    · rw [orderOf_exchange db hid p q q hqm, exchange_order_right p q hab]

/-- Witness for C12: in `storeP4`, P2 is at index 1 and P1 at index 0; after moving P2 up,
P2 carries 1 and P1 carries 2. -/
theorem reorder_exchanges_orders_witness :
    orderOf (reorder storeP4 "t1" 2 (some "up")).2 2 = some 1 ∧
    orderOf (reorder storeP4 "t1" 2 (some "up")).2 1 = some 2 :=
  (reorder_exchanges_orders storeP4 (by decide) "t1" (tleProblem 2 "P2" 2)
    (tleProblem 1 "P1" 1) 0 (by decide)).1 (by decide) (by decide)

/-- C13: moving the first problem of a group up, or the last one down, reports success and
leaves the store as it was; repeated any number of times, every repetition reports success
on the unchanged store. -/
theorem reorder_boundary_noop (db : Store) (hid : UniqueIds db) (teamId : String)
    (p : Problem) (hp : findOneProblem db p._id teamId = some p) :
    ((findSameRating db teamId p.sheet p.rating)[0]? = some p →
      reorder db teamId p._id (some "up") = (Response.json true, db) ∧
      ∀ n : Nat,
        reorder ((fun s => (reorder s teamId p._id (some "up")).2)^[n] db) teamId p._id
          (some "up") = (Response.json true, db)) ∧
    ((findSameRating db teamId p.sheet p.rating)[
        (findSameRating db teamId p.sheet p.rating).length - 1]? = some p →
      reorder db teamId p._id (some "down") = (Response.json true, db) ∧
      ∀ n : Nat,
        reorder ((fun s => (reorder s teamId p._id (some "down")).2)^[n] db) teamId p._id
          (some "down") = (Response.json true, db)) := by
  constructor
  · intro h₀
    have h := reorder_first_up db teamId p hp h₀
    refine ⟨h, fun n => ?_⟩
    rw [Function.iterate_fixed (by rw [h]) n, h]
  · intro hlast
    have h := reorder_last_down db hid teamId p hp hlast
    refine ⟨h, fun n => ?_⟩
    rw [Function.iterate_fixed (by rw [h]) n, h]

/-- Witness for C13: in `storeP4`, moving P1 (first) up and moving P4 (last) down leave
the store unchanged. -/
theorem reorder_boundary_noop_witness :
    reorder storeP4 "t1" 1 (some "up") = (Response.json true, storeP4) ∧
    reorder storeP4 "t1" 4 (some "down") = (Response.json true, storeP4) :=
  ⟨((reorder_boundary_noop storeP4 (by decide) "t1" (tleProblem 1 "P1" 1) (by decide)).1
      (by decide)).1,
   ((reorder_boundary_noop storeP4 (by decide) "t1" (tleProblem 4 "P4" 4) (by decide)).2
      (by decide)).1⟩

/-- C14, as stated, fails: in `storeTiedOrder` both problems of the group carry `order` 0;
moving P2, at index 1, up (or P1, at index 0, down) is a successful move that is not at
the boundary, and it changes no record. -/
theorem reorder_tied_changes_nothing :
    UniqueIds storeTiedOrder ∧
    (findSameRating storeTiedOrder "t1" "TLE" "800")[0]? = some (tleProblem 1 "P1" 0) ∧
    (findSameRating storeTiedOrder "t1" "TLE" "800")[1]? = some (tleProblem 2 "P2" 0) ∧
    reorder storeTiedOrder "t1" 2 (some "up") = (Response.json true, storeTiedOrder) ∧
    changedRecords storeTiedOrder (reorder storeTiedOrder "t1" 2 (some "up")).2 = [] ∧
    reorder storeTiedOrder "t1" 1 (some "down") = (Response.json true, storeTiedOrder) ∧
    changedRecords storeTiedOrder (reorder storeTiedOrder "t1" 1 (some "down")).2 = [] := by
  decide

/-- C14, amended: a move that is not at the boundary reports success; when the `order`
values of the target and of its adjacent neighbour differ, the records that change are
exactly these two, and the `order` of each differs from its value before the move; when
the two values are equal, no record changes. -/
theorem reorder_changes_two (db : Store) (hid : UniqueIds db) (teamId : String)
    (p q : Problem) (i : Nat) (hp : findOneProblem db p._id teamId = some p) :
    ((findSameRating db teamId p.sheet p.rating)[i]? = some q →
      (findSameRating db teamId p.sheet p.rating)[i + 1]? = some p →
      (reorder db teamId p._id (some "up")).1 = Response.json true ∧
      (p.order ≠ q.order →
        (changedRecords db (reorder db teamId p._id (some "up")).2).Perm [q, p] ∧
        orderOf (reorder db teamId p._id (some "up")).2 p._id ≠ some p.order ∧
        orderOf (reorder db teamId p._id (some "up")).2 q._id ≠ some q.order) ∧
      (p.order = q.order → (reorder db teamId p._id (some "up")).2 = db)) ∧
    ((findSameRating db teamId p.sheet p.rating)[i]? = some p →
      (findSameRating db teamId p.sheet p.rating)[i + 1]? = some q →
      (reorder db teamId p._id (some "down")).1 = Response.json true ∧
      (p.order ≠ q.order →
        (changedRecords db (reorder db teamId p._id (some "down")).2).Perm [p, q] ∧
        orderOf (reorder db teamId p._id (some "down")).2 p._id ≠ some p.order ∧
        orderOf (reorder db teamId p._id (some "down")).2 q._id ≠ some q.order) ∧
      (p.order = q.order → (reorder db teamId p._id (some "down")).2 = db)) := by
  have hpm := (findOneProblem_some db p._id teamId p hp).1
  constructor
  · intro hq hpi
    obtain ⟨hab, hup, -⟩ := reorder_of_adjacent db hid teamId p q p i hp hq hpi
    have hqm := (mem_of_getElem?_group db teamId p.sheet p.rating i q hq).1
    obtain ⟨h₁, h₂⟩ := exchange_effect db hid q p hqm hpm hab
    rw [hup rfl]
    refine ⟨rfl, ?_, ?_⟩
    · intro hord
      obtain ⟨hc, hoq, hop⟩ := h₁ (Ne.symm hord)
      exact ⟨hc, hop, hoq⟩
    · intro hord
      exact h₂ hord.symm
  · intro hpi hq
    obtain ⟨hab, -, hdown⟩ := reorder_of_adjacent db hid teamId p p q i hp hpi hq
    have hqm := (mem_of_getElem?_group db teamId p.sheet p.rating (i + 1) q hq).1
    obtain ⟨h₁, h₂⟩ := exchange_effect db hid p q hpm hqm hab
    rw [hdown rfl]
    exact ⟨rfl, h₁, h₂⟩

/-- Witness for the amended C14: in `storeP4`, moving P3 (index 2, `order` 3) down changes
exactly P3 and P4. -/
theorem reorder_changes_two_witness :
    (changedRecords storeP4 (reorder storeP4 "t1" 3 (some "down")).2).Perm
      [tleProblem 3 "P3" 3, tleProblem 4 "P4" 4] ∧
    orderOf (reorder storeP4 "t1" 3 (some "down")).2 3 ≠ some 3 ∧
    orderOf (reorder storeP4 "t1" 3 (some "down")).2 4 ≠ some 4 :=
  ((reorder_changes_two storeP4 (by decide) "t1" (tleProblem 3 "P3" 3)
    (tleProblem 4 "P4" 4) 2 (by decide)).2 (by decide) (by decide)).2.1 (by decide)

/-- C15: a reorder request leaves teams and progress records alone and keeps every stored
problem in place with all its fields other than `order`; a problem whose `order` changes
is the target or the element next to it in the sorted group of the target (the one
before for up, the one after for down), so problems of another team, sheet or rating and
the other members of the group are unchanged. -/
theorem reorder_frame (db : Store) (hid : UniqueIds db) (teamId : String) (id : Nat)
    (direction : Option String) :
    (reorder db teamId id direction).2.teams = db.teams ∧
    (reorder db teamId id direction).2.progress = db.progress ∧
    (reorder db teamId id direction).2.problems.length = db.problems.length ∧
    ∀ (k : Nat) (x y : Problem), db.problems[k]? = some x →
      (reorder db teamId id direction).2.problems[k]? = some y →
      y = { x with order := y.order } ∧
      (y ≠ x → ∃ p i j, findOneProblem db id teamId = some p ∧
        (findSameRating db teamId p.sheet p.rating)[i]? = some p ∧
        (findSameRating db teamId p.sheet p.rating)[j]? = some x ∧
        (j = i ∨ (direction = some "up" ∧ j + 1 = i) ∨
          (direction = some "down" ∧ j = i + 1))) ∧
      (∀ p, findOneProblem db id teamId = some p →
        (x.teamId ≠ teamId ∨ x.sheet ≠ p.sheet ∨ x.rating ≠ p.rating) → y = x) := by
  have hsame : ∀ (k : Nat) (x y : Problem), db.problems[k]? = some x →
      db.problems[k]? = some y →
      y = { x with order := y.order } ∧
      (y ≠ x → ∃ p i j, findOneProblem db id teamId = some p ∧
        (findSameRating db teamId p.sheet p.rating)[i]? = some p ∧
        (findSameRating db teamId p.sheet p.rating)[j]? = some x ∧
        (j = i ∨ (direction = some "up" ∧ j + 1 = i) ∨
          (direction = some "down" ∧ j = i + 1))) ∧
      (∀ p, findOneProblem db id teamId = some p →
        (x.teamId ≠ teamId ∨ x.sheet ≠ p.sheet ∨ x.rating ≠ p.rating) → y = x) := by
    intro k x y hx hy
    have : y = x := Option.some.inj (hy.symm.trans hx)
    subst this
    exact ⟨rfl, fun h => absurd rfl h, fun _ _ _ => rfl⟩
  rcases reorder_cases db hid teamId id direction with
    ⟨-, h⟩ | ⟨p, hp, h | ⟨a, b, i, ha, hb, hdir, h⟩⟩
  · rw [h]
    exact ⟨rfl, rfl, rfl, hsame⟩
  · rw [h]
    exact ⟨rfl, rfl, rfl, hsame⟩
  · rw [h]
    refine ⟨rfl, rfl, by simp, ?_⟩
    intro k x y hx hy
    simp only [List.getElem?_map, hx, Option.map_some', Option.some.injEq] at hy
    subst hy
    have hxm : x ∈ db.problems := List.mem_iff_getElem?.2 ⟨k, hx⟩
    have ha' := mem_of_getElem?_group db teamId p.sheet p.rating i a ha
    have hb' := mem_of_getElem?_group db teamId p.sheet p.rating (i + 1) b hb
    have hchanged : exchange a b x ≠ x → x = a ∨ x = b := by
      intro hne
      by_contra hcon
      rw [not_or] at hcon
      apply hne
      apply exchange_of_ne
      · exact fun h' => hcon.1 (eq_of_id_eq db hid x a hxm ha'.1 h')
      · exact fun h' => hcon.2 (eq_of_id_eq db hid x b hxm hb'.1 h')
    refine ⟨exchange_fields a b x, ?_, ?_⟩
    · intro hne
      rcases hdir with ⟨hd, rfl⟩ | ⟨hd, rfl⟩
      · rcases hchanged hne with rfl | rfl
        · exact ⟨b, i + 1, i, hp, hb, ha, Or.inr (Or.inl ⟨hd, rfl⟩)⟩
        · exact ⟨x, i + 1, i + 1, hp, hb, hb, Or.inl rfl⟩
      · rcases hchanged hne with rfl | rfl
        · exact ⟨x, i, i, hp, ha, ha, Or.inl rfl⟩
        · exact ⟨a, i, i + 1, hp, ha, hb, Or.inr (Or.inr ⟨hd, rfl⟩)⟩
    · intro p' hp' hother
      have hpp : p' = p := Option.some.inj (hp'.symm.trans hp)
      subst hpp
      by_contra hne
      rcases hchanged hne with rfl | rfl
      · rcases hother with h₁ | h₁ | h₁
        · exact h₁ ha'.2.1
        · exact h₁ ha'.2.2.1
        · exact h₁ ha'.2.2.2
      · rcases hother with h₁ | h₁ | h₁
        · exact h₁ hb'.2.1
        · exact h₁ hb'.2.2.1
        · exact h₁ hb'.2.2.2

/-- Witness for C15: in `storeP4`, after P2 is moved up, the problem of team t2 (at
position 4) and P3 (at position 2) are as before, and P1 (at position 0) differs in
`order` only. -/
theorem reorder_frame_witness :
    (reorder storeP4 "t1" 2 (some "up")).2.problems[4]? =
      some ⟨9, "t2", "Q", "link", "800", "TLE", "TLE", 1, "system"⟩ ∧
    (reorder storeP4 "t1" 2 (some "up")).2.problems[2]? = some (tleProblem 3 "P3" 3) ∧
    tleProblem 1 "P1" 2 = { tleProblem 1 "P1" 1 with order := (tleProblem 1 "P1" 2).order } :=
  ⟨by decide, by decide,
    ((reorder_frame storeP4 (by decide) "t1" 2 (some "up")).2.2.2 0 (tleProblem 1 "P1" 1)
      (tleProblem 1 "P1" 2) (by decide) (by decide)).1⟩

/-- C16: when the `order` values of the group are pairwise distinct, after a move up of
the target at sorted index `i + 1` (or a move down of the target at index `i`) the group
sorted by `order` is the former sequence with the problems at positions `i` and `i + 1`
exchanged and all others in place.  With P1..P4 at 1, 2, 3, 4, moving P2 up gives
P2, P1, P3, P4. -/
theorem reorder_exchanges_positions (db : Store) (hid : UniqueIds db) (teamId : String)
    (p q : Problem) (i : Nat) (hp : findOneProblem db p._id teamId = some p)
    (hdistinct : (groupOrders db teamId p.sheet p.rating).Nodup) :
    ((findSameRating db teamId p.sheet p.rating)[i]? = some q →
      (findSameRating db teamId p.sheet p.rating)[i + 1]? = some p →
      findSameRating (reorder db teamId p._id (some "up")).2 teamId p.sheet p.rating =
        (findSameRating db teamId p.sheet p.rating).take i ++
          { p with order := q.order } :: { q with order := p.order } ::
            (findSameRating db teamId p.sheet p.rating).drop (i + 2)) ∧
    ((findSameRating db teamId p.sheet p.rating)[i]? = some p →
      (findSameRating db teamId p.sheet p.rating)[i + 1]? = some q →
      findSameRating (reorder db teamId p._id (some "down")).2 teamId p.sheet p.rating =
        (findSameRating db teamId p.sheet p.rating).take i ++
          { q with order := p.order } :: { p with order := q.order } ::
            (findSameRating db teamId p.sheet p.rating).drop (i + 2)) ∧
    (findSameRating storeP4 "t1" "TLE" "800").map (fun x => x.name) =
      ["P1", "P2", "P3", "P4"] ∧
    (findSameRating (reorder storeP4 "t1" 2 (some "up")).2 "t1" "TLE" "800").map
      (fun x => x.name) = ["P2", "P1", "P3", "P4"] := by
  refine ⟨?_, ?_, by decide, by decide⟩
  · intro hq hpi
    obtain ⟨-, hup, -⟩ := reorder_of_adjacent db hid teamId p q p i hp hq hpi
    rw [hup rfl]
    exact findSameRating_after_exchange db hid teamId p.sheet p.rating q p i hdistinct hq hpi
  · intro hpi hq
    obtain ⟨-, -, hdown⟩ := reorder_of_adjacent db hid teamId p p q i hp hpi hq
    rw [hdown rfl]
    exact findSameRating_after_exchange db hid teamId p.sheet p.rating p q i hdistinct hpi hq

/-- Witness for C16: in `storeP4`, moving P3 (index 2) up puts P3 at index 1 and P2 at
index 2. -/
theorem reorder_exchanges_positions_witness :
    findSameRating (reorder storeP4 "t1" 3 (some "up")).2 "t1" "TLE" "800" =
      (findSameRating storeP4 "t1" "TLE" "800").take 1 ++
        { tleProblem 3 "P3" 3 with order := (tleProblem 2 "P2" 2).order } ::
        { tleProblem 2 "P2" 2 with order := (tleProblem 3 "P3" 3).order } ::
          (findSameRating storeP4 "t1" "TLE" "800").drop (1 + 2) :=
  (reorder_exchanges_positions storeP4 (by decide) "t1" (tleProblem 3 "P3" 3)
    (tleProblem 2 "P2" 2) 1 (by decide) (by decide)).1 (by decide) (by decide)

/-- C17, as stated, fails: in `storeP4`, after P2 is moved up the sequence is
P2, P1, P3, P4 with P1 at index 1; moving P1 up then exchanges the `order` values of P1
and P2, so it changes the store. -/
theorem move_P1_up_changes_orders :
    (findSameRating (reorder storeP4 "t1" 2 (some "up")).2 "t1" "TLE" "800").map
      (fun x => (x.name, x.order)) = [("P2", 1), ("P1", 2), ("P3", 3), ("P4", 4)] ∧
    orderOf (reorder (reorder storeP4 "t1" 2 (some "up")).2 "t1" 1 (some "up")).2 1 = some 1 ∧
    orderOf (reorder (reorder storeP4 "t1" 2 (some "up")).2 "t1" 1 (some "up")).2 2 = some 2 ∧
    (reorder (reorder storeP4 "t1" 2 (some "up")).2 "t1" 1 (some "up")).2 ≠
      (reorder storeP4 "t1" 2 (some "up")).2 := by
  decide

/-- C17, amended: in `storeP4`, after P2 is moved up (sequence P2, P1, P3, P4), moving P2
up again is a no-op, because P2 is first; moving P1 up is a successful move that
exchanges P1 and P2 back and restores the original store. -/
theorem move_P2_up_again_noop :
    reorder (reorder storeP4 "t1" 2 (some "up")).2 "t1" 2 (some "up") =
      (Response.json true, (reorder storeP4 "t1" 2 (some "up")).2) ∧
    reorder (reorder storeP4 "t1" 2 (some "up")).2 "t1" 1 (some "up") =
      (Response.json true, storeP4) := by
  decide

/-- C18, as stated, fails: no store with distinct identifiers, no group with pairwise
distinct `order` values and no finite sequence of moves executed one after the other
lead to a duplicate `order` value in the group. -/
theorem no_duplicates_from_moves :
    ¬ ∃ (db : Store) (moves : List Move) (teamId sheet rating : String),
      UniqueIds db ∧ (groupOrders db teamId sheet rating).Nodup ∧
        ¬ (groupOrders (applyMoves db moves) teamId sheet rating).Nodup := by
  rintro ⟨db, moves, teamId, sheet, rating, hid, hdistinct, hdup⟩
  exact hdup (((applyMoves_invariant db hid moves teamId sheet rating).2.nodup_iff).2 hdistinct)

/-- C18, amended: moves executed one after the other permute the `order` values of every
group, so a group whose `order` values are pairwise distinct keeps pairwise distinct
`order` values after any finite sequence of moves. -/
theorem moves_keep_orders_distinct (db : Store) (hid : UniqueIds db) (moves : List Move)
    (teamId sheet rating : String) :
    (groupOrders (applyMoves db moves) teamId sheet rating).Perm
      (groupOrders db teamId sheet rating) ∧
    ((groupOrders db teamId sheet rating).Nodup →
      (groupOrders (applyMoves db moves) teamId sheet rating).Nodup) := by
  have h := (applyMoves_invariant db hid moves teamId sheet rating).2
  exact ⟨h, fun hdistinct => (h.nodup_iff).2 hdistinct⟩

/-- Witness for the amended C18: in `storeP4`, after P4 is moved up three times and P1
down once, the `order` values of the group are 3, 2, 4, 1: still pairwise distinct. -/
theorem moves_keep_orders_distinct_witness :
    groupOrders (applyMoves storeP4
      [⟨"t1", 4, some "up"⟩, ⟨"t1", 4, some "up"⟩, ⟨"t1", 4, some "up"⟩,
       ⟨"t1", 1, some "down"⟩]) "t1" "TLE" "800" = [3, 2, 4, 1] ∧
    (groupOrders (applyMoves storeP4
      [⟨"t1", 4, some "up"⟩, ⟨"t1", 4, some "up"⟩, ⟨"t1", 4, some "up"⟩,
       ⟨"t1", 1, some "down"⟩]) "t1" "TLE" "800").Nodup :=
  ⟨by decide,
    (moves_keep_orders_distinct storeP4 (by decide)
      [⟨"t1", 4, some "up"⟩, ⟨"t1", 4, some "up"⟩, ⟨"t1", 4, some "up"⟩,
       ⟨"t1", 1, some "down"⟩] "t1" "TLE" "800").2 (by decide)⟩

theorem findOneProblem_eq_none_iff (db : Store) (id : Nat) (teamId : String) :
    findOneProblem db id teamId = none ↔
      ¬ ∃ p ∈ db.problems, p._id = id ∧ p.teamId = teamId := by
  unfold findOneProblem
  rw [List.find?_eq_none]
  simp

/-- For a request whose id is the identifier `id`: the reorder handler answers not-found
exactly when no stored problem has the given identifier within the caller's team (a problem
with that identifier in another team does not count), and then the store is unchanged; in
every other case it answers success. -/
theorem reorder_notFound_iff (db : Store) (teamId : String) (id : Nat)
    (direction : Option String) :
    ((reorder db teamId id direction).1 = Response.error 404 "Problem not found" ↔
      ¬ ∃ p ∈ db.problems, p._id = id ∧ p.teamId = teamId) ∧
    ((¬ ∃ p ∈ db.problems, p._id = id ∧ p.teamId = teamId) →
      reorder db teamId id direction = (Response.error 404 "Problem not found", db)) ∧
    ((∃ p ∈ db.problems, p._id = id ∧ p.teamId = teamId) →
      (reorder db teamId id direction).1 = Response.json true) ∧
    reorder storeP4 "t1" 9 (some "up") = (Response.error 404 "Problem not found", storeP4) ∧
    (reorder storeP4 "t2" 9 (some "up")).1 = Response.json true := by
  have hnone : (¬ ∃ p ∈ db.problems, p._id = id ∧ p.teamId = teamId) →
      reorder db teamId id direction = (Response.error 404 "Problem not found", db) := by
    intro h
    have := (findOneProblem_eq_none_iff db id teamId).2 h
    unfold reorder
    rw [this]
  have hsome : (∃ p ∈ db.problems, p._id = id ∧ p.teamId = teamId) →
      (reorder db teamId id direction).1 = Response.json true := by
    intro h
    cases hp : findOneProblem db id teamId with
    | none => exact absurd h ((findOneProblem_eq_none_iff db id teamId).1 hp)
    | some p => exact reorder_fst_of_found db teamId id p direction hp
  refine ⟨⟨?_, ?_⟩, hnone, hsome, by decide, by decide⟩
  · intro h hex
    rw [hsome hex] at h
    exact absurd h (by simp)
  · intro h
    rw [hnone h]

/-- Example: in `storeP4`, identifier 7 is not stored, so the request is answered
not-found and the store is unchanged; identifier 3 is stored in team t1, so a request with
an unknown direction is answered with success. -/
theorem reorder_notFound_iff_witness :
    reorder storeP4 "t1" 7 (some "down") =
      (Response.error 404 "Problem not found", storeP4) ∧
    (reorder storeP4 "t1" 3 (some "sideways")).1 = Response.json true :=
  ⟨(reorder_notFound_iff storeP4 "t1" 7 (some "down")).2.1 (by decide),
   (reorder_notFound_iff storeP4 "t1" 3 (some "sideways")).2.2.1 (by decide)⟩

/-- C20: the leaderboard handler answers not-found exactly when no team with the caller's
team identifier is stored; for every stored team, whatever its members, their progress
records and the problems those refer to, it answers with a leaderboard that has one entry
per member. -/
theorem getLeaderboard_notFound_iff (db : Store) (teamId : String) :
    (getLeaderboard db teamId = Response.error 404 "Team not found" ↔
      ¬ ∃ t ∈ db.teams, t.teamId = teamId) ∧
    ((∃ t ∈ db.teams, t.teamId = teamId) →
      ∃ team body, db.teams.find? (fun t => t.teamId = teamId) = some team ∧
        getLeaderboard db teamId = Response.json body ∧
        body.length = team.members.length) ∧
    getLeaderboard storeDangling "t1" = Response.json [⟨"A", 2, 10⟩] ∧
    getLeaderboard storeTie "t1" = Response.json [⟨"B", 0, 0⟩, ⟨"A", 0, 0⟩] ∧
    getLeaderboard storeTie "t2" = Response.error 404 "Team not found" := by
  have hnone : db.teams.find? (fun t => decide (t.teamId = teamId)) = none ↔
      ¬ ∃ t ∈ db.teams, t.teamId = teamId := by
    rw [List.find?_eq_none]
    simp
  refine ⟨⟨?_, ?_⟩, ?_, by decide, by decide, by decide⟩
  · intro h hex
    cases hteam : db.teams.find? (fun t => decide (t.teamId = teamId)) with
    | none => exact hnone.1 hteam hex
    | some team =>
      rw [getLeaderboard_of_team db teamId team hteam] at h
      exact absurd h (by simp)
  · intro h
    unfold getLeaderboard
    rw [hnone.2 h]
  · intro hex
    cases hteam : db.teams.find? (fun t => decide (t.teamId = teamId)) with
    | none => exact absurd hex (hnone.1 hteam)
    | some team =>
      refine ⟨team, _, rfl, getLeaderboard_of_team db teamId team hteam, ?_⟩
      simp [arraySort, unsortedLeaderboard, List.length_insertionSort]

/-- Witness for C20: team t1 of `storeDangling` is stored; its member has a solved record
for a missing problem, and the handler answers with a leaderboard of one entry. -/
theorem getLeaderboard_notFound_iff_witness :
    ∃ team body, storeDangling.teams.find? (fun t => t.teamId = "t1") = some team ∧
      getLeaderboard storeDangling "t1" = Response.json body ∧
      body.length = team.members.length :=
  (getLeaderboard_notFound_iff storeDangling "t1").2.1 (by decide)

/-! ## Theorems: leaderboard entries, unknown directions, order multisets -/

/-- C23: when the team resolves, the leaderboard has exactly one entry per member: its
usernames are a permutation of the usernames of the member list, and a member without
solved records appears with solvedCount 0 and weightedScore 0. -/
theorem leaderboard_entry_per_member (db : Store) (teamId : String) (team : Team)
    (hteam : db.teams.find? (fun t => t.teamId = teamId) = some team) :
    ∃ body, getLeaderboard db teamId = Response.json body ∧
      (body.map (fun e => e.username)).Perm (team.members.map (fun m => m.username)) ∧
      body.length = team.members.length ∧
      ∀ m ∈ team.members, findSolved db teamId m.username = [] →
        (⟨m.username, 0, 0⟩ : Entry) ∈ body := by
  refine ⟨_, getLeaderboard_of_team db teamId team hteam, ?_, ?_, ?_⟩
  · have h₁ : ((arraySort compareEntries (unsortedLeaderboard db teamId team)).map
        (fun e => e.username)).Perm ((unsortedLeaderboard db teamId team).map
          (fun e => e.username)) := (List.perm_insertionSort _ _).map _
    have h₂ : (unsortedLeaderboard db teamId team).map (fun e => e.username) =
        team.members.map (fun m => m.username) := by
      simp [unsortedLeaderboard, memberEntry, List.map_map, Function.comp]
    rw [h₂] at h₁
    exact h₁
  · simp [arraySort, unsortedLeaderboard, List.length_insertionSort]
  · intro m hm hnone
    have hmem := memberEntry_mem_body db teamId team m hm
    have he : memberEntry db teamId m = ⟨m.username, 0, 0⟩ := by
      simp [memberEntry, hnone, weightedScoreOf]
    rw [he] at hmem
    exact hmem

/-- Witness for C23: in `storeRename`, U has two solved records and W none; the
leaderboard lists both, W with 0 and 0. -/
theorem leaderboard_entry_per_member_witness :
    getLeaderboard storeRename "t1" = Response.json [⟨"U", 2, 27⟩, ⟨"W", 0, 0⟩] ∧
    ∃ body, getLeaderboard storeRename "t1" = Response.json body ∧
      (body.map (fun e => e.username)).Perm
        ([(⟨"U", "h1"⟩ : Member), ⟨"W", "h2"⟩].map (fun m => m.username)) ∧
      body.length = [(⟨"U", "h1"⟩ : Member), ⟨"W", "h2"⟩].length ∧
      ∀ m ∈ [(⟨"U", "h1"⟩ : Member), ⟨"W", "h2"⟩],
        findSolved storeRename "t1" m.username = [] → (⟨m.username, 0, 0⟩ : Entry) ∈ body :=
  ⟨by decide,
    leaderboard_entry_per_member storeRename "t1"
      { teamId := "t1", teamName := "Team t1", members := [⟨"U", "h1"⟩, ⟨"W", "h2"⟩] }
      (by decide)⟩

/-- C24: a reorder request whose direction is neither `up` nor `down`, or is missing,
leaves the store unchanged, and it reports success whenever the target exists in the
caller's team. -/
theorem reorder_unknown_direction (db : Store) (teamId : String) (id : Nat)
    (direction : Option String) (hup : direction ≠ some "up")
    (hdown : direction ≠ some "down") :
    (reorder db teamId id direction).2 = db ∧
    (∀ p, findOneProblem db id teamId = some p →
      reorder db teamId id direction = (Response.json true, db)) ∧
    ((∃ p ∈ db.problems, p._id = id ∧ p.teamId = teamId) →
      reorder db teamId id direction = (Response.json true, db)) := by
  have hfound : ∀ p, findOneProblem db id teamId = some p →
      reorder db teamId id direction = (Response.json true, db) :=
    fun p hp => reorder_other db teamId id p direction hp hup hdown
  refine ⟨?_, hfound, ?_⟩
  · cases hp : findOneProblem db id teamId with
    | none =>
      unfold reorder
      rw [hp]
    | some p => rw [hfound p hp]
  · intro hex
    cases hp : findOneProblem db id teamId with
    | none => exact absurd hex ((findOneProblem_eq_none_iff db id teamId).1 hp)
    | some p => exact hfound p hp

/-- Witness for C24: in `storeP4`, a request for P2 without direction and one with
direction `left` succeed and leave the store unchanged. -/
theorem reorder_unknown_direction_witness :
    reorder storeP4 "t1" 2 none = (Response.json true, storeP4) ∧
    reorder storeP4 "t1" 2 (some "left") = (Response.json true, storeP4) :=
  ⟨(reorder_unknown_direction storeP4 "t1" 2 none (by decide) (by decide)).2.1
      (tleProblem 2 "P2" 2) (by decide),
   (reorder_unknown_direction storeP4 "t1" 2 (some "left") (by decide) (by decide)).2.1
      (tleProblem 2 "P2" 2) (by decide)⟩

/-- C26: every reorder request, whatever its target and direction and whether or not
`order` values are tied, preserves the multiset of `order` values of every group; hence
after any finite sequence of moves executed one after the other the multiset is the same
and pairwise distinct values are still pairwise distinct. -/
theorem reorder_preserves_order_multiset (db : Store) (hid : UniqueIds db)
    (teamId sheet rating : String) :
    (∀ (teamId' : String) (id : Nat) (direction : Option String),
      ((groupOrders (reorder db teamId' id direction).2 teamId sheet rating : List Int) :
        Multiset Int) = (groupOrders db teamId sheet rating : List Int)) ∧
    (∀ moves : List Move,
      ((groupOrders (applyMoves db moves) teamId sheet rating : List Int) : Multiset Int) =
        (groupOrders db teamId sheet rating : List Int) ∧
      ((groupOrders db teamId sheet rating).Nodup →
        (groupOrders (applyMoves db moves) teamId sheet rating).Nodup)) := by
  constructor
  · intro teamId' id direction
    exact Multiset.coe_eq_coe.2
      (reorder_groupOrders_perm db hid teamId' id direction teamId sheet rating)
  · intro moves
    have h := (applyMoves_invariant db hid moves teamId sheet rating).2
    exact ⟨Multiset.coe_eq_coe.2 h, fun hd => (h.nodup_iff).2 hd⟩

/-- Witness for C26: in `storeTiedOrder` and in `storeP4` a sequence of moves leaves the
`order` values of the group, as a multiset, as they were. -/
theorem reorder_preserves_order_multiset_witness :
    ((groupOrders (applyMoves storeTiedOrder [⟨"t1", 2, some "up"⟩, ⟨"t1", 1, some "down"⟩])
        "t1" "TLE" "800" : List Int) : Multiset Int) =
      (groupOrders storeTiedOrder "t1" "TLE" "800" : List Int) ∧
    (groupOrders (applyMoves storeP4 [⟨"t1", 3, some "up"⟩, ⟨"t1", 3, some "up"⟩])
        "t1" "TLE" "800").Nodup :=
  ⟨((reorder_preserves_order_multiset storeTiedOrder (by decide) "t1" "TLE" "800").2
      [⟨"t1", 2, some "up"⟩, ⟨"t1", 1, some "down"⟩]).1,
   ((reorder_preserves_order_multiset storeP4 (by decide) "t1" "TLE" "800").2
      [⟨"t1", 3, some "up"⟩, ⟨"t1", 3, some "up"⟩]).2 (by decide)⟩

/-! ## Theorems: a solve today -/

theorem streak_after_solve_today (offset now : Int) (ts ts' : List Int)
    (hlatest : IsLatestDay offset ts (localDay offset now - 1))
    (hdays : ∀ d, solvedOn offset ts' d ↔ solvedOn offset ts d ∨ d = localDay offset now) :
    streak offset now ts' = streak offset now ts + 1 := by
  obtain ⟨r, hr, hrun, hstop⟩ :=
    streak_run offset now ts (localDay offset now - 1) hlatest (Or.inr rfl)
  have hlatest' : IsLatestDay offset ts' (localDay offset now) := by
    refine ⟨(hdays _).2 (Or.inr rfl), ?_⟩
    intro u hu
    rcases (hdays (localDay offset u)).1 ⟨u, hu, rfl⟩ with ⟨v, hv, hvu⟩ | h
    · have := hlatest.2 v hv
      omega
    · omega
  rw [hr]
  have e : 1 + r + 1 = ((2 + r : Nat)) := by omega
  rw [e]
  apply streak_unique offset now ts' (localDay offset now) (2 + r) hlatest' (Or.inl rfl)
  · intro j hj
    rcases Nat.eq_zero_or_pos j with rfl | hpos
    · simpa using (hdays _).2 (Or.inr rfl)
    · have h := hrun (j - 1) (by omega)
      have e' : localDay offset now - 1 - ((j - 1 : Nat) : Int) =
          localDay offset now - (j : Int) := by omega
      rw [e'] at h
      exact (hdays _).2 (Or.inl h)
  · intro h
    rcases (hdays _).1 h with h₁ | h₁
    · have e' : localDay offset now - ((2 + r : Nat) : Int) =
          localDay offset now - 1 - ((1 + r : Nat) : Int) := by omega
      rw [e'] at h₁
      exact hstop h₁
    · omega

theorem solvedOn_cons (offset : Int) (t : Int) (ts : List Int) (d : Int) :
    solvedOn offset (t :: ts) d ↔ solvedOn offset ts d ∨ d = localDay offset t := by
  unfold solvedOn
  simp only [List.mem_cons, exists_eq_or_imp]
  constructor
  · rintro (h | h)
    · exact Or.inr h.symm
    · exact Or.inl h
  · rintro (h | h)
    · exact Or.inr h
    · exact Or.inl h.symm

theorem isLatestDay_unique (offset : Int) (ts : List Int) (a b : Int)
    (ha : IsLatestDay offset ts a) (hb : IsLatestDay offset ts b) : a = b := by
  obtain ⟨⟨t, ht, rfl⟩, ha₂⟩ := ha
  obtain ⟨⟨u, hu, rfl⟩, hb₂⟩ := hb
  have h₁ := ha₂ u hu
  have h₂ := hb₂ t ht
  omega

/-- On a host with a fixed UTC offset, when the most recent solved local calendar day is
yesterday, the streak is some `k ≥ 1`, and after one more solved record dated today,
wherever it is added, the streak is `k + 1`; for every list of solved records, one more
record dated today never lowers the streak. -/
theorem streak_solve_today (offset now : Int) (ts : List Int) :
    (IsLatestDay offset ts (localDay offset now - 1) →
      1 ≤ streak offset now ts ∧
      (∀ t : Int, localDay offset t = localDay offset now →
        streak offset now (t :: ts) = streak offset now ts + 1 ∧
        streak offset now (ts ++ [t]) = streak offset now ts + 1) ∧
      (∀ ts' : List Int,
        (∀ d, solvedOn offset ts' d ↔ solvedOn offset ts d ∨ d = localDay offset now) →
        streak offset now ts' = streak offset now ts + 1)) ∧
    (∀ t : Int, localDay offset t = localDay offset now →
      streak offset now ts ≤ streak offset now (t :: ts)) := by
  constructor
  · intro hlatest
    refine ⟨?_, ?_, fun ts' h => streak_after_solve_today offset now ts ts' hlatest h⟩
    · obtain ⟨r, hr, -, -⟩ :=
        streak_run offset now ts (localDay offset now - 1) hlatest (Or.inr rfl)
      omega
    · intro t ht
      constructor
      · apply streak_after_solve_today offset now ts _ hlatest
        intro d
        rw [solvedOn_cons, ht]
      · apply streak_after_solve_today offset now ts _ hlatest
        intro d
        unfold solvedOn
        simp only [List.mem_append, List.mem_singleton]
        constructor
        · rintro ⟨u, hu | hu, rfl⟩
          · exact Or.inl ⟨u, hu, rfl⟩
          · exact Or.inr (by rw [hu, ht])
        · rintro (⟨u, hu, rfl⟩ | h)
          · exact ⟨u, Or.inl hu, rfl⟩
          · exact ⟨t, Or.inr rfl, by rw [h, ht]⟩
  · intro t ht
    by_cases hts : ts = []
    · subst hts
      rw [streak_nil]
      exact Nat.zero_le _
    · obtain ⟨a, ha⟩ := exists_isLatestDay offset ts hts
      by_cases h₁ : a = localDay offset now
      · have hsame : streak offset now ts = streak offset now (t :: ts) := by
          apply streak_congr
          intro d
          rw [solvedOn_cons, ht]
          constructor
          · exact fun h => Or.inl h
          · rintro (h | h)
            · exact h
            · rw [h, ← h₁]
              exact ha.1
        exact le_of_eq hsame
      · by_cases h₂ : a = localDay offset now - 1
        · have := streak_after_solve_today offset now ts (t :: ts) (h₂ ▸ ha)
            (fun d => by rw [solvedOn_cons, ht])
          omega
        · rw [streak_stale offset now ts a ha h₁ h₂]
          exact Nat.zero_le _

/-- Example at UTC+1: solves yesterday and the day before give streak 2; one more
solve today gives 3. -/
theorem streak_solve_today_witness :
    streak 3600000 (atDay 100 40000000) [atDay 99 40000000, atDay 98 40000000] = 2 ∧
    streak 3600000 (atDay 100 40000000)
      (atDay 100 30000000 :: [atDay 99 40000000, atDay 98 40000000]) =
      streak 3600000 (atDay 100 40000000) [atDay 99 40000000, atDay 98 40000000] + 1 :=
  ⟨by decide,
    (((streak_solve_today 3600000 (atDay 100 40000000)
      [atDay 99 40000000, atDay 98 40000000]).1 (by decide)).2.1
      (atDay 100 30000000) (by decide)).1⟩

/-! ## Theorems: relative time -/

theorem getRelativeTime_labels (now date : Int) (h : 60000 ≤ now - date) :
    ((now - date < 2419200000 ∨ 2592000000 ≤ now - date) →
      ∃ n : Int, 1 ≤ n ∧
        ((n < 60 ∧ getRelativeTime now (some date) = toString n ++ "m ago") ∨
         (n < 24 ∧ getRelativeTime now (some date) = toString n ++ "h ago") ∨
         (n < 7 ∧ getRelativeTime now (some date) = toString n ++ "d ago") ∨
         (n < 4 ∧ getRelativeTime now (some date) = toString n ++ "w ago") ∨
         getRelativeTime now (some date) = toString n ++ "mo ago")) ∧
    (2419200000 ≤ now - date → now - date < 2592000000 →
      getRelativeTime now (some date) = "0mo ago") := by
  have e₁ : ∀ x : Int, Int.fdiv x 1000 = x / 1000 := fun x => Int.fdiv_eq_ediv x (by decide)
  have e₂ : ∀ x : Int, Int.fdiv x 60 = x / 60 := fun x => Int.fdiv_eq_ediv x (by decide)
  have e₃ : ∀ x : Int, Int.fdiv x 24 = x / 24 := fun x => Int.fdiv_eq_ediv x (by decide)
  have e₄ : ∀ x : Int, Int.fdiv x 7 = x / 7 := fun x => Int.fdiv_eq_ediv x (by decide)
  have e₅ : ∀ x : Int, Int.fdiv x 30 = x / 30 := fun x => Int.fdiv_eq_ediv x (by decide)
  simp only [getRelativeTime, e₁, e₂, e₃, e₄, e₅]
  constructor
  · intro hrange
    split_ifs with h₁ h₂ h₃ h₄ h₅
    · omega
    · exact ⟨_, by omega, Or.inl ⟨h₂, rfl⟩⟩
    · exact ⟨_, by omega, Or.inr (Or.inl ⟨h₃, rfl⟩)⟩
    · exact ⟨_, by omega, Or.inr (Or.inr (Or.inl ⟨h₄, rfl⟩))⟩
    · exact ⟨_, by omega, Or.inr (Or.inr (Or.inr (Or.inl ⟨h₅, rfl⟩)))⟩
    · exact ⟨_, by omega, Or.inr (Or.inr (Or.inr (Or.inr rfl)))⟩
  · intro hlo hhi
    have hm : (now - date) / 1000 / 60 / 60 / 24 / 30 = 0 := by omega
    rw [if_neg (by omega), if_neg (by omega), if_neg (by omega), if_neg (by omega),
      if_neg (by omega), hm]
    rfl

/-- C30 fails on the code: for a timestamp exactly 28 days, or 29 days and 23 hours, before
the current time, `getRelativeTime` returns the label `0mo ago`, a zero amount; 27 days
give `3w ago` and 30 days give `1mo ago`. -/
theorem getRelativeTime_zero_months (now : Int) :
    getRelativeTime now (some (now - 2419200000)) = "0mo ago" ∧
    getRelativeTime now (some (now - 2588400000)) = "0mo ago" ∧
    getRelativeTime now (some (now - 2332800000)) = "3w ago" ∧
    getRelativeTime now (some (now - 2592000000)) = "1mo ago" := by
  have e₁ : ∀ x : Int, Int.fdiv x 1000 = x / 1000 := fun x => Int.fdiv_eq_ediv x (by decide)
  have e₂ : ∀ x : Int, Int.fdiv x 60 = x / 60 := fun x => Int.fdiv_eq_ediv x (by decide)
  have e₃ : ∀ x : Int, Int.fdiv x 24 = x / 24 := fun x => Int.fdiv_eq_ediv x (by decide)
  have e₄ : ∀ x : Int, Int.fdiv x 7 = x / 7 := fun x => Int.fdiv_eq_ediv x (by decide)
  have e₅ : ∀ x : Int, Int.fdiv x 30 = x / 30 := fun x => Int.fdiv_eq_ediv x (by decide)
  have h₁ : now - (now - 2419200000) = 2419200000 := by omega
  have h₂ : now - (now - 2588400000) = 2588400000 := by omega
  have h₃ : now - (now - 2332800000) = 2332800000 := by omega
  have h₄ : now - (now - 2592000000) = 2592000000 := by omega
  simp only [getRelativeTime, e₁, e₂, e₃, e₄, e₅, h₁, h₂, h₃, h₄]
  decide

/-! ## Theorems: adding a problem -/

theorem orderedInsert_append_last {α : Type} (r : α → α → Prop) [DecidableRel r] (a n : α)
    (S : List α) (han : r a n) :
    List.orderedInsert r a (S ++ [n]) = List.orderedInsert r a S ++ [n] := by
  induction S with
  | nil => simp [List.orderedInsert, han]
  | cons b S' ih =>
    by_cases hab : r a b
    · simp [List.orderedInsert, hab]
    · simp [List.orderedInsert, hab, ih]

theorem insertionSort_append_last {α : Type} (r : α → α → Prop) [DecidableRel r] (n : α)
    (F : List α) (h : ∀ x ∈ F, r x n) :
    (F ++ [n]).insertionSort r = F.insertionSort r ++ [n] := by
  induction F with
  | nil => simp
  | cons a F' ih =>
    rw [List.cons_append, List.insertionSort, ih (fun x hx => h x (List.mem_cons_of_mem _ hx)),
      orderedInsert_append_last r a n _ (h a (List.mem_cons_self _ _)), List.insertionSort]

theorem findLastProblem_none (db : Store) (teamId sheet rating : String) :
    findLastProblem db teamId sheet rating = none ↔ groupOf db teamId sheet rating = [] := by
  unfold findLastProblem
  rw [List.head?_eq_none_iff]
  constructor
  · intro h
    have := congrArg List.length h
    rw [List.length_insertionSort] at this
    exact List.length_eq_zero.1 this
  · intro h
    rw [h]
    rfl

theorem findLastProblem_some (db : Store) (teamId sheet rating : String) (m : Problem)
    (h : findLastProblem db teamId sheet rating = some m) :
    m ∈ groupOf db teamId sheet rating ∧
      ∀ x ∈ groupOf db teamId sheet rating, x.order ≤ m.order := by
  haveI : IsTotal Problem (fun a b => a.order ≥ b.order) := ⟨fun a b => le_total _ _⟩
  haveI : IsTrans Problem (fun a b => a.order ≥ b.order) :=
    ⟨fun a b c hab hbc => le_trans hbc hab⟩
  unfold findLastProblem at h
  obtain ⟨rest, hS⟩ := List.head?_eq_some_iff.1 h
  have hsorted : ((groupOf db teamId sheet rating).insertionSort
      (fun a b => a.order ≥ b.order)).Sorted (fun a b => a.order ≥ b.order) :=
    List.sorted_insertionSort _ _
  have hperm := List.perm_insertionSort (fun a b : Problem => a.order ≥ b.order)
    (groupOf db teamId sheet rating)
  rw [hS] at hsorted hperm
  refine ⟨hperm.subset (List.mem_cons_self _ _), ?_⟩
  intro x hx
  rcases List.mem_cons.1 (hperm.symm.subset hx) with rfl | hx'
  · exact le_refl _
  · exact List.rel_of_sorted_cons hsorted x hx'

/-- C25: a problem added with name, link and sheet present and a platform of the schema
is stored with rating and platform defaulting to `Custom`; its `order` is 1 when its
(team, sheet, rating) group is empty and the maximum `order` of the group plus 1
otherwise, so it exceeds the `order` of every member and the problem is last in the sorted
group. -/
theorem addProblem_order (db : Store) (teamId username : String)
    (name link rating sheet platform : Option String) (newId : Nat)
    (hname : isFalsy name = false) (hlink : isFalsy link = false)
    (hsheet : isFalsy sheet = false)
    (hplatform : orElse platform "Custom" ∈ platformEnum) :
    ∃ problem : Problem,
      addProblem db teamId username name link rating sheet platform newId =
        (Response.json problem, { db with problems := db.problems ++ [problem] }) ∧
      problem.teamId = teamId ∧ problem.sheet = orElse sheet "" ∧
      problem.rating = orElse rating "Custom" ∧
      (groupOf db teamId problem.sheet problem.rating = [] → problem.order = 1) ∧
      (groupOf db teamId problem.sheet problem.rating ≠ [] →
        ∃ m ∈ groupOf db teamId problem.sheet problem.rating,
          (∀ x ∈ groupOf db teamId problem.sheet problem.rating, x.order ≤ m.order) ∧
          problem.order = m.order + 1) ∧
      (∀ x ∈ groupOf db teamId problem.sheet problem.rating, x.order < problem.order) ∧
      findSameRating { db with problems := db.problems ++ [problem] } teamId problem.sheet
          problem.rating =
        findSameRating db teamId problem.sheet problem.rating ++ [problem] := by
  have hcond : ¬ (isFalsy name = true ∨ isFalsy link = true ∨ isFalsy sheet = true) := by
    simp [hname, hlink, hsheet]
  have hmax : ∀ (o : Int),
      (o = match findLastProblem db teamId (orElse sheet "") (orElse rating "Custom") with
        | some last => last.order + 1
        | none => 1) →
      (groupOf db teamId (orElse sheet "") (orElse rating "Custom") = [] → o = 1) ∧
      (groupOf db teamId (orElse sheet "") (orElse rating "Custom") ≠ [] →
        ∃ m ∈ groupOf db teamId (orElse sheet "") (orElse rating "Custom"),
          (∀ x ∈ groupOf db teamId (orElse sheet "") (orElse rating "Custom"),
            x.order ≤ m.order) ∧ o = m.order + 1) ∧
      (∀ x ∈ groupOf db teamId (orElse sheet "") (orElse rating "Custom"), x.order < o) := by
    intro o ho
    cases hl : findLastProblem db teamId (orElse sheet "") (orElse rating "Custom") with
    | none =>
      rw [hl] at ho
      have hnil := (findLastProblem_none db teamId _ _).1 hl
      refine ⟨fun _ => ho, fun h => absurd hnil h, ?_⟩
      intro x hx
      rw [hnil] at hx
      exact absurd hx (List.not_mem_nil _)
    | some m =>
      rw [hl] at ho
      have ho' : o = m.order + 1 := ho
      obtain ⟨hm, hle⟩ := findLastProblem_some db teamId _ _ m hl
      refine ⟨?_, fun _ => ⟨m, hm, hle, ho'⟩, ?_⟩
      · intro hnil
        rw [hnil] at hm
        exact absurd hm (List.not_mem_nil _)
      · intro x hx
        have := hle x hx
        omega
  unfold addProblem
  rw [if_neg hcond]
  simp only []
  rw [if_pos hplatform]
  refine ⟨_, rfl, rfl, rfl, rfl, ?_⟩
  obtain ⟨h₁, h₂, h₃⟩ := hmax _ rfl
  refine ⟨h₁, h₂, h₃, ?_⟩
  unfold findSameRating
  have hgroup : ∀ y : Problem, y.teamId = teamId → y.sheet = orElse sheet "" →
      y.rating = orElse rating "Custom" →
      groupOf { db with problems := db.problems ++ [y] } teamId (orElse sheet "")
        (orElse rating "Custom") =
      groupOf db teamId (orElse sheet "") (orElse rating "Custom") ++ [y] := by
    intro y hy₁ hy₂ hy₃
    simp [groupOf, List.filter_append, hy₁, hy₂, hy₃]
  rw [hgroup _ rfl rfl rfl]
  exact insertionSort_append_last _ _ _ (fun x hx => le_of_lt (h₃ x hx))

/-- Witness for C25: in `storeP4`, a problem added to the group of P1..P4 gets `order` 5;
one added without rating goes to the empty group `Custom` of its sheet with `order` 1. -/
theorem addProblem_order_witness :
    (addProblem storeP4 "t1" "U" (some "N") (some "l") (some "800") (some "TLE")
      (some "TLE") 77).1 = Response.json ⟨77, "t1", "N", "l", "800", "TLE", "TLE", 5, "U"⟩ ∧
    (addProblem storeP4 "t1" "U" (some "N") (some "l") none (some "TLE")
      none 77).1 = Response.json ⟨77, "t1", "N", "l", "Custom", "Custom", "TLE", 1, "U"⟩ ∧
    ∃ problem : Problem,
      addProblem storeP4 "t1" "U" (some "N") (some "l") (some "800") (some "TLE")
          (some "TLE") 77 =
        (Response.json problem, { storeP4 with problems := storeP4.problems ++ [problem] }) ∧
      problem.teamId = "t1" ∧ problem.sheet = orElse (some "TLE") "" ∧
      problem.rating = orElse (some "800") "Custom" ∧
      (groupOf storeP4 "t1" problem.sheet problem.rating = [] → problem.order = 1) ∧
      (groupOf storeP4 "t1" problem.sheet problem.rating ≠ [] →
        ∃ m ∈ groupOf storeP4 "t1" problem.sheet problem.rating,
          (∀ x ∈ groupOf storeP4 "t1" problem.sheet problem.rating, x.order ≤ m.order) ∧
          problem.order = m.order + 1) ∧
      (∀ x ∈ groupOf storeP4 "t1" problem.sheet problem.rating, x.order < problem.order) ∧
      findSameRating { storeP4 with problems := storeP4.problems ++ [problem] } "t1"
          problem.sheet problem.rating =
        findSameRating storeP4 "t1" problem.sheet problem.rating ++ [problem] :=
  ⟨by decide, by decide,
    addProblem_order storeP4 "t1" "U" (some "N") (some "l") (some "800") (some "TLE")
      (some "TLE") 77 (by decide) (by decide) (by decide) (by decide)⟩

/-! ## Theorems: round trip of a move -/

theorem findOneProblem_exchange (db : Store) (a b : Problem) (id : Nat) (teamId : String) :
    findOneProblem { db with problems := db.problems.map (exchange a b) } id teamId =
      (findOneProblem db id teamId).map (exchange a b) := by
  unfold findOneProblem
  simp only [List.find?_map]
  have : ((fun p : Problem => decide (p._id = id ∧ p.teamId = teamId)) ∘ exchange a b) =
      (fun p : Problem => decide (p._id = id ∧ p.teamId = teamId)) := by
    funext x
    simp [Function.comp, exchange_id, (exchange_group a b x).1]
  rw [this]

theorem exchange_twice (db : Store) (hid : UniqueIds db) (a b : Problem)
    (ha : a ∈ db.problems) (hb : b ∈ db.problems) (hab : a._id ≠ b._id) :
    (db.problems.map (exchange a b)).map
        (exchange { a with order := b.order } { b with order := a.order }) =
      db.problems := by
  rw [List.map_map]
  conv_rhs => rw [← List.map_id db.problems]
  apply List.map_congr_left
  intro x hx
  simp only [Function.comp, id]
  have hba : ¬ b._id = a._id := fun h => hab h.symm
  by_cases h₁ : x._id = a._id
  · have := eq_of_id_eq db hid x a hx ha h₁
    subst this
    simp [exchange]
  · by_cases h₂ : x._id = b._id
    · have := eq_of_id_eq db hid x b hx hb h₂
      subst this
      simp [exchange, hba]
    · simp [exchange, h₁, h₂]

theorem store_with_problems (db : Store) : { db with problems := db.problems } = db := rfl

/-- C27: in a group whose `order` values are pairwise distinct, moving a target that is
not first up and then down, or a target that is not last down and then up, gives back the
store as it was, so every problem has its original `order`. -/
theorem reorder_round_trip (db : Store) (hid : UniqueIds db) (teamId : String)
    (p q : Problem) (i : Nat) (hp : findOneProblem db p._id teamId = some p)
    (hdistinct : (groupOrders db teamId p.sheet p.rating).Nodup) :
    ((findSameRating db teamId p.sheet p.rating)[i]? = some q →
      (findSameRating db teamId p.sheet p.rating)[i + 1]? = some p →
      (reorder (reorder db teamId p._id (some "up")).2 teamId p._id (some "down")).2 = db) ∧
    ((findSameRating db teamId p.sheet p.rating)[i]? = some p →
      (findSameRating db teamId p.sheet p.rating)[i + 1]? = some q →
      (reorder (reorder db teamId p._id (some "down")).2 teamId p._id (some "up")).2 = db) := by
  have hpm := (findOneProblem_some db p._id teamId p hp).1
  constructor
  · intro hq hpi
    obtain ⟨hab, hup, -⟩ := reorder_of_adjacent db hid teamId p q p i hp hq hpi
    have hqm := (mem_of_getElem?_group db teamId p.sheet p.rating i q hq).1
    have hid₁ := uniqueIds_exchange db hid q p
    have hp₁ : findOneProblem { db with problems := db.problems.map (exchange q p) } p._id
        teamId = some { p with order := q.order } := by
      rw [findOneProblem_exchange, hp]
      simp [exchange, Ne.symm hab]
    have hG₁ := findSameRating_after_exchange db hid teamId p.sheet p.rating q p i
      hdistinct hq hpi
    have hlen := length_take_of_getElem? _ i q hq
    have h₁ : (findSameRating { db with problems := db.problems.map (exchange q p) } teamId
        p.sheet p.rating)[i]? = some { p with order := q.order } := by
      rw [hG₁, List.getElem?_append_right (by omega)]
      simp [hlen]
    have h₂ : (findSameRating { db with problems := db.problems.map (exchange q p) } teamId
        p.sheet p.rating)[i + 1]? = some { q with order := p.order } := by
      rw [hG₁, List.getElem?_append_right (by omega)]
      simp [hlen]
    obtain ⟨hab₁, -, hdown⟩ := reorder_of_adjacent
      { db with problems := db.problems.map (exchange q p) } hid₁ teamId
      { p with order := q.order } { p with order := q.order } { q with order := p.order } i
      hp₁ h₁ h₂
    rw [hup rfl]
    have hd := hdown rfl
    simp only [] at hd ⊢
    rw [hd]
    simp only []
    rw [exchange_comm _ _ hab₁, exchange_twice db hid q p hqm hpm hab]
  · intro hpi hq
    obtain ⟨hab, -, hdown⟩ := reorder_of_adjacent db hid teamId p p q i hp hpi hq
    have hqm := (mem_of_getElem?_group db teamId p.sheet p.rating (i + 1) q hq).1
    have hid₁ := uniqueIds_exchange db hid p q
    have hp₁ : findOneProblem { db with problems := db.problems.map (exchange p q) } p._id
        teamId = some { p with order := q.order } := by
      rw [findOneProblem_exchange, hp]
      simp [exchange]
    have hG₁ := findSameRating_after_exchange db hid teamId p.sheet p.rating p q i
      hdistinct hpi hq
    have hlen := length_take_of_getElem? _ i p hpi
    have h₁ : (findSameRating { db with problems := db.problems.map (exchange p q) } teamId
        p.sheet p.rating)[i]? = some { q with order := p.order } := by
      rw [hG₁, List.getElem?_append_right (by omega)]
      simp [hlen]
    have h₂ : (findSameRating { db with problems := db.problems.map (exchange p q) } teamId
        p.sheet p.rating)[i + 1]? = some { p with order := q.order } := by
      rw [hG₁, List.getElem?_append_right (by omega)]
      simp [hlen]
    obtain ⟨hab₁, hup, -⟩ := reorder_of_adjacent
      { db with problems := db.problems.map (exchange p q) } hid₁ teamId
      { p with order := q.order } { q with order := p.order } { p with order := q.order } i
      hp₁ h₁ h₂
    rw [hdown rfl]
    have hu := hup rfl
    simp only [] at hu ⊢
    rw [hu]
    simp only []
    rw [exchange_comm _ _ hab₁, exchange_twice db hid p q hpm hqm hab]

/-- Witness for C27: in `storeP4`, moving P3 up and then down gives back `storeP4`. -/
theorem reorder_round_trip_witness :
    (reorder (reorder storeP4 "t1" 3 (some "up")).2 "t1" 3 (some "down")).2 = storeP4 :=
  (reorder_round_trip storeP4 (by decide) "t1" (tleProblem 3 "P3" 3) (tleProblem 2 "P2" 2) 1
    (by decide) (by decide)).1 (by decide) (by decide)

/-! ## Theorems: progress records -/

theorem map_updateFirst {α β : Type} (sel : α → Bool) (f : α → α) (key : α → β)
    (l : List α) (h : ∀ x ∈ l, sel x = true → key (f x) = key x) :
    (updateFirst sel f l).map key = l.map key := by
  induction l with
  | nil => rfl
  | cons x xs ih =>
    by_cases hx : sel x = true
    · simp [updateFirst, hx, h x (List.mem_cons_self _ _) hx]
    · simp [updateFirst, hx, ih (fun y hy => h y (List.mem_cons_of_mem _ hy))]

theorem find?_updateFirst {α : Type} (sel : α → Bool) (f : α → α) (l : List α)
    (h : ∀ x ∈ l, sel x = true → sel (f x) = true) :
    (updateFirst sel f l).find? sel = (l.find? sel).map f := by
  induction l with
  | nil => rfl
  | cons x xs ih =>
    by_cases hx : sel x = true
    · simp [updateFirst, hx, h x (List.mem_cons_self _ _) hx]
    · simp [updateFirst, hx, ih (fun y hy => h y (List.mem_cons_of_mem _ hy))]

theorem find?_updateFirst_other {α : Type} (sel sel' : α → Bool) (f : α → α) (l : List α)
    (h : ∀ x ∈ l, sel x = true → sel' x = false ∧ sel' (f x) = false) :
    (updateFirst sel f l).find? sel' = l.find? sel' := by
  induction l with
  | nil => rfl
  | cons x xs ih =>
    by_cases hx : sel x = true
    · obtain ⟨h₁, h₂⟩ := h x (List.mem_cons_self _ _) hx
      simp [updateFirst, hx, h₁, h₂]
    · have ih' := ih (fun y hy => h y (List.mem_cons_of_mem _ hy))
      by_cases hx' : sel' x = true
      · simp [updateFirst, hx, hx']
      · simp [updateFirst, hx, hx', ih']

theorem findProgress_some (db : Store) (teamId username : String) (problemId : Nat)
    (r : UserProgress) (h : findProgress db teamId username problemId = some r) :
    r ∈ db.progress ∧ r.teamId = teamId ∧ r.username = username ∧ r.problemId = problemId := by
  unfold findProgress at h
  have h₁ := List.mem_of_find?_eq_some h
  have h₂ := List.find?_some h
  simp only [decide_eq_true_eq] at h₂
  exact ⟨h₁, h₂⟩

theorem findProgress_none (db : Store) (teamId username : String) (problemId : Nat)
    (h : findProgress db teamId username problemId = none) :
    (teamId, username, problemId) ∉ db.progress.map recordTriple := by
  unfold findProgress at h
  rw [List.find?_eq_none] at h
  intro hmem
  obtain ⟨r, hr, heq⟩ := List.mem_map.1 hmem
  simp only [recordTriple, Prod.mk.injEq] at heq
  exact h r hr (by simp [heq])

theorem putStatus_progress (db : Store) (teamId username : String) (problemId : Nat)
    (status : String) (now : Int) :
    (putStatus db teamId username problemId status now).2.teams = db.teams ∧
    (putStatus db teamId username problemId status now).2.problems = db.problems ∧
    ((putStatus db teamId username problemId status now).2.progress = db.progress ∨
      (∃ r saved, findProgress db teamId username problemId = some r ∧
        recordTriple saved = (teamId, username, problemId) ∧
        saved.solvedAt = (if status = "solved" ∧ r.solvedAt = none then some now
          else r.solvedAt) ∧
        (putStatus db teamId username problemId status now).2.progress =
          updateFirst
            (fun p => p.teamId = teamId ∧ p.username = username ∧ p.problemId = problemId)
            (fun _ => saved) db.progress) ∨
      (∃ saved, findProgress db teamId username problemId = none ∧
        recordTriple saved = (teamId, username, problemId) ∧
        saved.solvedAt = (if status = "solved" then some now else none) ∧
        (putStatus db teamId username problemId status now).2.progress =
          db.progress ++ [saved])) := by
  unfold putStatus
  by_cases hv : validStatus status = true
  · rw [if_neg (by simp [hv])]
    cases hp : findOneProblem db problemId teamId with
    | none => exact ⟨rfl, rfl, Or.inl rfl⟩
    | some problem =>
      cases hr : findProgress db teamId username problemId with
      | some r =>
        obtain ⟨-, h₁, h₂, h₃⟩ := findProgress_some db teamId username problemId r hr
        refine ⟨rfl, rfl, Or.inr (Or.inl ⟨r, _, rfl, ?_, ?_, rfl⟩)⟩
        · simp only [preSave, recordTriple]
          split_ifs <;> simp [h₁, h₂, h₃]
        · simp only [preSave]
          split_ifs <;> simp_all
      | none =>
        refine ⟨rfl, rfl, Or.inr (Or.inr ⟨_, rfl, ?_, ?_, rfl⟩)⟩
        · simp only [preSave, recordTriple]
          split_ifs <;> rfl
        · simp only [preSave]
          split_ifs <;> simp_all
  · rw [if_pos (by simp [hv])]
    exact ⟨rfl, rfl, Or.inl rfl⟩

theorem putNotes_progress (db : Store) (teamId username : String) (problemId : Nat)
    (notes : String) :
    (putNotes db teamId username problemId notes).2.teams = db.teams ∧
    (putNotes db teamId username problemId notes).2.problems = db.problems ∧
    ((∃ r saved, findProgress db teamId username problemId = some r ∧
        recordTriple saved = (teamId, username, problemId) ∧
        saved.solvedAt = r.solvedAt ∧
        (putNotes db teamId username problemId notes).2.progress =
          updateFirst
            (fun p => p.teamId = teamId ∧ p.username = username ∧ p.problemId = problemId)
            (fun _ => saved) db.progress) ∨
      (∃ saved, findProgress db teamId username problemId = none ∧
        recordTriple saved = (teamId, username, problemId) ∧
        saved.solvedAt = none ∧
        (putNotes db teamId username problemId notes).2.progress =
          db.progress ++ [saved])) := by
  unfold putNotes
  cases hr : findProgress db teamId username problemId with
  | some r =>
    obtain ⟨-, h₁, h₂, h₃⟩ := findProgress_some db teamId username problemId r hr
    exact ⟨rfl, rfl, Or.inl ⟨r, { r with notes := notes }, rfl,
      by simp [recordTriple, h₁, h₂, h₃], rfl, rfl⟩⟩
  | none =>
    exact ⟨rfl, rfl, Or.inr ⟨(⟨teamId, username, problemId, "none", none, notes⟩ : UserProgress),
      rfl, rfl, rfl, rfl⟩⟩

theorem solvedAtOf_updateFirst (db : Store) (t' u' : String) (i' : Nat)
    (r saved : UserProgress) (t u : String) (i : Nat)
    (hr : findProgress db t' u' i' = some r)
    (hsaved : recordTriple saved = (t', u', i')) :
    ((t', u', i') = (t, u, i) →
      ((updateFirst (fun p : UserProgress => decide (p.teamId = t' ∧ p.username = u' ∧
          p.problemId = i')) (fun _ => saved) db.progress).find?
        (fun p => decide (p.teamId = t ∧ p.username = u ∧ p.problemId = i))).bind
          (fun p => p.solvedAt) = saved.solvedAt ∧
      solvedAtOf db t u i = r.solvedAt) ∧
    ((t', u', i') ≠ (t, u, i) →
      (updateFirst (fun p : UserProgress => decide (p.teamId = t' ∧ p.username = u' ∧
          p.problemId = i')) (fun _ => saved) db.progress).find?
        (fun p => decide (p.teamId = t ∧ p.username = u ∧ p.problemId = i)) =
      findProgress db t u i) := by
  simp only [recordTriple, Prod.mk.injEq] at hsaved
  constructor
  · intro heq
    simp only [Prod.mk.injEq] at heq
    obtain ⟨rfl, rfl, rfl⟩ := heq
    rw [find?_updateFirst _ _ _ (fun x _ _ => by simp [hsaved])]
    unfold findProgress at hr
    unfold solvedAtOf findProgress
    rw [hr]
    exact ⟨rfl, rfl⟩
  · intro hne
    unfold findProgress
    apply find?_updateFirst_other
    intro x _ hx
    simp only [decide_eq_true_eq] at hx
    simp only [ne_eq, Prod.mk.injEq] at hne
    constructor
    · simp only [decide_eq_false_iff_not]
      rintro ⟨h₁, h₂, h₃⟩
      exact hne ⟨hx.1.symm.trans h₁, hx.2.1.symm.trans h₂, hx.2.2.symm.trans h₃⟩
    · simp only [decide_eq_false_iff_not]
      rintro ⟨h₁, h₂, h₃⟩
      exact hne ⟨hsaved.1.symm.trans h₁, hsaved.2.1.symm.trans h₂, hsaved.2.2.symm.trans h₃⟩

theorem solvedAtOf_append (db : Store) (t' u' : String) (i' : Nat) (saved : UserProgress)
    (t u : String) (i : Nat)
    (hr : findProgress db t' u' i' = none)
    (hsaved : recordTriple saved = (t', u', i')) :
    ((t', u', i') = (t, u, i) →
      ((db.progress ++ [saved]).find?
        (fun p => decide (p.teamId = t ∧ p.username = u ∧ p.problemId = i))).bind
          (fun p => p.solvedAt) = saved.solvedAt ∧
      solvedAtOf db t u i = none) ∧
    ((t', u', i') ≠ (t, u, i) →
      (db.progress ++ [saved]).find?
        (fun p => decide (p.teamId = t ∧ p.username = u ∧ p.problemId = i)) =
      findProgress db t u i) := by
  simp only [recordTriple, Prod.mk.injEq] at hsaved
  constructor
  · intro heq
    simp only [Prod.mk.injEq] at heq
    obtain ⟨rfl, rfl, rfl⟩ := heq
    unfold findProgress at hr
    unfold solvedAtOf findProgress
    rw [List.find?_append, hr]
    simp [hsaved]
  · intro hne
    simp only [ne_eq, Prod.mk.injEq] at hne
    unfold findProgress
    rw [List.find?_append]
    have : [saved].find? (fun p => decide (p.teamId = t ∧ p.username = u ∧ p.problemId = i)) =
        none := by
      simp only [List.find?_cons, List.find?_nil]
      have : ¬ (saved.teamId = t ∧ saved.username = u ∧ saved.problemId = i) := by
        rintro ⟨h₁, h₂, h₃⟩
        exact hne ⟨hsaved.1.symm.trans h₁, hsaved.2.1.symm.trans h₂, hsaved.2.2.symm.trans h₃⟩
      simp [this]
    rw [this]
    cases db.progress.find?
      (fun p => decide (p.teamId = t ∧ p.username = u ∧ p.problemId = i)) <;> rfl

theorem solvedAtOf_putStatus (db : Store) (t' u' : String) (i' : Nat) (status : String)
    (now : Int) (t u : String) (i : Nat) :
    solvedAtOf (putStatus db t' u' i' status now).2 t u i = solvedAtOf db t u i ∨
    ((t', u', i') = (t, u, i) ∧ status = "solved" ∧ solvedAtOf db t u i = none ∧
      solvedAtOf (putStatus db t' u' i' status now).2 t u i = some now) := by
  obtain ⟨-, -, h | ⟨r, saved, hr, hsaved, hsolved, h⟩ | ⟨saved, hr, hsaved, hsolved, h⟩⟩ :=
    putStatus_progress db t' u' i' status now
  · left
    unfold solvedAtOf findProgress
    rw [h]
  · obtain ⟨hsame, hother⟩ := solvedAtOf_updateFirst db t' u' i' r saved t u i hr hsaved
    by_cases heq : (t', u', i') = (t, u, i)
    · obtain ⟨h₁, h₂⟩ := hsame heq
      have hnew : solvedAtOf (putStatus db t' u' i' status now).2 t u i = saved.solvedAt := by
        unfold solvedAtOf findProgress
        rw [h]
        exact h₁
      by_cases hc : status = "solved" ∧ r.solvedAt = none
      · right
        rw [if_pos hc] at hsolved
        exact ⟨heq, hc.1, h₂.trans hc.2, hnew.trans hsolved⟩
      · left
        rw [if_neg hc] at hsolved
        rw [hnew, hsolved, h₂]
    · left
      unfold solvedAtOf findProgress
      rw [h, hother heq]
      rfl
  · obtain ⟨hsame, hother⟩ := solvedAtOf_append db t' u' i' saved t u i hr hsaved
    by_cases heq : (t', u', i') = (t, u, i)
    · obtain ⟨h₁, h₂⟩ := hsame heq
      have hnew : solvedAtOf (putStatus db t' u' i' status now).2 t u i = saved.solvedAt := by
        unfold solvedAtOf findProgress
        rw [h]
        exact h₁
      by_cases hc : status = "solved"
      · right
        rw [if_pos hc] at hsolved
        exact ⟨heq, hc, h₂, hnew.trans hsolved⟩
      · left
        rw [if_neg hc] at hsolved
        rw [hnew, hsolved, h₂]
    · left
      unfold solvedAtOf findProgress
      rw [h, hother heq]
      rfl

theorem solvedAtOf_putNotes (db : Store) (t' u' : String) (i' : Nat) (notes : String)
    (t u : String) (i : Nat) :
    solvedAtOf (putNotes db t' u' i' notes).2 t u i = solvedAtOf db t u i := by
  obtain ⟨-, -, ⟨r, saved, hr, hsaved, hsolved, h⟩ | ⟨saved, hr, hsaved, hsolved, h⟩⟩ :=
    putNotes_progress db t' u' i' notes
  · obtain ⟨hsame, hother⟩ := solvedAtOf_updateFirst db t' u' i' r saved t u i hr hsaved
    by_cases heq : (t', u', i') = (t, u, i)
    · obtain ⟨h₁, h₂⟩ := hsame heq
      unfold solvedAtOf findProgress at h₂ ⊢
      rw [h, h₁, hsolved, ← h₂]
    · unfold solvedAtOf findProgress
      rw [h, hother heq]
      rfl
  · obtain ⟨hsame, hother⟩ := solvedAtOf_append db t' u' i' saved t u i hr hsaved
    by_cases heq : (t', u', i') = (t, u, i)
    · obtain ⟨h₁, h₂⟩ := hsame heq
      unfold solvedAtOf findProgress at h₂ ⊢
      rw [h, h₁, hsolved, ← h₂]
    · unfold solvedAtOf findProgress
      rw [h, hother heq]
      rfl

theorem solvedAtOf_applyRequest (db : Store) (req : ProgressRequest) (t u : String)
    (i : Nat) :
    solvedAtOf (applyRequest db req) t u i = solvedAtOf db t u i ∨
    (solvesTriple t u i req = true ∧ solvedAtOf db t u i = none) := by
  cases req with
  | status t' u' i' status now =>
    rcases solvedAtOf_putStatus db t' u' i' status now t u i with h | ⟨heq, hs, hnone, -⟩
    · exact Or.inl h
    · right
      simp only [Prod.mk.injEq] at heq
      exact ⟨by simp [solvesTriple, heq, hs], hnone⟩
  | notes t' u' i' notes => exact Or.inl (solvedAtOf_putNotes db t' u' i' notes t u i)

theorem solvedAtOf_applyRequests_some (db : Store) (requests : List ProgressRequest)
    (t u : String) (i : Nat) (at₀ : Int) (h : solvedAtOf db t u i = some at₀) :
    solvedAtOf (applyRequests db requests) t u i = some at₀ := by
  induction requests generalizing db with
  | nil => exact h
  | cons req rest ih =>
    apply ih
    rcases solvedAtOf_applyRequest db req t u i with h₁ | ⟨-, h₁⟩
    · rw [h₁, h]
    · rw [h] at h₁
      exact absurd h₁ (by simp)

theorem solvedAtOf_applyRequests_none (db : Store) (requests : List ProgressRequest)
    (t u : String) (i : Nat) (h : solvedAtOf db t u i = none)
    (hnever : ∀ req ∈ requests, solvesTriple t u i req = false) :
    solvedAtOf (applyRequests db requests) t u i = none := by
  induction requests generalizing db with
  | nil => exact h
  | cons req rest ih =>
    apply ih
    · rcases solvedAtOf_applyRequest db req t u i with h₁ | ⟨h₁, -⟩
      · rw [h₁, h]
      · rw [hnever req (List.mem_cons_self _ _)] at h₁
        exact absurd h₁ (by simp)
    · exact fun r hr => hnever r (List.mem_cons_of_mem _ hr)

theorem solvedAtOf_first_solve (db : Store) (t u : String) (i : Nat) (now : Int)
    (h : solvedAtOf db t u i = none) (hp : findOneProblem db i t ≠ none) :
    solvedAtOf (putStatus db t u i "solved" now).2 t u i = some now := by
  obtain ⟨problem, hproblem⟩ := Option.ne_none_iff_exists'.1 hp
  have hvalid : validStatus "solved" = true := by decide
  cases hr : findProgress db t u i with
  | none =>
    have hprog : (putStatus db t u i "solved" now).2.progress =
        db.progress ++ [(⟨t, u, i, "solved", some now, ""⟩ : UserProgress)] := by
      simp [putStatus, hvalid, hproblem, hr, preSave]
    unfold solvedAtOf findProgress
    rw [hprog]
    exact ((solvedAtOf_append db t u i (⟨t, u, i, "solved", some now, ""⟩ : UserProgress)
      t u i hr rfl).1 rfl).1
  | some r =>
    have hrs : r.solvedAt = none := by
      unfold solvedAtOf at h
      rw [hr] at h
      exact h
    obtain ⟨-, h₁, h₂, h₃⟩ := findProgress_some db t u i r hr
    have hprog : (putStatus db t u i "solved" now).2.progress =
        updateFirst (fun p : UserProgress => decide (p.teamId = t ∧ p.username = u ∧
          p.problemId = i))
          (fun _ => (⟨r.teamId, r.username, r.problemId, "solved", some now, r.notes⟩ :
            UserProgress)) db.progress := by
      simp [putStatus, hvalid, hproblem, hr, preSave, hrs]
    unfold solvedAtOf findProgress
    rw [hprog]
    exact ((solvedAtOf_updateFirst db t u i r _ t u i hr
      (by simp [recordTriple, h₁, h₂, h₃])).1 rfl).1

/-- C21: `solvedAt` is set once, at the first transition into `solved`: once the record of
a triple has a `solvedAt`, no sequence of later requests to the progress routes (status
updates to any value and notes updates, for this or any other triple) changes it; a
status update to `solved` of a triple without `solvedAt` whose problem exists sets it to
the time of the request; and as long as no request sets the triple to `solved`, its
record has no `solvedAt`. -/
theorem solvedAt_set_once (db : Store) (t u : String) (i : Nat) :
    (∀ (requests : List ProgressRequest) (at₀ : Int), solvedAtOf db t u i = some at₀ →
      solvedAtOf (applyRequests db requests) t u i = some at₀) ∧
    (∀ (status : String) (now at₀ : Int), solvedAtOf db t u i = some at₀ →
      solvedAtOf (putStatus db t u i status now).2 t u i = some at₀) ∧
    (∀ now : Int, solvedAtOf db t u i = none → findOneProblem db i t ≠ none →
      solvedAtOf (putStatus db t u i "solved" now).2 t u i = some now) ∧
    (∀ requests : List ProgressRequest, solvedAtOf db t u i = none →
      (∀ req ∈ requests, solvesTriple t u i req = false) →
      solvedAtOf (applyRequests db requests) t u i = none) := by
  refine ⟨fun requests at₀ h => solvedAtOf_applyRequests_some db requests t u i at₀ h, ?_,
    fun now h hp => solvedAtOf_first_solve db t u i now h hp,
    fun requests h hnever => solvedAtOf_applyRequests_none db requests t u i h hnever⟩
  intro status now at₀ h
  rcases solvedAtOf_putStatus db t u i status now t u i with h₁ | ⟨-, -, h₁, -⟩
  · rw [h₁, h]
  · rw [h] at h₁
    exact absurd h₁ (by simp)

/-- Witness for C21: in `storeRename`, the record of (t1, U, 1) was solved at 1000; after U
sets it to todo, solves it again at 9000 and edits its notes, `solvedAt` is still 1000.
The record of (t1, W, 2) has none; W solving it at 5000 sets 5000. -/
theorem solvedAt_set_once_witness :
    solvedAtOf (applyRequests storeRename
      [ProgressRequest.status "t1" "U" 1 "todo" 8000,
       ProgressRequest.status "t1" "U" 1 "solved" 9000,
       ProgressRequest.notes "t1" "U" 1 "again"]) "t1" "U" 1 = some 1000 ∧
    solvedAtOf (putStatus storeRename "t1" "W" 2 "solved" 5000).2 "t1" "W" 2 = some 5000 :=
  ⟨(solvedAt_set_once storeRename "t1" "U" 1).1 _ 1000 (by decide),
   (solvedAt_set_once storeRename "t1" "W" 2).2.2.1 5000 (by decide) (by decide)⟩

theorem applyRequest_shape (db : Store) (req : ProgressRequest) :
    (applyRequest db req).progress = db.progress ∨
    (∃ r saved,
      findProgress db (requestTriple req).1 (requestTriple req).2.1 (requestTriple req).2.2 =
        some r ∧
      recordTriple saved = requestTriple req ∧
      (applyRequest db req).progress =
        updateFirst (fun p : UserProgress => decide (p.teamId = (requestTriple req).1 ∧
          p.username = (requestTriple req).2.1 ∧ p.problemId = (requestTriple req).2.2))
          (fun _ => saved) db.progress) ∨
    (∃ saved,
      findProgress db (requestTriple req).1 (requestTriple req).2.1 (requestTriple req).2.2 =
        none ∧
      recordTriple saved = requestTriple req ∧
      (applyRequest db req).progress = db.progress ++ [saved]) := by
  cases req with
  | status t u i status now =>
    obtain ⟨-, -, h | ⟨r, saved, hr, hsaved, -, h⟩ | ⟨saved, hr, hsaved, -, h⟩⟩ :=
      putStatus_progress db t u i status now
    · exact Or.inl h
    · exact Or.inr (Or.inl ⟨r, saved, hr, hsaved, h⟩)
    · exact Or.inr (Or.inr ⟨saved, hr, hsaved, h⟩)
  | notes t u i notes =>
    obtain ⟨-, -, ⟨r, saved, hr, hsaved, -, h⟩ | ⟨saved, hr, hsaved, -, h⟩⟩ :=
      putNotes_progress db t u i notes
    · exact Or.inr (Or.inl ⟨r, saved, hr, hsaved, h⟩)
    · exact Or.inr (Or.inr ⟨saved, hr, hsaved, h⟩)

theorem updateFirst_triples (db : Store) (t u : String) (i : Nat) (saved : UserProgress)
    (hsaved : recordTriple saved = (t, u, i)) :
    (updateFirst (fun p : UserProgress => decide (p.teamId = t ∧ p.username = u ∧
        p.problemId = i)) (fun _ => saved) db.progress).map recordTriple =
      db.progress.map recordTriple := by
  apply map_updateFirst
  intro x _ hx
  simp only [decide_eq_true_eq] at hx
  rw [hsaved]
  simp [recordTriple, hx]

theorem applyRequest_invariant (db : Store) (hinv : OneRecordPerTriple db)
    (req : ProgressRequest) : OneRecordPerTriple (applyRequest db req) := by
  have hinv' : (db.progress.map recordTriple).Nodup := hinv
  show ((applyRequest db req).progress.map recordTriple).Nodup
  rcases applyRequest_shape db req with h | ⟨r, saved, -, hsaved, h⟩ | ⟨saved, hr, hsaved, h⟩
  · rw [h]
    exact hinv'
  · have key := updateFirst_triples db (requestTriple req).1 (requestTriple req).2.1
      (requestTriple req).2.2 saved hsaved
    rw [h, key]
    exact hinv'
  · rw [h, List.map_append, List.map_cons, List.map_nil, hsaved]
    refine List.Nodup.append hinv' (List.nodup_singleton _) ?_
    intro x hx₁ hx₂
    rw [List.mem_singleton] at hx₂
    subst hx₂
    exact findProgress_none db _ _ _ hr hx₁

/-- C22: every sequence of status updates and notes updates keeps at most one progress
record per (team, user, problem): a request for a triple that has a record leaves the
list of triples of the stored records as it is (it rewrites that record in place), and a
request for a triple without a record leaves the records alone or appends one record, of
that triple. -/
theorem one_record_per_triple (db : Store) (hinv : OneRecordPerTriple db) :
    (∀ requests : List ProgressRequest, OneRecordPerTriple (applyRequests db requests)) ∧
    (∀ req : ProgressRequest,
      (∀ r, findProgress db (requestTriple req).1 (requestTriple req).2.1
          (requestTriple req).2.2 = some r →
        (applyRequest db req).progress.map recordTriple = db.progress.map recordTriple) ∧
      (findProgress db (requestTriple req).1 (requestTriple req).2.1
          (requestTriple req).2.2 = none →
        (applyRequest db req).progress = db.progress ∨
        ∃ saved, recordTriple saved = requestTriple req ∧
          (applyRequest db req).progress = db.progress ++ [saved])) := by
  constructor
  · intro requests
    induction requests generalizing db with
    | nil => exact hinv
    | cons req rest ih => exact ih (applyRequest db req) (applyRequest_invariant db hinv req)
  · intro req
    constructor
    · intro r hr
      rcases applyRequest_shape db req with h | ⟨r', saved, -, hsaved, h⟩ | ⟨saved, hr', -, -⟩
      · rw [h]
      · have key := updateFirst_triples db (requestTriple req).1 (requestTriple req).2.1
          (requestTriple req).2.2 saved hsaved
        rw [h, key]
      · rw [hr] at hr'
        exact absurd hr' (by simp)
    · intro hnone
      rcases applyRequest_shape db req with h | ⟨r', saved, hr', -, -⟩ | ⟨saved, -, hsaved, h⟩
      · exact Or.inl h
      · rw [hnone] at hr'
        exact absurd hr' (by simp)
      · exact Or.inr ⟨saved, hsaved, h⟩

/-- Witness for C22: `storeRename` has one record per triple, and it still has after W
solves problem 2 (rewriting W's record), edits notes of problem 1 (a new record) and U
edits notes of problem 1 (rewriting U's record). -/
theorem one_record_per_triple_witness :
    (applyRequests storeRename
      [ProgressRequest.status "t1" "W" 2 "solved" 5000,
       ProgressRequest.notes "t1" "W" 1 "n",
       ProgressRequest.notes "t1" "U" 1 "m"]).progress.map recordTriple =
      [("t1", "U", 1), ("t1", "U", 2), ("t1", "W", 2), ("t1", "W", 1)] ∧
    OneRecordPerTriple (applyRequests storeRename
      [ProgressRequest.status "t1" "W" 2 "solved" 5000,
       ProgressRequest.notes "t1" "W" 1 "n",
       ProgressRequest.notes "t1" "U" 1 "m"]) :=
  ⟨by decide, (one_record_per_triple storeRename (by decide)).1 _⟩

/-! ## Theorems: profile update -/

theorem unsortedLeaderboard_usernames (db : Store) (teamId : String) (team : Team) :
    (unsortedLeaderboard db teamId team).map (fun e => e.username) =
      team.members.map (fun m => m.username) := by
  simp [unsortedLeaderboard, memberEntry, List.map_map, Function.comp]

theorem modifyNth_append {α : Type} (f : α → α) (A : List α) (x : α) (B : List α) :
    modifyNth f (A ++ x :: B) A.length = A ++ f x :: B := by
  induction A with
  | nil => rfl
  | cons a A' ih => simp [modifyNth, ih]

theorem mem_updateFirst_of_not_sel {α : Type} (sel : α → Bool) (f : α → α) (l : List α)
    (x : α) (hx : x ∈ l) (hsel : sel x = false) : x ∈ updateFirst sel f l := by
  induction l with
  | nil => exact absurd hx (List.not_mem_nil _)
  | cons y ys ih =>
    by_cases hy : sel y = true
    · rcases List.mem_cons.1 hx with rfl | hx'
      · rw [hsel] at hy
        exact absurd hy (by simp)
      · simp [updateFirst, hy, hx']
    · rcases List.mem_cons.1 hx with rfl | hx'
      · simp [updateFirst, hy]
      · simp [updateFirst, hy, ih hx']

theorem updateProfile_rename (hash : String → String) (db : Store)
    (teamId u v : String) (newPassword : Option String) (team : Team)
    (A : List Member) (x : Member) (B : List Member)
    (hteam : db.teams.find? (fun t => t.teamId = teamId) = some team)
    (hmembers : team.members = A ++ x :: B) (hx : x.username = u)
    (hA : ∀ a ∈ A, a.username ≠ u) (hv : v ≠ "") (hvu : v ≠ u)
    (hfree : v ∉ team.members.map (fun m => m.username)) :
    updateProfile hash db teamId u (some v) newPassword =
      (ProfileOutcome.saved,
        { db with
          teams :=
            updateFirst (fun t => t.teamId = teamId)
              (fun t => { t with
                members :=
                  A ++ (⟨v, if isFalsy newPassword then x.password
                    else hash (orElse newPassword "")⟩ : Member) :: B }) db.teams }) := by
  have hidx : findIndex (fun m : Member => decide (m.username = u)) (A ++ x :: B) =
      ((A.length : Nat) : Int) := by
    rw [findIndex_append]
    · intro a ha
      simpa using hA a ha
    · simpa using hx
  have hany : (A ++ x :: B).any (fun m => decide (some m.username = some v)) = false := by
    rw [List.any_eq_false]
    intro m hm
    rw [hmembers] at hfree
    simp only [decide_eq_true_eq, Option.some.injEq]
    intro h
    exact hfree (List.mem_map.2 ⟨m, hm, h⟩)
  have hname : (!isFalsy (some v) && (some v != some u)) = true := by
    simp [isFalsy, hv, hvu]
  unfold updateProfile
  rw [hteam]
  simp only []
  rw [hmembers, hidx, if_neg (by omega)]
  simp only [hname, hany, Int.toNat_ofNat, modifyNth_append, orElse, hv, if_false, if_true,
    true_and]
  rw [if_neg (by simp)]
  cases hpw : isFalsy newPassword
  · simp [modifyNth_append]
  · simp

/-- C29: renaming member `u` of a team to an unused name `v` that has no progress records
saves the team with that member's name changed and nothing else: progress records and
problems are as before and other teams are untouched; the leaderboard of the team then has
one entry per former member with `u` replaced by `v`, the entry of `v` has solvedCount 0
and weightedScore 0 whatever `u` had solved, and no entry is named `u`. -/
theorem rename_leaves_progress (hash : String → String) (db : Store)
    (teamId u v : String) (newPassword : Option String) (team : Team)
    (hteam : db.teams.find? (fun t => t.teamId = teamId) = some team)
    (hu : u ∈ team.members.map (fun m => m.username))
    (hnodup : (team.members.map (fun m => m.username)).Nodup)
    (hv : v ≠ "") (hvu : v ≠ u)
    (hfree : v ∉ team.members.map (fun m => m.username))
    (hnew : ∀ p ∈ db.progress, p.teamId = teamId → p.username ≠ v) :
    (updateProfile hash db teamId u (some v) newPassword).1 = ProfileOutcome.saved ∧
    (updateProfile hash db teamId u (some v) newPassword).2.progress = db.progress ∧
    (updateProfile hash db teamId u (some v) newPassword).2.problems = db.problems ∧
    (∀ t ∈ db.teams, t.teamId ≠ teamId →
      t ∈ (updateProfile hash db teamId u (some v) newPassword).2.teams) ∧
    (∃ team', (updateProfile hash db teamId u (some v) newPassword).2.teams.find?
        (fun t => t.teamId = teamId) = some team' ∧
      team'.teamName = team.teamName ∧
      team'.members.map (fun m => m.username) =
        (team.members.map (fun m => m.username)).map (fun n => if n = u then v else n)) ∧
    ∃ body,
      getLeaderboard (updateProfile hash db teamId u (some v) newPassword).2 teamId =
        Response.json body ∧
      (⟨v, 0, 0⟩ : Entry) ∈ body ∧
      (∀ e ∈ body, e.username ≠ u) ∧
      (body.map (fun e => e.username)).Perm
        ((team.members.map (fun m => m.username)).map (fun n => if n = u then v else n)) := by
  obtain ⟨x₀, hx₀, hx₀u⟩ := List.mem_map.1 hu
  obtain ⟨A, x, B, hmembers, hx, hA⟩ :=
    exists_first_match (fun m : Member => decide (m.username = u)) team.members
      ⟨x₀, hx₀, by simpa using hx₀u⟩
  have hx' : x.username = u := by simpa using hx
  have hA' : ∀ a ∈ A, a.username ≠ u := fun a ha => by simpa using hA a ha
  have hB' : ∀ b ∈ B, b.username ≠ u := by
    intro b hb h
    rw [hmembers] at hnodup
    simp only [List.map_append, List.map_cons, List.nodup_append, List.nodup_cons,
      List.mem_map, not_exists, not_and] at hnodup
    exact hnodup.2.1.1 b hb (h.trans hx'.symm)
  have hnames : ((A ++ x :: B).map (fun m => m.username)).map
      (fun n => if n = u then v else n) =
      A.map (fun m => m.username) ++ v :: B.map (fun m => m.username) := by
    simp only [List.map_append, List.map_cons, List.map_map, hx', if_true]
    congr 1
    · apply List.map_congr_left
      intro a ha
      simp [Function.comp, hA' a ha]
    · congr 1
      apply List.map_congr_left
      intro b hb
      simp [Function.comp, hB' b hb]
  have heval := updateProfile_rename hash db teamId u v newPassword team A x B hteam
    hmembers hx' hA' hv hvu hfree
  have hfind : (updateFirst (fun t : Team => decide (t.teamId = teamId))
      (fun t => { t with
        members :=
          A ++ (⟨v, if isFalsy newPassword then x.password
            else hash (orElse newPassword "")⟩ : Member) :: B }) db.teams).find?
        (fun t => decide (t.teamId = teamId)) =
      some { team with
        members :=
          A ++ (⟨v, if isFalsy newPassword then x.password
            else hash (orElse newPassword "")⟩ : Member) :: B } := by
    rw [find?_updateFirst _ _ _ (fun t _ ht => by simpa using ht), hteam]
    rfl
  have hentry : ∀ pw : String, memberEntry db teamId ⟨v, pw⟩ = ⟨v, 0, 0⟩ := by
    intro pw
    have hnone : findSolved db teamId v = [] := by
      unfold findSolved
      rw [List.filter_eq_nil_iff]
      intro p hp
      simp only [decide_eq_true_eq, not_and]
      intro h₁ h₂
      exact absurd h₂ (hnew p hp h₁)
    simp [memberEntry, hnone, weightedScoreOf]
  rw [heval, hmembers]
  refine ⟨rfl, rfl, rfl, ?_, ⟨_, hfind, rfl, ?_⟩, ?_⟩
  · intro t ht hne
    exact mem_updateFirst_of_not_sel _ _ _ t ht (by simpa using hne)
  · rw [hnames]
    simp
  · refine ⟨_, getLeaderboard_of_team _ teamId _ hfind, ?_, ?_, ?_⟩
    · apply (mem_arraySort _ _ _).2
      unfold unsortedLeaderboard
      apply List.mem_map.2
      exact ⟨(⟨v, if isFalsy newPassword then x.password
        else hash (orElse newPassword "")⟩ : Member), by simp, hentry _⟩
    · intro e he
      have he' := (mem_arraySort _ _ _).1 he
      unfold unsortedLeaderboard at he'
      obtain ⟨m, hm, rfl⟩ := List.mem_map.1 he'
      show m.username ≠ u
      simp only [List.mem_append, List.mem_cons] at hm
      rcases hm with hm | rfl | hm
      · exact hA' m hm
      · exact hvu
      · exact hB' m hm
    · rw [hnames]
      have h₁ : ((arraySort compareEntries (unsortedLeaderboard
          { db with
            teams :=
              updateFirst (fun t => t.teamId = teamId)
                (fun t => { t with
                  members :=
                    A ++ (⟨v, if isFalsy newPassword then x.password
                      else hash (orElse newPassword "")⟩ : Member) :: B }) db.teams }
          teamId
          { team with
            members :=
              A ++ (⟨v, if isFalsy newPassword then x.password
                else hash (orElse newPassword "")⟩ : Member) :: B })).map
          (fun e => e.username)).Perm
          ((unsortedLeaderboard
          { db with
            teams :=
              updateFirst (fun t => t.teamId = teamId)
                (fun t => { t with
                  members :=
                    A ++ (⟨v, if isFalsy newPassword then x.password
                      else hash (orElse newPassword "")⟩ : Member) :: B }) db.teams }
          teamId
          { team with
            members :=
              A ++ (⟨v, if isFalsy newPassword then x.password
                else hash (orElse newPassword "")⟩ : Member) :: B }).map
            (fun e => e.username)) := (List.perm_insertionSort _ _).map _
      refine h₁.trans ?_
      rw [unsortedLeaderboard_usernames]
      simp

/-- Witness for C29: in `storeRename`, U has two solved records; after U is renamed to V
the records still name U, and the leaderboard is V with 0 and 0, then W. -/
theorem rename_leaves_progress_witness :
    getLeaderboard (updateProfile (fun s => s) storeRename "t1" "U" (some "V") none).2 "t1" =
      Response.json [⟨"V", 0, 0⟩, ⟨"W", 0, 0⟩] ∧
    (updateProfile (fun s => s) storeRename "t1" "U" (some "V") none).2.progress =
      storeRename.progress :=
  ⟨by decide,
    (rename_leaves_progress (fun s => s) storeRename "t1" "U" "V" none
      { teamId := "t1", teamName := "Team t1", members := [⟨"U", "h1"⟩, ⟨"W", "h2"⟩] }
      (by decide) (by decide) (by decide) (by decide) (by decide) (by decide)
      (by decide)).2.1⟩

/-! ## Theorems: streak on a host with daylight saving time -/

theorem countConsecutiveIn_fixedZone (offset : Int) (L : List Int) (cur : Int) (s : Nat) :
    countConsecutiveIn (fixedZone offset) L cur s = countConsecutive offset L cur s := by
  induction L generalizing cur s with
  | nil => rfl
  | cons d rest ih =>
    have hprev : setDatePrevIn (fixedZone offset) cur = setDatePrev offset cur := rfl
    simp only [countConsecutiveIn, countConsecutive, hprev, ih]

/-- With a zone of one fixed offset the handler is the handler of the streak section:
`streak offset` is `streakIn` at `fixedZone offset`. -/
theorem streakIn_fixedZone (offset now : Int) (ts : List Int) :
    streakIn (fixedZone offset) now ts = streak offset now ts := by
  have h₁ : setHoursZeroIn (fixedZone offset) now = setHoursZero offset now := rfl
  have h₂ : ∀ t, setDatePrevIn (fixedZone offset) t = setDatePrev offset t := fun _ => rfl
  have h₃ : sortedDatesIn (fixedZone offset) ts = sortedDatesOf offset ts := rfl
  simp only [streakIn, streak, h₁, h₂, h₃, countConsecutiveIn_fixedZone]

/-- C8 fails on the code: in Europe/London, on 2 April 2024 at 11:00 UTC, a user whose only
solved record is of 31 March 2024 12:00 UTC (local day two days before today, after the
clocks went forward at 01:00 UTC) has streak 1, not 0.  The key of 31 March is the UTC date
of local midnight before the change (`2024-03-31`); yesterday, 1 April, has its local
midnight at 23:00 UTC of 31 March and so the same key. -/
theorem streak_london_two_days_ago :
    localDayIn europeLondon (atDay 19815 39600000) = 19815 ∧
    localDayIn europeLondon (atDay 19813 43200000) = 19815 - 2 ∧
    dateStrIn europeLondon (atDay 19813 43200000) = 19813 ∧
    isoDate (setDatePrevIn europeLondon (setHoursZeroIn europeLondon (atDay 19815 39600000)))
      = 19813 ∧
    streakIn europeLondon (atDay 19815 39600000) [atDay 19813 43200000] = 1 := by
  decide

/-- C9 fails on the code: in Europe/London, on 1 April 2024 at 11:00 UTC, solved records of
today (1 April 09:00 UTC), yesterday (31 March 12:00 UTC) and two days ago (30 March 12:00
UTC) give streak 1, not 3: today and yesterday share the key `2024-03-31`, so the list of
unique keys has two elements, and the key one day before today's is again `2024-03-31`,
which is not the second key `2024-03-30`. -/
theorem streak_london_three_days :
    localDayIn europeLondon (atDay 19814 39600000) = 19814 ∧
    [atDay 19814 32400000, atDay 19813 43200000, atDay 19812 43200000].map
      (localDayIn europeLondon) = [19814, 19814 - 1, 19814 - 2] ∧
    sortedDatesIn europeLondon
      [atDay 19814 32400000, atDay 19813 43200000, atDay 19812 43200000] = [19813, 19812] ∧
    streakIn europeLondon (atDay 19814 39600000)
      [atDay 19814 32400000, atDay 19813 43200000, atDay 19812 43200000] = 1 := by
  decide

/-- C28 fails on the code: in Europe/London, on 1 April 2024 at 11:00 UTC, a user whose most
recent solved record is of yesterday (31 March 12:00 UTC) has streak 1, and after one more
solved record dated today (1 April 09:00 UTC) the streak is still 1, not 2: the record of
today falls under the key `2024-03-31` that yesterday already has. -/
theorem streak_london_solve_today :
    localDayIn europeLondon (atDay 19814 39600000) = 19814 ∧
    localDayIn europeLondon (atDay 19813 43200000) = 19814 - 1 ∧
    localDayIn europeLondon (atDay 19814 32400000) = 19814 ∧
    streakIn europeLondon (atDay 19814 39600000) [atDay 19813 43200000] = 1 ∧
    streakIn europeLondon (atDay 19814 39600000)
      [atDay 19814 32400000, atDay 19813 43200000] = 1 := by
  decide

/-! ## Theorems: reorder with the request's `id` as a string -/

theorem findIndex_congr {α : Type} (f g : α → Bool) (l : List α) (h : ∀ x ∈ l, f x = g x) :
    findIndex f l = findIndex g l := by
  induction l with
  | nil => rfl
  | cons a l ih =>
    have ha := h a (List.mem_cons_self a l)
    have hl := ih (fun x hx => h x (List.mem_cons_of_mem a hx))
    simp only [findIndex, ha, hl]

/-- For the id of a stored problem, in canonical form, the handler on strings is the
handler on identifiers. -/
theorem reorderRequest_canonical (codec : ObjectIdCodec) (db : Store)
    (hround : ∀ p ∈ db.problems, codec.cast (codec.toString p._id) = some p._id)
    (teamId : String) (i : Nat) (direction : Option String)
    (hi : ∃ p ∈ db.problems, p._id = i) :
    reorderRequest codec db teamId (codec.toString i) direction =
      reorder db teamId i direction := by
  obtain ⟨q, hq, rfl⟩ := hi
  have hidx : ∀ (sheet rating : String),
      findIndex (fun p => decide (codec.toString p._id = codec.toString q._id))
          (findSameRating db teamId sheet rating) =
        findIndex (fun p => decide (p._id = q._id))
          (findSameRating db teamId sheet rating) := by
    intro sheet rating
    apply findIndex_congr
    intro p hp
    have hpmem := ((mem_findSameRating db teamId sheet rating p).1 hp).1
    by_cases hpq : p._id = q._id
    · simp [hpq]
    · have : codec.toString p._id ≠ codec.toString q._id := by
        intro h
        have h₁ := hround p hpmem
        rw [h, hround q hq] at h₁
        exact hpq (Option.some.inj h₁).symm
      simp [hpq, this]
  unfold reorderRequest reorder
  rw [hround q hq]
  simp only []
  cases hp : findOneProblem db q._id teamId with
  | none => rfl
  | some problem => simp only [hidx]

theorem reorderRequest_fst_ne_notFound (codec : ObjectIdCodec) (db : Store)
    (teamId id : String) (direction : Option String) (oid : Nat) (p : Problem)
    (hcast : codec.cast id = some oid) (hp : findOneProblem db oid teamId = some p) :
    (reorderRequest codec db teamId id direction).1 ≠
      Response.error 404 "Problem not found" := by
  unfold reorderRequest
  rw [hcast]
  simp only [hp]
  unfold swapAndSave
  split_ifs
  · split <;> simp
  · split <;> simp
  · simp

/-- C19 fails as stated: with identifiers written as 24 hexadecimal digits, the request
for the id `"xyz"` on `storeP4` is answered with status 500, which is neither not-found nor
success, although no problem of the store has the id `"xyz"`. -/
theorem reorder_malformed_id :
    reorderRequest hexObjectIds storeP4 "t1" "xyz" (some "up") =
      (Response.error 500 "Failed to reorder problem", storeP4) ∧
    (∀ p ∈ storeP4.problems, hexObjectIds.toString p._id ≠ "xyz") ∧
    hexObjectIds.toString 3 = "000000000000000000000003" ∧
    hexObjectIds.cast "000000000000000000000003" = some 3 ∧
    reorderRequest hexObjectIds storeP4 "t1" "000000000000000000000003" (some "up") =
      reorder storeP4 "t1" 3 (some "up") := by
  decide

/-- C19, amended: the reorder handler answers not-found exactly when the id of the request
casts to an identifier and no stored problem has that identifier within the caller's team
(a problem with it in another team does not count), and then the store is unchanged; an id
that does not cast to an identifier is answered with status 500, the store unchanged; an
id in canonical form that names a problem of the caller's team is answered with
success. -/
theorem reorderRequest_notFound_iff (codec : ObjectIdCodec) (db : Store)
    (teamId id : String) (direction : Option String) :
    ((reorderRequest codec db teamId id direction).1 =
        Response.error 404 "Problem not found" ↔
      ∃ oid, codec.cast id = some oid ∧
        ¬ ∃ p ∈ db.problems, p._id = oid ∧ p.teamId = teamId) ∧
    ((reorderRequest codec db teamId id direction).1 =
        Response.error 404 "Problem not found" →
      (reorderRequest codec db teamId id direction).2 = db) ∧
    (codec.cast id = none →
      reorderRequest codec db teamId id direction =
        (Response.error 500 "Failed to reorder problem", db)) ∧
    ((∀ p ∈ db.problems, codec.cast (codec.toString p._id) = some p._id) →
      ∀ i, id = codec.toString i →
        (∃ p ∈ db.problems, p._id = i ∧ p.teamId = teamId) →
        (reorderRequest codec db teamId id direction).1 = Response.json true) := by
  have hnotFound : (reorderRequest codec db teamId id direction).1 =
        Response.error 404 "Problem not found" →
      (∃ oid, codec.cast id = some oid ∧
        ¬ ∃ p ∈ db.problems, p._id = oid ∧ p.teamId = teamId) ∧
      (reorderRequest codec db teamId id direction).2 = db := by
    intro h
    cases hcast : codec.cast id with
    | none =>
      unfold reorderRequest at h
      rw [hcast] at h
      exact absurd h (by simp)
    | some oid =>
      cases hp : findOneProblem db oid teamId with
      | none =>
        refine ⟨⟨oid, rfl, (findOneProblem_eq_none_iff db oid teamId).1 hp⟩, ?_⟩
        unfold reorderRequest
        rw [hcast]
        simp only [hp]
      | some p =>
        exact absurd h
          (reorderRequest_fst_ne_notFound codec db teamId id direction oid p hcast hp)
  refine ⟨⟨fun h => (hnotFound h).1, ?_⟩, fun h => (hnotFound h).2, ?_, ?_⟩
  · rintro ⟨oid, hcast, hno⟩
    have hp := (findOneProblem_eq_none_iff db oid teamId).2 hno
    unfold reorderRequest
    rw [hcast]
    simp only [hp]
  · intro hcast
    unfold reorderRequest
    rw [hcast]
  · intro hround i hid hex
    subst hid
    obtain ⟨q, hq, hqi, _⟩ := hex
    rw [reorderRequest_canonical codec db hround teamId i direction ⟨q, hq, hqi⟩]
    cases hp : findOneProblem db i teamId with
    | none =>
      exact absurd ⟨q, hq, hqi, by assumption⟩ ((findOneProblem_eq_none_iff db i teamId).1 hp)
    | some p => exact reorder_fst_of_found db teamId i p direction hp

/-- Witness for C19, amended: with identifiers written as 24 hexadecimal digits, on
`storeP4` the id of the absent identifier 7 is answered not-found with the store unchanged,
the id `"xyz"` is answered with status 500, and the id of problem 3 is answered with
success. -/
theorem reorderRequest_notFound_iff_witness :
    (reorderRequest hexObjectIds storeP4 "t1" "000000000000000000000007" (some "down")).1 =
      Response.error 404 "Problem not found" ∧
    (reorderRequest hexObjectIds storeP4 "t1" "000000000000000000000007" (some "down")).2 =
      storeP4 ∧
    reorderRequest hexObjectIds storeP4 "t1" "xyz" (some "down") =
      (Response.error 500 "Failed to reorder problem", storeP4) ∧
    (reorderRequest hexObjectIds storeP4 "t1" "000000000000000000000003" (some "up")).1 =
      Response.json true :=
  ⟨(reorderRequest_notFound_iff hexObjectIds storeP4 "t1" "000000000000000000000007"
      (some "down")).1.2 ⟨7, by decide, by decide⟩,
   (reorderRequest_notFound_iff hexObjectIds storeP4 "t1" "000000000000000000000007"
      (some "down")).2.1
      ((reorderRequest_notFound_iff hexObjectIds storeP4 "t1" "000000000000000000000007"
        (some "down")).1.2 ⟨7, by decide, by decide⟩),
   (reorderRequest_notFound_iff hexObjectIds storeP4 "t1" "xyz" (some "down")).2.2.1
      (by decide),
   (reorderRequest_notFound_iff hexObjectIds storeP4 "t1" "000000000000000000000003"
      (some "up")).2.2.2 (by decide) 3 (by decide) (by decide)⟩

/-! ## Theorems: the weight and the score as IEEE doubles -/

theorem log2Fuel_le (fuel n k : Nat) (h : n < 2 ^ (k + 1)) : log2Fuel fuel n ≤ k := by
  induction fuel generalizing n k with
  | zero => exact Nat.zero_le _
  | succ fuel ih =>
    unfold log2Fuel
    split_ifs with h2
    · exact Nat.zero_le _
    · cases k with
      | zero => simp at h; omega
      | succ k =>
        have : n / 2 < 2 ^ (k + 1) := by
          rw [Nat.div_lt_iff_lt_mul (by decide)]
          rw [pow_succ] at h
          exact h
        have := ih (n / 2) k this
        omega

theorem roundToPrecision_of_lt (n : Nat) (h : n < 2 ^ 53) : roundToPrecision n = n := by
  unfold roundToPrecision
  rw [if_pos h]

theorem toNumber_of_lt (z : Int) (h : z.natAbs < 2 ^ 53) : toNumber z = Number.finite z := by
  have h₁ : ¬ (2 ^ 1024 ≤ z.natAbs) := by
    have : (2 : Nat) ^ 53 ≤ 2 ^ 1024 := Nat.pow_le_pow_right (by decide) (by decide)
    omega
  unfold toNumber
  rw [if_neg h₁]
  simp only [roundToPrecision_of_lt _ h, if_neg h₁]
  congr 1
  split_ifs <;> omega

theorem round_quotient_floor (a P : Nat) (hP : 64 ≤ P) :
    (if a * P % 100 > 50 ∨ (a * P % 100 = 50 ∧ a * P / 100 % 2 = 1) then a * P / 100 + 1
      else a * P / 100) / P = a / 100 := by
  obtain ⟨X, hX⟩ : ∃ X, X = a / 100 * P := ⟨_, rfl⟩
  obtain ⟨Y, hY⟩ : ∃ Y, Y = a % 100 * P := ⟨_, rfl⟩
  have hsplit : a * P = 100 * X + Y := by
    rw [hX, hY]
    conv_lhs => rw [← Nat.div_add_mod a 100]
    ring
  have hmod : Y ≤ 99 * P := by
    rw [hY]
    exact Nat.mul_le_mul_right P (by have := Nat.mod_lt a (by decide : 100 > 0); omega)
  have hq := Nat.div_add_mod (a * P) 100
  have hr := Nat.mod_lt (a * P) (by decide : 100 > 0)
  rw [hsplit] at hq hr
  rw [hsplit]
  generalize (100 * X + Y) / 100 = q at *
  generalize (100 * X + Y) % 100 = r at *
  apply Nat.div_eq_of_lt_le
  · rw [← hX]
    split_ifs <;> omega
  · rw [Nat.succ_mul, ← hX]
    split_ifs <;> omega

theorem floorLog2_le_of_lt (a : Nat) (h : a < 2 ^ 53) : floorLog2 a ≤ 52 :=
  log2Fuel_le 1024 a 52 h

theorem divideBy100_of_lt (a : Nat) (h : a < 2 ^ 53) :
    (divideBy100 a).1 / 2 ^ (divideBy100 a).2 = a / 100 := by
  have hla := floorLog2_le_of_lt a h
  obtain ⟨b, hb, hbdef⟩ :
      ∃ b, b ≤ 1 ∧ (if 100 * 2 ^ floorLog2 a ≤ a * 64 then 1 else 0) = b := by
    refine ⟨_, ?_, rfl⟩
    split_ifs <;> omega
  have hbranch : floorLog2 a + b ≤ 59 := by omega
  have hP : 64 ≤ 2 ^ (59 - (floorLog2 a + b)) := by
    have : (2 : Nat) ^ 6 ≤ 2 ^ (59 - (floorLog2 a + b)) :=
      Nat.pow_le_pow_right (by decide) (by omega)
    simpa using this
  simp only [divideBy100]
  rw [hbdef]
  simp only [hbranch, if_true]
  exact round_quotient_floor a _ hP

theorem floorDiv100_of_lt (v : Int) (h0 : 0 ≤ v) (h : v.natAbs < 2 ^ 53) :
    floorDiv100 v = v / 100 := by
  have key := divideBy100_of_lt v.natAbs h
  unfold floorDiv100
  rcases hd : divideBy100 v.natAbs with ⟨m, s⟩
  rw [hd] at key
  simp only [if_pos h0]
  simp only at key
  rw [key]
  omega

theorem floorDiv100_nonpos (v : Int) (h : v < 0) : floorDiv100 v ≤ 0 := by
  unfold floorDiv100
  rcases divideBy100 v.natAbs with ⟨m, s⟩
  simp only [if_neg (not_le.2 h)]
  exact Int.neg_nonpos_of_nonneg (Int.ofNat_nonneg _)

set_option maxRecDepth 100000 in
/-- Values of IEEE arithmetic that the definitions reproduce: `2 ^ 53 + 1` is a tie and
rounds to the even neighbour `2 ^ 53`, `2 ^ 53 + 3` rounds to `2 ^ 53 + 4`; the largest
double is `2 ^ 1024 - 2 ^ 971`, and from `2 ^ 1024 - 2 ^ 970` on an integer rounds to
Infinity; the double `1 / 100` is `5764607523034235 / 2 ^ 59`, and `2 ^ 53 / 100` is
`90071992547409.92` rounded to a multiple of `2 ^ -6`. -/
theorem number_examples :
    toNumber ((2 ^ 53 + 1 : Nat) : Int) = Number.finite ((2 ^ 53 : Nat) : Int) ∧
    toNumber ((2 ^ 53 + 3 : Nat) : Int) = Number.finite ((2 ^ 53 + 4 : Nat) : Int) ∧
    toNumber (-((2 ^ 53 + 3 : Nat) : Int)) = Number.finite (-((2 ^ 53 + 4 : Nat) : Int)) ∧
    toNumber ((2 ^ 1024 - 2 ^ 970 - 1 : Nat) : Int) =
      Number.finite ((2 ^ 1024 - 2 ^ 971 : Nat) : Int) ∧
    toNumber ((2 ^ 1024 - 2 ^ 970 : Nat) : Int) = Number.posInfinity ∧
    toNumber (-((2 ^ 1024 - 2 ^ 970 : Nat) : Int)) = Number.negInfinity ∧
    divideBy100 1 = (5764607523034235, 59) ∧
    divideBy100 (2 ^ 53) = (5764607523034235, 6) ∧
    floorDiv100 (-250) = -3 ∧ floorDiv100 250 = 2 ∧
    Number.add (Number.finite ((2 ^ 53 : Nat) : Int)) (Number.finite 1) =
      Number.finite ((2 ^ 53 : Nat) : Int) ∧
    Number.add Number.posInfinity (Number.finite 1) = Number.posInfinity := by
  decide

/-- While the integer that `parseInt` reads is below `2 ^ 53` in magnitude, the weight the
code computes is the exact integer `computeWeight`. -/
theorem weight_eq_computeWeight (platform rating : String)
    (h : ∀ z, parseInt rating = some z → z.natAbs < 2 ^ 53) :
    weight platform rating = Number.finite (computeWeight platform rating) := by
  unfold weight computeWeight parseIntNumber
  split_ifs <;> try rfl
  cases hparse : parseInt rating with
  | none => rfl
  | some z =>
    have hz := h z hparse
    simp only [toNumber_of_lt z hz]
    congr 1
    rw [Int.fdiv_eq_ediv z (by decide)]
    rcases lt_or_le z 0 with hneg | hpos
    · have := floorDiv100_nonpos z hneg
      omega
    · rw [floorDiv100_of_lt z hpos hz]

theorem weight_cases (platform rating : String) :
    (weight platform rating = Number.posInfinity ∧
      platform = "TLE" ∧ parseIntNumber rating = Number.posInfinity) ∨
    (∃ n : Int, weight platform rating = Number.finite n ∧ 1 ≤ n ∧
      ¬ (platform = "TLE" ∧ parseIntNumber rating = Number.posInfinity)) := by
  unfold weight
  by_cases hT : platform = "TLE"
  · rw [if_pos hT]
    cases hparse : parseIntNumber rating with
    | finite v => exact Or.inr ⟨_, rfl, le_max_left _ _, by simp⟩
    | posInfinity => exact Or.inl ⟨rfl, hT, rfl⟩
    | negInfinity => exact Or.inr ⟨1, rfl, le_refl _, by simp⟩
    | nan => exact Or.inr ⟨1, rfl, le_refl _, by simp⟩
  · rw [if_neg hT]
    right
    split_ifs <;> exact ⟨_, rfl, by decide, fun h => hT h.1⟩

set_option maxRecDepth 100000 in
/-- C1 fails as stated: on platform TLE a rating of 309 digits `9` is read by `parseInt`
as Infinity, and the weight is Infinity, which is not an integer.  With 308 digits the
weight is finite. -/
theorem weight_infinite :
    parseIntNumber (String.mk (List.replicate 309 '9')) = Number.posInfinity ∧
    weight "TLE" (String.mk (List.replicate 309 '9')) = Number.posInfinity ∧
    (∀ n : Int, weight "TLE" (String.mk (List.replicate 309 '9')) ≠ Number.finite n) ∧
    weight "TLE" (String.mk (List.replicate 308 '9')) ≠ Number.posInfinity := by
  refine ⟨by decide, by decide, ?_, by decide⟩
  intro n h
  have h' : weight "TLE" (String.mk (List.replicate 309 '9')) = Number.posInfinity := by
    decide
  rw [h'] at h
  exact Number.noConfusion h

/-- C1, amended: for every platform and every rating string the weight of a solved problem
is at least 1: it is an integer that is at least 1, except that on platform TLE a rating
that `parseInt` reads as Infinity weighs Infinity.  The empty rating, a non-numeric, a
zero and a negative rating on TLE weigh 1. -/
theorem weight_ge_one (platform rating : String) :
    ((weight platform rating = Number.posInfinity ∧
        platform = "TLE" ∧ parseIntNumber rating = Number.posInfinity) ∨
      (∃ n : Int, weight platform rating = Number.finite n ∧ 1 ≤ n ∧
        ¬ (platform = "TLE" ∧ parseIntNumber rating = Number.posInfinity))) ∧
    weight "TLE" "" = Number.finite 1 ∧ weight "TLE" "abc" = Number.finite 1 ∧
    weight "TLE" "0" = Number.finite 1 ∧ weight "TLE" "-500" = Number.finite 1 :=
  ⟨weight_cases platform rating, by decide, by decide, by decide, by decide⟩

/-- Witness for C1, amended: on platform TLE the rating "850" weighs an integer that is at
least 1. -/
theorem weight_ge_one_witness :
    ∃ n : Int, weight "TLE" "850" = Number.finite n ∧ 1 ≤ n :=
  (weight_ge_one "TLE" "850").1.elim
    (fun h => absurd h.1 (by decide))
    (fun h => h.elim (fun n hn => ⟨n, hn.1, hn.2.1⟩))

/-- C2 fails as stated: on platform TLE the rating `900719925474099300` is read by
`parseInt` as the double 900719925474099328, whose hundredth has the floor
9007199254740993, and the weight is 9007199254740994: the quotient
9007199254740993.28 is not a double and is rounded to 9007199254740994 before
`Math.floor` is applied.  The rating `99999999999999999999` is read as the double
`10 ^ 20` and weighs `10 ^ 18`, one more than the floor of the hundredth of the integer
written. -/
theorem weight_rounded_quotient :
    parseInt "900719925474099300" = some 900719925474099300 ∧
    parseIntNumber "900719925474099300" = Number.finite 900719925474099328 ∧
    weight "TLE" "900719925474099300" = Number.finite 9007199254740994 ∧
    max 1 ((900719925474099328 : Int) / 100) = 9007199254740993 ∧
    max 1 ((900719925474099300 : Int) / 100) = 9007199254740993 ∧
    parseInt "99999999999999999999" = some 99999999999999999999 ∧
    parseIntNumber "99999999999999999999" = Number.finite 100000000000000000000 ∧
    weight "TLE" "99999999999999999999" = Number.finite 1000000000000000000 ∧
    max 1 ((99999999999999999999 : Int) / 100) = 999999999999999999 := by
  decide

/-- C2, amended: on platform TLE a rating that `parseInt` reads as an integer `n` below
`2 ^ 53` in magnitude weighs `max 1 ⌊n / 100⌋`, and a rating that `parseInt` does not read
weighs 1; rating "850" weighs 8 and rating "N/A" weighs 1. -/
theorem weight_TLE (rating : String) :
    (∀ n : Int, parseInt rating = some n → n.natAbs < 2 ^ 53 →
        parseIntNumber rating = Number.finite n ∧
        weight "TLE" rating = Number.finite (max 1 ⌊(n : ℚ) / 100⌋)) ∧
    (parseInt rating = none → weight "TLE" rating = Number.finite 1) ∧
    parseInt "850" = some 850 ∧ weight "TLE" "850" = Number.finite 8 ∧
    parseInt "N/A" = none ∧ weight "TLE" "N/A" = Number.finite 1 := by
  refine ⟨?_, ?_, by decide, by decide, by decide, by decide⟩
  · intro n hn hlt
    have hfloor : ⌊(n : ℚ) / 100⌋ = n / 100 := by
      have := Rat.floor_intCast_div_natCast n 100
      simpa using this
    have hnum : parseIntNumber rating = Number.finite n := by
      simp only [parseIntNumber, hn, toNumber_of_lt n hlt]
    refine ⟨hnum, ?_⟩
    rw [weight_eq_computeWeight "TLE" rating
      (fun z hz => by rw [hn] at hz; cases hz; exact hlt), hfloor]
    simp only [computeWeight, if_true, hn]
    rw [Int.fdiv_eq_ediv n (by decide)]
  · intro hn
    simp only [weight, if_true, parseIntNumber, hn]

/-- Witness for C2, amended: rating "1900" is read as 1900 and weighs 19; rating "-250" is
read as -250 and weighs 1. -/
theorem weight_TLE_witness :
    weight "TLE" "1900" = Number.finite (max 1 ⌊((1900 : Int) : ℚ) / 100⌋) ∧
    weight "TLE" "-250" = Number.finite (max 1 ⌊((-250 : Int) : ℚ) / 100⌋) ∧
    weight "TLE" "1900" = Number.finite 19 ∧ weight "TLE" "-250" = Number.finite 1 :=
  ⟨((weight_TLE "1900").1 1900 (by decide) (by decide)).2,
   ((weight_TLE "-250").1 (-250) (by decide) (by decide)).2, by decide, by decide⟩

theorem foldl_addWeight (l : List (Option Problem)) (acc : Number) :
    l.foldl addWeight acc =
      ((l.filterMap id).map (fun q => weight q.platform q.rating)).foldl Number.add acc := by
  induction l generalizing acc with
  | nil => rfl
  | cons x xs ih =>
    cases x with
    | none => simpa [addWeight] using ih acc
    | some q =>
      rw [List.foldl_cons, ih]
      simp [addWeight]

theorem weightedScore_explicit (db : Store) (teamId : String) (member : Member) :
    weightedScore db teamId member =
      (((db.progress.filter
            (fun p => p.teamId = teamId ∧ p.username = member.username ∧
              p.status = "solved")).filterMap
          (fun p => db.problems.find? (fun q => q._id = p.problemId))).map
        (fun q => weight q.platform q.rating)).foldl Number.add (Number.finite 0) := by
  unfold weightedScore
  rw [foldl_addWeight, List.filterMap_map]
  rfl

theorem foldl_add_exact (ws : List Int) (acc : Int) (hacc : 0 ≤ acc)
    (hpos : ∀ w ∈ ws, 0 ≤ w) (hsum : acc + ws.sum < 2 ^ 53) :
    (ws.map Number.finite).foldl Number.add (Number.finite acc) =
      Number.finite (acc + ws.sum) := by
  induction ws generalizing acc with
  | nil => simp
  | cons w ws ih =>
    have hw : 0 ≤ w := hpos w (List.mem_cons_self w ws)
    have hrest : 0 ≤ ws.sum :=
      List.sum_nonneg (fun x hx => hpos x (List.mem_cons_of_mem w hx))
    rw [List.sum_cons] at hsum
    have hstep : Number.add (Number.finite acc) (Number.finite w) = Number.finite (acc + w) := by
      show toNumber (acc + w) = Number.finite (acc + w)
      apply toNumber_of_lt
      omega
    rw [List.map_cons, List.foldl_cons, hstep,
      ih (acc + w) (by omega) (fun x hx => hpos x (List.mem_cons_of_mem w hx)) (by omega),
      List.sum_cons, add_assoc]

theorem weights_nonneg (l : List Problem) (ws : List Int)
    (h : l.map (fun q => weight q.platform q.rating) = ws.map Number.finite) :
    ∀ w ∈ ws, 0 ≤ w := by
  intro w hw
  have hmem : Number.finite w ∈ l.map (fun q => weight q.platform q.rating) := by
    rw [h]
    exact List.mem_map_of_mem _ hw
  obtain ⟨q, _, hq⟩ := List.mem_map.1 hmem
  rcases weight_cases q.platform q.rating with ⟨hinf, _⟩ | ⟨n, hn, hle, _⟩
  · simp only [hinf] at hq
    exact Number.noConfusion hq
  · simp only [hn] at hq
    cases hq
    omega

theorem weightedScore_exact (db : Store) (teamId : String) (member : Member) (ws : List Int)
    (h : ((db.progress.filter
            (fun p => p.teamId = teamId ∧ p.username = member.username ∧
              p.status = "solved")).filterMap
          (fun p => db.problems.find? (fun q => q._id = p.problemId))).map
        (fun q => weight q.platform q.rating) = ws.map Number.finite)
    (hsum : ws.sum < 2 ^ 53) :
    weightedScore db teamId member = Number.finite ws.sum := by
  rw [weightedScore_explicit, h,
    foldl_add_exact ws 0 (le_refl _) (weights_nonneg _ ws h) (by omega), zero_add]

/-- While every rating read and the total stay below `2 ^ 53`, the score the code computes
is the exact integer of `memberEntry`. -/
theorem weightedScore_eq_memberEntry (db : Store) (teamId : String) (member : Member)
    (hratings : ∀ q ∈ (findSolved db teamId member.username).filterMap (populate db),
      ∀ z, parseInt q.rating = some z → z.natAbs < 2 ^ 53)
    (hsum : (memberEntry db teamId member).weightedScore < 2 ^ 53) :
    weightedScore db teamId member =
      Number.finite (memberEntry db teamId member).weightedScore := by
  rw [memberEntry_weightedScore] at *
  apply weightedScore_exact db teamId member _ _ hsum
  unfold existingWeights
  rw [List.map_map]
  apply List.map_congr_left
  intro q hq
  exact weight_eq_computeWeight q.platform q.rating (hratings q hq)

/-- C4 fails as stated: in `storeLargeRating` the member's solved problems weigh
9007199254740992 and 1, and the weightedScore is 9007199254740992, not their sum
9007199254740993, which is not a double. -/
theorem weightedScore_rounded_sum :
    ((storeLargeRating.progress.filter
          (fun p => p.teamId = "t1" ∧ p.username = "A" ∧ p.status = "solved")).filterMap
        (fun p => storeLargeRating.problems.find? (fun q => q._id = p.problemId))).map
      (fun q => weight q.platform q.rating) =
      [Number.finite 9007199254740992, Number.finite 1] ∧
    weightedScore storeLargeRating "t1" ⟨"A", "pw"⟩ = Number.finite 9007199254740992 ∧
    weightedScore storeLargeRating "t1" ⟨"A", "pw"⟩ ≠
      Number.finite (9007199254740992 + 1) := by
  decide

/-- C4, amended: for every member the weightedScore is the result of adding, from 0 and in
the order of the records, the weights of the problems that the member's solved records (the
records of the caller's team with the member's username and status `solved`) refer to and
that are stored; when the exact sum of these weights is below `2 ^ 53` the weightedScore is
that sum; a record whose problem is gone adds nothing. -/
theorem weightedScore_number_sum (db : Store) (teamId : String) (member : Member) :
    weightedScore db teamId member =
      (((db.progress.filter
            (fun p => p.teamId = teamId ∧ p.username = member.username ∧
              p.status = "solved")).filterMap
          (fun p => db.problems.find? (fun q => q._id = p.problemId))).map
        (fun q => weight q.platform q.rating)).foldl Number.add (Number.finite 0) ∧
    (∀ ws : List Int,
      ((db.progress.filter
            (fun p => p.teamId = teamId ∧ p.username = member.username ∧
              p.status = "solved")).filterMap
          (fun p => db.problems.find? (fun q => q._id = p.problemId))).map
        (fun q => weight q.platform q.rating) = ws.map Number.finite →
      ws.sum < 2 ^ 53 →
      weightedScore db teamId member = Number.finite ws.sum) ∧
    (∀ (before after : List (Option Problem)) (acc : Number),
      (before ++ none :: after).foldl addWeight acc =
        (before ++ after).foldl addWeight acc) := by
  refine ⟨weightedScore_explicit db teamId member,
    fun ws h hsum => weightedScore_exact db teamId member ws h hsum, ?_⟩
  intro before after acc
  simp [foldl_addWeight, addWeight]

/-- Witness for C4, amended: in `storeAB` member A, with the TLE problems rated 800 and
900, scores 8 + 9 and member B, with one USACO Platinum problem, scores 20; in
`storeDangling` the record of the missing problem adds nothing to the 10 of the stored
one. -/
theorem weightedScore_number_sum_witness :
    weightedScore storeAB "t1" ⟨"A", "pw"⟩ = Number.finite ([8, 9] : List Int).sum ∧
    weightedScore storeAB "t1" ⟨"B", "pw"⟩ = Number.finite ([20] : List Int).sum ∧
    weightedScore storeDangling "t1" ⟨"A", "pw"⟩ = Number.finite ([10] : List Int).sum ∧
    weightedScore storeAB "t1" ⟨"A", "pw"⟩ = Number.finite 17 :=
  ⟨(weightedScore_number_sum storeAB "t1" ⟨"A", "pw"⟩).2.1 [8, 9] (by decide) (by decide),
   (weightedScore_number_sum storeAB "t1" ⟨"B", "pw"⟩).2.1 [20] (by decide) (by decide),
   (weightedScore_number_sum storeDangling "t1" ⟨"A", "pw"⟩).2.1 [10] (by decide) (by decide),
   by decide⟩

end CpTracker
